import Mathlib

/-!
# File-Share: wire protocol codec, peer records and peer registry

A shallow embedding of `src/src/Protocol.cpp` and `src/include/Protocol.h`, of
`src/src/Peer.cpp`, of `src/src/PeerManager.cpp`, of the eligibility filter and the
directory scan of `src/src/FileManager.cpp`, and of the request path and the download
loop of `src/src/Client.cpp`.

Conventions of the embedding:
* a `uint8_t` is a `Fin 256`; `std::vector<uint8_t>` and `std::string` are `List Byte`;
* `uint32_t` values are natural numbers, the conversion of a wider value to
  `uint32_t` is an explicit `% 4294967296`;
* `size_t` offsets and sizes are natural numbers (an offset inside a buffer plus a
  32-bit length never reaches `2^64`);
* a function returning `bool` with reference out-parameters returns an `Option` of
  the out-parameters it has written when it returns `true`;
* the host is little-endian (`memcpy` of a `uint32_t` writes its least significant
  byte first, and `htonl` swaps the four bytes), which is the header layout the
  specification records.
-/

namespace FileShare

/-- One `uint8_t`. -/
abbrev Byte := Fin 256

/-- The conversion of an integer to `uint8_t` (reduction modulo 256). -/
def byteOf (n : Nat) : Byte := ⟨n % 256, Nat.mod_lt n (by decide)⟩

/-- Embedding of `enum class MessageType : uint8_t` of `Common.h`: any byte can be
stored in it. -/
abbrev MessageType := Byte

def MessageType.PEER_LIST_REQUEST : MessageType := 1
def MessageType.PEER_LIST_RESPONSE : MessageType := 2
def MessageType.FILE_LIST_REQUEST : MessageType := 3
def MessageType.FILE_LIST_RESPONSE : MessageType := 4
def MessageType.FILE_REQUEST : MessageType := 5
def MessageType.FILE_CHUNK : MessageType := 6
def MessageType.FILE_COMPLETE : MessageType := 7
def MessageType.ERROR_MESSAGE : MessageType := 8
def MessageType.PING : MessageType := 9
def MessageType.PONG : MessageType := 10

/-- The table `crc32_table` of `Protocol.cpp`, lines 5 to 70. -/
def crc32_table : List Nat := [
  0x00000000, 0x77073096, 0xee0e612c, 0x990951ba,
  0x076dc419, 0x706af48f, 0xe963a535, 0x9e6495a3,
  0x0edb8832, 0x79dcb8a4, 0xe0d5e91e, 0x97d2d988,
  0x09b64c2b, 0x7eb17cbd, 0xe7b82d07, 0x90bf1d91,
  0x1db71064, 0x6ab020f2, 0xf3b97148, 0x84be41de,
  0x1adad47d, 0x6ddde4eb, 0xf4d4b551, 0x83d385c7,
  0x136c9856, 0x646ba8c0, 0xfd62f97a, 0x8a65c9ec,
  0x14015c4f, 0x63066cd9, 0xfa0f3d63, 0x8d080df5,
  0x3b6e20c8, 0x4c69105e, 0xd56041e4, 0xa2677172,
  0x3c03e4d1, 0x4b04d447, 0xd20d85fd, 0xa50ab56b,
  0x35b5a8fa, 0x42b2986c, 0xdbbbc9d6, 0xacbcf940,
  0x32d86ce3, 0x45df5c75, 0xdcd60dcf, 0xabd13d59,
  0x26d930ac, 0x51de003a, 0xc8d75180, 0xbfd06116,
  0x21b4f4b5, 0x56b3c423, 0xcfba9599, 0xb8bda50f,
  0x2802b89e, 0x5f058808, 0xc60cd9b2, 0xb10be924,
  0x2f6f7c87, 0x58684c11, 0xc1611dab, 0xb6662d3d,
  0x76dc4190, 0x01db7106, 0x98d220bc, 0xefd5102a,
  0x71b18589, 0x06b6b51f, 0x9fbfe4a5, 0xe8b8d433,
  0x7807c9a2, 0x0f00f934, 0x9609a88e, 0xe10e9818,
  0x7f6a0dbb, 0x086d3d2d, 0x91646c97, 0xe6635c01,
  0x6b6b51f4, 0x1c6c6162, 0x856530d8, 0xf262004e,
  0x6c0695ed, 0x1b01a57b, 0x8208f4c1, 0xf50fc457,
  0x65b0d9c6, 0x12b7e950, 0x8bbeb8ea, 0xfcb9887c,
  0x62dd1ddf, 0x15da2d49, 0x8cd37cf3, 0xfbd44c65,
  0x4db26158, 0x3ab551ce, 0xa3bc0074, 0xd4bb30e2,
  0x4adfa541, 0x3dd895d7, 0xa4d1c46d, 0xd3d6f4fb,
  0x4369e96a, 0x346ed9fc, 0xad678846, 0xda60b8d0,
  0x44042d73, 0x33031de5, 0xaa0a4c5f, 0xdd0d7cc9,
  0x5005713c, 0x270241aa, 0xbe0b1010, 0xc90c2086,
  0x5768b525, 0x206f85b3, 0xb966d409, 0xce61e49f,
  0x5edef90e, 0x29d9c998, 0xb0d09822, 0xc7d7a8b4,
  0x59b33d17, 0x2eb40d81, 0xb7bd5c3b, 0xc0ba6cad,
  0xedb88320, 0x9abfb3b6, 0x03b6e20c, 0x74b1d29a,
  0xead54739, 0x9dd277af, 0x04db2615, 0x73dc1683,
  0xe3630b12, 0x94643b84, 0x0d6d6a3e, 0x7a6a5aa8,
  0xe40ecf0b, 0x9309ff9d, 0x0a00ae27, 0x7d079eb1,
  0xf00f9344, 0x8708a3d2, 0x1e01f268, 0x6906c2fe,
  0xf762575d, 0x806567cb, 0x196c3671, 0x6e6b06e7,
  0xfed41b76, 0x89d32be0, 0x10da7a5a, 0x67dd4acc,
  0xf9b9df6f, 0x8ebeeff9, 0x17b7be43, 0x60b08ed5,
  0xd6d6a3e8, 0xa1d1937e, 0x38d8c2c4, 0x4fdff252,
  0xd1bb67f1, 0xa6bc5767, 0x3fb506dd, 0x48b2364b,
  0xd80d2bda, 0xaf0a1b4c, 0x36034af6, 0x41047a60,
  0xdf60efc3, 0xa867df55, 0x316e8eef, 0x4669be79,
  0xcb61b38c, 0xbc66831a, 0x256fd2a0, 0x5268e236,
  0xcc0c7795, 0xbb0b4703, 0x220216b9, 0x5505262f,
  0xc5ba3bbe, 0xb2bd0b28, 0x2bb45a92, 0x5cb36a04,
  0xc2d7ffa7, 0xb5d0cf31, 0x2cd99e8b, 0x5bdeae1d,
  0x9b64c2b0, 0xec63f226, 0x756aa39c, 0x026d930a,
  0x9c0906a9, 0xeb0e363f, 0x72076785, 0x05005713,
  0x95bf4a82, 0xe2b87a14, 0x7bb12bae, 0x0cb61b38,
  0x92d28e9b, 0xe5d5be0d, 0x7cdcefb7, 0x0bdbdf21,
  0x86d3d2d4, 0xf1d4e242, 0x68ddb3f8, 0x1fda836e,
  0x81be16cd, 0xf6b9265b, 0x6fb077e1, 0x18b74777,
  0x88085ae6, 0xff0f6a70, 0x66063bca, 0x11010b5c,
  0x8f659eff, 0xf862ae69, 0x616bffd3, 0x166ccf45,
  0xa00ae278, 0xd70dd2ee, 0x4e048354, 0x3903b3c2,
  0xa7672661, 0xd06016f7, 0x4969474d, 0x3e6e77db,
  0xaed16a4a, 0xd9d65adc, 0x40df0b66, 0x37d83bf0,
  0xa9bcae53, 0xdebb9ec5, 0x47b2cf7f, 0x30b5ffe9,
  0xbdbdf21c, 0xcabac28a, 0x53b39330, 0x24b4a3a6,
  0xbad03605, 0xcdd70693, 0x54de5729, 0x23d967bf,
  0xb3667a2e, 0xc4614ab8, 0x5d681b02, 0x2a6f2b94,
  0xb40bbe37, 0xc30c8ea1, 0x5a05df1b, 0x2d02ef8d
]

/-- The loop body of `Protocol::calculateCRC32`:
`crc = crc32_table[(crc ^ byte) & 0xFF] ^ (crc >> 8)`. -/
def crc32Update (crc : Nat) (byte : Byte) : Nat :=
  crc32_table.getD ((crc ^^^ byte.val) &&& 0xFF) 0 ^^^ (crc >>> 8)

/-- Embedding of `Protocol::calculateCRC32`. -/
def calculateCRC32 (data : List Byte) : Nat :=
  data.foldl crc32Update 0xFFFFFFFF ^^^ 0xFFFFFFFF

/-- Embedding of `struct MessageHeader` of `Protocol.h`. -/
structure MessageHeader where
  magic : Nat
  version : Nat
  type : MessageType
  payload_size : Nat
  checksum : Nat
deriving DecidableEq, Repr

def MessageHeader.MAGIC_NUMBER : Nat := 0x50325032
def MessageHeader.PROTOCOL_VERSION : Nat := 1

/-- Embedding of `MessageHeader::isValid`. -/
def MessageHeader.isValid (h : MessageHeader) : Bool :=
  h.magic == MessageHeader.MAGIC_NUMBER && h.version == MessageHeader.PROTOCOL_VERSION

/-- Value of `sizeof(MessageHeader)`: the struct is declared `__attribute__((packed))`,
so its five fields of 4, 4, 1, 4 and 4 bytes are laid out without padding. -/
def sizeofMessageHeader : Nat := 17

/-- The four bytes a `uint32_t` occupies in memory (least significant first). -/
def storeU32 (v : Nat) : List Byte :=
  [byteOf v, byteOf (v / 256), byteOf (v / 65536), byteOf (v / 16777216)]

/-- The `uint32_t` whose memory bytes are `b0 b1 b2 b3`. -/
def loadU32 (b0 b1 b2 b3 : Byte) : Nat :=
  b0.val + 256 * b1.val + 65536 * b2.val + 16777216 * b3.val

/-- The `uint32_t` read by `memcpy` from `buffer` at `offset`. -/
def loadU32At (buffer : List Byte) (offset : Nat) : Nat :=
  loadU32 (buffer.getD offset 0) (buffer.getD (offset + 1) 0)
    (buffer.getD (offset + 2) 0) (buffer.getD (offset + 3) 0)

/-- The object representation of a packed `MessageHeader`
(what `memcpy(message.data(), &header, sizeof(MessageHeader))` writes). -/
def MessageHeader.bytes (h : MessageHeader) : List Byte :=
  storeU32 h.magic ++ storeU32 h.version ++ [h.type] ++ storeU32 h.payload_size ++
    storeU32 h.checksum

/-- The header read by `memcpy(&header, data.data(), sizeof(MessageHeader))`. -/
def readHeader (data : List Byte) : MessageHeader :=
  { magic := loadU32At data 0
    version := loadU32At data 4
    type := data.getD 8 0
    payload_size := loadU32At data 9
    checksum := loadU32At data 13 }

/-- Embedding of `Protocol::createMessage`: the header is copied to the front of the
message and the payload, when there is one, right behind it. -/
def createMessage (type : MessageType) (payload : List Byte) : List Byte :=
  let header : MessageHeader :=
    { magic := MessageHeader.MAGIC_NUMBER
      version := MessageHeader.PROTOCOL_VERSION
      type := type
      payload_size := payload.length % 4294967296
      checksum := calculateCRC32 payload }
  header.bytes ++ payload

/-- Embedding of `Protocol::parseMessage`: `none` is `return false`, and
`some (type, payload)` is `return true` with the two out-parameters. -/
def parseMessage (data : List Byte) : Option (MessageType × List Byte) :=
  if data.length < sizeofMessageHeader then none
  else
    let header := readHeader data
    if !header.isValid then none
    else if data.length ≠ sizeofMessageHeader + header.payload_size then none
    else if header.payload_size > 0 then
      let payload := (data.drop sizeofMessageHeader).take header.payload_size
      if calculateCRC32 payload ≠ header.checksum then none
      else some (header.type, payload)
    else some (header.type, [])

/-- One bit step of the standard bit-by-bit CRC-32 with the reflected IEEE
polynomial `0xEDB88320`: shift right, and XOR the polynomial in when the bit shifted
out is set. -/
def crc32BitStep (crc : Nat) : Nat :=
  if crc % 2 = 1 then (crc >>> 1) ^^^ 0xEDB88320 else crc >>> 1

/-- One byte of the standard bit-by-bit CRC-32: XOR the byte into the low bits of the
register, then eight bit steps. -/
def crc32ByteBitwise (crc : Nat) (byte : Byte) : Nat :=
  crc32BitStep^[8] (crc ^^^ byte.val)

/-- The standard bit-by-bit CRC-32 as the specification words it: reflected IEEE
polynomial `0xEDB88320`, initial value `0xFFFFFFFF`, final XOR `0xFFFFFFFF`.
This is the reference `calculateCRC32` is compared with. -/
def crc32Bitwise (data : List Byte) : Nat :=
  data.foldl crc32ByteBitwise 0xFFFFFFFF ^^^ 0xFFFFFFFF

/-! ### Payload encodings -/

/-- Function `htonl` on a little-endian host: the byte swap of a 32-bit value. -/
def htonl (v : Nat) : Nat :=
  v % 256 * 16777216 + v / 256 % 256 * 65536 + v / 65536 % 256 * 256 + v / 16777216 % 256

/-- Function `ntohl` on a little-endian host: the same byte swap. -/
def ntohl (v : Nat) : Nat := htonl v

/-- Embedding of `Protocol::serializeUint32`. The parameter is a `uint32_t`; callers pass `size_t`
and `time_t` values, and the implicit conversion at the call is the `% 4294967296`. -/
def serializeUint32 (buffer : List Byte) (value : Nat) : List Byte :=
  buffer ++ storeU32 (htonl (value % 4294967296))

/-- Embedding of `Protocol::deserializeUint32`: `some (value, offset)` holds the value read and the
advanced offset. -/
def deserializeUint32 (buffer : List Byte) (offset : Nat) : Option (Nat × Nat) :=
  if offset + 4 > buffer.length then none
  else some (ntohl (loadU32At buffer offset), offset + 4)

/-- Embedding of `Protocol::serializeString`. -/
def serializeString (buffer : List Byte) (str : List Byte) : List Byte :=
  serializeUint32 buffer str.length ++ str

/-- Embedding of `Protocol::deserializeString`: `some (str, offset)` holds the string read and the
advanced offset. -/
def deserializeString (buffer : List Byte) (offset : Nat) : Option (List Byte × Nat) :=
  match deserializeUint32 buffer offset with
  | none => none
  | some (length, offset) =>
    if offset + length > buffer.length then none
    else some ((buffer.drop offset).take length, offset + length)

/-- Embedding of `struct FileInfo` of `Peer.h`; `size` is a `size_t`, `last_modified` a `time_t`
(a signed integer). -/
structure FileInfo where
  filename : List Byte
  filepath : List Byte
  size : Nat
  hash : List Byte
  last_modified : Int
deriving DecidableEq, Repr

/-- The conversion of a `time_t` to `uint32_t`. -/
def timeToUint32 (t : Int) : Nat := (t % 4294967296).toNat

/-- The body of the `for` loop of `Protocol::createFileListResponse`. -/
def serializeFileInfo (payload : List Byte) (file : FileInfo) : List Byte :=
  serializeUint32
    (serializeString
      (serializeUint32 (serializeString payload file.filename) file.size)
      file.hash)
    (timeToUint32 file.last_modified)

/-- The local `payload` that `Protocol::createFileListResponse` builds. -/
def fileListPayload (files : List FileInfo) : List Byte :=
  files.foldl serializeFileInfo (serializeUint32 [] files.length)

/-- Embedding of `Protocol::createFileListResponse`. -/
def createFileListResponse (files : List FileInfo) : List Byte :=
  createMessage MessageType.FILE_LIST_RESPONSE (fileListPayload files)

/-- The `for (uint32_t i = 0; i < file_count; ++i)` loop of
`Protocol::parseFileListResponse`; the first argument counts the iterations left. -/
def parseFileListLoop (payload : List Byte) :
    Nat → Nat → List FileInfo → Option (List FileInfo)
  | 0, _, files => some files
  | remaining + 1, offset, files =>
    match deserializeString payload offset with
    | none => none
    | some (filename, offset) =>
      match deserializeUint32 payload offset with
      | none => none
      | some (size, offset) =>
        match deserializeString payload offset with
        | none => none
        | some (hash, offset) =>
          match deserializeUint32 payload offset with
          | none => none
          | some (modified, offset) =>
            parseFileListLoop payload remaining offset
              (files ++ [FileInfo.mk filename [] size hash (Int.ofNat modified)])

/-- Embedding of `Protocol::parseFileListResponse`. -/
def parseFileListResponse (payload : List Byte) : Option (List FileInfo) :=
  match deserializeUint32 payload 0 with
  | none => none
  | some (file_count, offset) => parseFileListLoop payload file_count offset []

/-- The local `payload` that `Protocol::createFileRequest` builds. -/
def fileRequestPayload (filename : List Byte) (offset length : Nat) : List Byte :=
  serializeUint32 (serializeUint32 (serializeString [] filename) offset) length

/-- Embedding of `Protocol::createFileRequest`. -/
def createFileRequest (filename : List Byte) (offset length : Nat) : List Byte :=
  createMessage MessageType.FILE_REQUEST (fileRequestPayload filename offset length)

/-- Embedding of `Protocol::parseFileRequest`: `some (filename, offset, length)`. -/
def parseFileRequest (payload : List Byte) : Option (List Byte × Nat × Nat) :=
  match deserializeString payload 0 with
  | none => none
  | some (filename, pos) =>
    match deserializeUint32 payload pos with
    | none => none
    | some (offset32, pos) =>
      match deserializeUint32 payload pos with
      | none => none
      | some (length32, _) => some (filename, offset32, length32)

/-- The local `payload` that `Protocol::createFileChunk` builds. -/
def fileChunkPayload (chunk_data : List Byte) (offset : Nat) : List Byte :=
  serializeUint32 (serializeUint32 [] offset) chunk_data.length ++ chunk_data

/-- Embedding of `Protocol::createFileChunk`. -/
def createFileChunk (chunk_data : List Byte) (offset : Nat) : List Byte :=
  createMessage MessageType.FILE_CHUNK (fileChunkPayload chunk_data offset)

/-- Embedding of `Protocol::parseFileChunk`: `some (chunk_data, offset)`. -/
def parseFileChunk (payload : List Byte) : Option (List Byte × Nat) :=
  match deserializeUint32 payload 0 with
  | none => none
  | some (offset32, pos) =>
    match deserializeUint32 payload pos with
    | none => none
    | some (chunk_size, pos) =>
      if pos + chunk_size > payload.length then none
      else some ((payload.drop pos).take chunk_size, offset32)

/-- The four bytes of a 32-bit value in network byte order (most significant first). -/
def bigEndian32 (v : Nat) : List Byte :=
  [byteOf (v / 16777216), byteOf (v / 65536), byteOf (v / 256), byteOf v]

/-- The local `payload` that `Protocol::createPeerListResponse` builds. -/
def peerListPayload (peer_data : List (List Byte)) : List Byte :=
  peer_data.foldl serializeString (serializeUint32 [] peer_data.length)

/-- Embedding of `Protocol::createPeerListResponse`. -/
def createPeerListResponse (peer_data : List (List Byte)) : List Byte :=
  createMessage MessageType.PEER_LIST_RESPONSE (peerListPayload peer_data)

/-- The `for (uint32_t i = 0; i < peer_count; ++i)` loop of
`Protocol::parsePeerListResponse`; the first argument counts the iterations left. -/
def parsePeerListLoop (payload : List Byte) :
    Nat → Nat → List (List Byte) → Option (List (List Byte))
  | 0, _, peer_data => some peer_data
  | remaining + 1, offset, peer_data =>
    match deserializeString payload offset with
    | none => none
    | some (peer, offset) => parsePeerListLoop payload remaining offset (peer_data ++ [peer])

/-- Embedding of `Protocol::parsePeerListResponse`. -/
def parsePeerListResponse (payload : List Byte) : Option (List (List Byte)) :=
  match deserializeUint32 payload 0 with
  | none => none
  | some (peer_count, offset) => parsePeerListLoop payload peer_count offset []

/-- Embedding of `enum class ErrorCode : uint8_t` of `Common.h`. -/
abbrev ErrorCode := Byte

def ErrorCode.SUCCESS : ErrorCode := 0
def ErrorCode.FILE_NOT_FOUND : ErrorCode := 1
def ErrorCode.PERMISSION_DENIED : ErrorCode := 2
def ErrorCode.NETWORK_ERROR : ErrorCode := 3
def ErrorCode.PROTOCOL_ERROR : ErrorCode := 4

/-- The local `payload` that `Protocol::createErrorMessage` builds. -/
def errorMessagePayload (code : ErrorCode) (message : List Byte) : List Byte :=
  serializeString [code] message

/-- Embedding of `Protocol::createErrorMessage`. -/
def createErrorMessage (code : ErrorCode) (message : List Byte) : List Byte :=
  createMessage MessageType.ERROR_MESSAGE (errorMessagePayload code message)

/-! ### The client: what goes on the socket -/

/-- Embedding of `Client::sendMessage` on a socket whose `send` calls all succeed: the
bytes handed to the socket, `none` when the call throws because the client is not
connected. -/
def Client.sendMessage (connected : Bool) (type : MessageType) (payload : List Byte) :
    Option (List Byte) :=
  if !connected then none
  else
    let message := type :: payload
    let length := htonl (message.length % 4294967296)
    some (storeU32 length ++ message)

/-- The request step of `Client::downloadFile` (lines 210 to 212): the payload is the
raw bytes of the filename, sent with type FILE_REQUEST. -/
def Client.downloadFileRequest (connected : Bool) (filename : List Byte) :
    Option (List Byte) :=
  Client.sendMessage connected MessageType.FILE_REQUEST filename

/-! ### Peer (`Peer.h`, `Peer.cpp`)

Time points of `std::chrono::system_clock` are integers counting nanoseconds (the
clock period of libstdc++); a function that reads the clock takes the reading `now`
as an argument. A function that throws returns `none`. -/

/-- Embedding of `class Peer`: its data members, without the mutex. -/
structure Peer where
  peer_id : List Byte
  ip_address : List Byte
  port : Int
  shared_files : List FileInfo
  is_active : Bool
  last_seen : Int
deriving DecidableEq, Repr

/-- Embedding of `Peer::updateLastSeen`. -/
def Peer.updateLastSeen (p : Peer) (now : Int) : Peer :=
  { p with last_seen := now }

/-- The constructor `Peer::Peer(id, ip, p)`: no files, active, `last_seen` set by
`updateLastSeen`. -/
def Peer.new (id ip : List Byte) (p : Int) (now : Int) : Peer :=
  Peer.updateLastSeen
    { peer_id := id, ip_address := ip, port := p, shared_files := [], is_active := true,
      last_seen := 0 } now

/-- The body of `Peer::addFile` on the vector `shared_files`: the first entry with the
same filename is overwritten in place (`*it = file`), and when `find_if` reaches the
end the file is pushed at the back. -/
def addFileTo (file : FileInfo) : List FileInfo → List FileInfo
  | [] => [file]
  | f :: rest =>
    if f.filename = file.filename then file :: rest else f :: addFileTo file rest

/-- Embedding of `Peer::addFile`. -/
def Peer.addFile (p : Peer) (file : FileInfo) : Peer :=
  { p with shared_files := addFileTo file p.shared_files }

/-- Embedding of `Peer::removeFile`: `remove_if` and `erase` drop every entry with
that filename and keep the others in order. -/
def Peer.removeFile (p : Peer) (filename : List Byte) : Peer :=
  { p with shared_files := p.shared_files.filter (fun f => !decide (f.filename = filename)) }

/-- Embedding of `Peer::getFiles`. -/
def Peer.getFiles (p : Peer) : List FileInfo := p.shared_files

/-- Embedding of `Peer::hasFile`. -/
def Peer.hasFile (p : Peer) (filename : List Byte) : Bool :=
  p.shared_files.any (fun f => decide (f.filename = filename))

/-- Embedding of `Peer::getFileInfo`; `none` when it throws. -/
def Peer.getFileInfo (p : Peer) (filename : List Byte) : Option FileInfo :=
  p.shared_files.find? (fun f => decide (f.filename = filename))

/-- Embedding of `Peer::setActive`. -/
def Peer.setActive (p : Peer) (active : Bool) (now : Int) : Peer :=
  if active then Peer.updateLastSeen { p with is_active := active } now
  else { p with is_active := active }

/-- The characters `operator<<` writes for an unsigned integer (decimal digits). -/
def decimal (n : Nat) : List Byte :=
  (Nat.toDigits 10 n).map (fun c => byteOf c.toNat)

/-- The characters `operator<<` writes for an `int`. -/
def decimalInt (i : Int) : List Byte :=
  if i < 0 then 45 :: decimal i.natAbs else decimal i.toNat

/-- Embedding of `Peer::serialize`; 124 is the character `|`, and a `bool` is written
as the digit 1 or 0. -/
def Peer.serialize (p : Peer) : List Byte :=
  let oss := p.peer_id ++ [124] ++ p.ip_address ++ [124] ++ decimalInt p.port ++ [124] ++
    (if p.is_active then [49] else [48])
  let oss := oss ++ [124] ++ decimal p.shared_files.length
  p.shared_files.foldl
    (fun oss file =>
      oss ++ [124] ++ file.filename ++ [124] ++ decimal file.size ++ [124] ++ file.hash)
    oss

/-- The loop `while (std::getline(iss, token, delim)) tokens.push_back(token)`: the
second argument is the token being read. A delimiter ends the token; at the end of
the stream a token is produced only when characters were extracted for it, so nothing
follows a final delimiter. -/
def getlineTokens (delim : Byte) : List Byte → List Byte → List (List Byte)
  | [], token => if token.isEmpty then [] else [token]
  | c :: rest, token =>
    if c = delim then token :: getlineTokens delim rest []
    else getlineTokens delim rest (token ++ [c])

/-- The C function `isspace` in the default locale. -/
def isspace (c : Byte) : Bool := c.val == 32 || (9 ≤ c.val && c.val ≤ 13)

/-- The C function `isdigit`. -/
def isdigit (c : Byte) : Bool := 48 ≤ c.val && c.val ≤ 57

/-- The scan shared by `strtol` and `strtoul` in base 10: leading white space, an
optional sign, then the longest run of digits. The result is `none` when there is no
digit (no conversion), else whether a minus sign was read and the magnitude. -/
def scanInteger (str : List Byte) : Option (Bool × Nat) :=
  let str := str.dropWhile isspace
  let signed : Bool × List Byte :=
    match str with
    | [] => (false, [])
    | c :: rest =>
      if c.val = 45 then (true, rest) else if c.val = 43 then (false, rest)
      else (false, c :: rest)
  let digits := signed.2.takeWhile isdigit
  if digits.isEmpty then none
  else some (signed.1, digits.foldl (fun acc d => 10 * acc + (d.val - 48)) 0)

/-- The library function `std::stoi`: `none` when it throws (`invalid_argument` without
a digit, `out_of_range` outside the range of `int`). -/
def stoi (str : List Byte) : Option Int :=
  match scanInteger str with
  | none => none
  | some (negative, magnitude) =>
    let value : Int := if negative then -(magnitude : Int) else (magnitude : Int)
    if value < -2147483648 ∨ 2147483647 < value then none else some value

/-- The library function `std::stoul` with a 64-bit `unsigned long`: `none` when it
throws; a minus sign negates the value modulo 2^64. -/
def stoul (str : List Byte) : Option Nat :=
  match scanInteger str with
  | none => none
  | some (negative, magnitude) =>
    if 18446744073709551615 < magnitude then none
    else if negative then some ((18446744073709551616 - magnitude) % 18446744073709551616)
    else some magnitude

/-- The file loop of `Peer::deserialize`,
`for (i = 0; i < file_count && idx + 2 < tokens.size(); ++i)`; the first argument
counts the iterations left before `i` reaches `file_count`. -/
def Peer.deserializeFiles (tokens : List (List Byte)) : Nat → Nat → Peer → Option Peer
  | 0, _, peer => some peer
  | remaining + 1, idx, peer =>
    if idx + 2 < tokens.length then
      match stoul (tokens.getD (idx + 1) []) with
      | none => none
      | some size =>
        Peer.deserializeFiles tokens remaining (idx + 3)
          (peer.addFile
            { filename := tokens.getD idx [], filepath := [], size := size,
              hash := tokens.getD (idx + 2) [], last_modified := 0 })
    else some peer

/-- Embedding of `Peer::deserialize`; `none` when it throws. -/
def Peer.deserialize (now : Int) (data : List Byte) : Option Peer :=
  let tokens := getlineTokens 124 data []
  if tokens.length < 5 then none
  else
    match stoi (tokens.getD 2 []) with
    | none => none
    | some port =>
      let peer := Peer.new (tokens.getD 0 []) (tokens.getD 1 []) port now
      let peer := peer.setActive (decide (tokens.getD 3 [] = [49])) now
      match stoul (tokens.getD 4 []) with
      | none => none
      | some file_count => Peer.deserializeFiles tokens file_count 5 peer

/-! ### Peer registry (`PeerManager.h`, `PeerManager.cpp`)

The member `peers`, a `std::unordered_map<std::string, std::shared_ptr<Peer>>`, is a
list of (key, peer) entries; the order of the list stands for the iteration order of
the map, which the standard leaves unspecified. Lookups take the first entry with the
key. The calls are taken one at a time, as the lock serialises them. -/

/-- The entries of the member `peers`. -/
abbrev PeerMap := List (List Byte × Peer)

/-- The assignment `peers[key] = peer`: the value of an existing key is overwritten, a
new key gets a new entry. -/
def PeerManager.assign (key : List Byte) (peer : Peer) : PeerMap → PeerMap
  | [] => [(key, peer)]
  | e :: rest =>
    if e.1 = key then (e.1, peer) :: rest else e :: PeerManager.assign key peer rest

/-- Embedding of `PeerManager::addPeer`; `none` is a null `shared_ptr`. -/
def PeerManager.addPeer (peers : PeerMap) (peer : Option Peer) : PeerMap :=
  match peer with
  | none => peers
  | some peer => PeerManager.assign peer.peer_id peer peers

/-- Embedding of `PeerManager::removePeer`: `find` then `erase`. -/
def PeerManager.removePeer : PeerMap → List Byte → PeerMap
  | [], _ => []
  | e :: rest, peer_id =>
    if e.1 = peer_id then rest else e :: PeerManager.removePeer rest peer_id

/-- Embedding of `PeerManager::getPeer`; `none` is `nullptr`. -/
def PeerManager.getPeer : PeerMap → List Byte → Option Peer
  | [], _ => none
  | e :: rest, peer_id =>
    if e.1 = peer_id then some e.2 else PeerManager.getPeer rest peer_id

/-- Embedding of `PeerManager::getAllPeers`. -/
def PeerManager.getAllPeers (peers : PeerMap) : List Peer :=
  peers.map (fun e => e.2)

/-- Embedding of `PeerManager::getActivePeers`. -/
def PeerManager.getActivePeers (peers : PeerMap) : List Peer :=
  (peers.filter (fun e => e.2.is_active)).map (fun e => e.2)

/-- Embedding of `PeerManager::findPeersWithFile`. -/
def PeerManager.findPeersWithFile (peers : PeerMap) (filename : List Byte) : List Peer :=
  (peers.filter (fun e => e.2.is_active && e.2.hasFile filename)).map (fun e => e.2)

/-- What `PeerManager::updatePeerFileList` does to the peer it finds: it removes, one
by one, the filenames of the snapshot `getFiles()`, adds the new files one by one
with `addFile`, and calls `updateLastSeen`. -/
def PeerManager.replaceFiles (now : Int) (peer : Peer) (files : List FileInfo) : Peer :=
  let existing_files := peer.getFiles
  let peer := existing_files.foldl (fun p file => p.removeFile file.filename) peer
  let peer := files.foldl Peer.addFile peer
  peer.updateLastSeen now

/-- Embedding of `PeerManager::updatePeerFileList`. -/
def PeerManager.updatePeerFileList (now : Int) :
    PeerMap → List Byte → List FileInfo → PeerMap
  | [], _, _ => []
  | e :: rest, peer_id, files =>
    if e.1 = peer_id then (e.1, PeerManager.replaceFiles now e.2 files) :: rest
    else e :: PeerManager.updatePeerFileList now rest peer_id files

/-- The value of `std::chrono::minutes(5)` in clock ticks (nanoseconds). -/
def staleThreshold : Int := 300000000000

/-- Embedding of `PeerManager::removeStalePeers`, with `now` the clock reading it takes
at its start. -/
def PeerManager.removeStalePeers (now : Int) : PeerMap → PeerMap
  | [] => []
  | e :: rest =>
    if now - e.2.last_seen > staleThreshold then PeerManager.removeStalePeers now rest
    else e :: PeerManager.removeStalePeers now rest

/-- Embedding of `PeerManager::broadcastPeerDiscovery`. The argument `probe` stands for
the network and the clock: `some t` when `connect` succeeds and `sendPing` does not
throw, with `t` the clock reading of the following `updateLastSeen`, and `none` when
the connection fails or an exception is caught. Only the peers that `getActivePeers`
returned are visited. -/
def PeerManager.broadcastPeerDiscovery (probe : Peer → Option Int) (peers : PeerMap) :
    PeerMap :=
  peers.map (fun e =>
    if e.2.is_active then
      match probe e.2 with
      | some t => (e.1, e.2.updateLastSeen t)
      | none => (e.1, e.2.setActive false 0)
    else e)

/-- Embedding of `PeerManager::getActivePeerCount`. -/
def PeerManager.getActivePeerCount (peers : PeerMap) : Nat :=
  peers.countP (fun e => e.2.is_active)

/-- Embedding of `PeerManager::getTotalPeerCount`. -/
def PeerManager.getTotalPeerCount (peers : PeerMap) : Nat := peers.length

/-- The registry states reachable from the empty registry of the constructor through
`addPeer`, `removePeer`, `updatePeerFileList`, `removeStalePeers` and the liveness
probe `broadcastPeerDiscovery`. -/
inductive PeerManager.Reachable : PeerMap → Prop
  | init : PeerManager.Reachable []
  | addPeer (peers : PeerMap) (peer : Option Peer) :
      PeerManager.Reachable peers → PeerManager.Reachable (PeerManager.addPeer peers peer)
  | removePeer (peers : PeerMap) (peer_id : List Byte) :
      PeerManager.Reachable peers →
      PeerManager.Reachable (PeerManager.removePeer peers peer_id)
  | updatePeerFileList (now : Int) (peers : PeerMap) (peer_id : List Byte)
      (files : List FileInfo) :
      PeerManager.Reachable peers →
      PeerManager.Reachable (PeerManager.updatePeerFileList now peers peer_id files)
  | removeStalePeers (now : Int) (peers : PeerMap) :
      PeerManager.Reachable peers →
      PeerManager.Reachable (PeerManager.removeStalePeers now peers)
  | broadcastPeerDiscovery (probe : Peer → Option Int) (peers : PeerMap) :
      PeerManager.Reachable peers →
      PeerManager.Reachable (PeerManager.broadcastPeerDiscovery probe peers)

/-- One call on the file list of a peer: `addFile(file)` or `removeFile(filename)`. -/
inductive FileOp where
  | addFile (file : FileInfo)
  | removeFile (filename : List Byte)
deriving DecidableEq, Repr

/-- The effect of one `addFile` or `removeFile` call on a peer. -/
def Peer.applyOp (p : Peer) : FileOp → Peer
  | FileOp.addFile file => p.addFile file
  | FileOp.removeFile filename => p.removeFile filename

/-! ### File index (`FileManager.cpp`)

Paths are byte strings in the generic format with the separator `/` (47); the two
library functions `path::filename` and `path::extension` are modelled after libstdc++.
The directory tree is the list of entries the recursive iterator produces; for each
entry the answers of the file system (size, modification time) and the SHA-256 hex
digest are part of the entry, `none` standing for the call that throws. -/

/-- The library function `std::filesystem::path::filename`: the characters after the
last separator. -/
def pathFilename (path : List Byte) : List Byte :=
  (path.reverse.takeWhile (fun c => !decide (c.val = 47))).reverse

/-- The extension of a file name as `std::filesystem::path::extension` computes it:
empty for the names `.` and `..`, empty when the name has no period or its only
period is the first character, else the substring that starts at the last period. -/
def extensionOfName (name : List Byte) : List Byte :=
  let after := (name.reverse.takeWhile (fun c => !decide (c.val = 46))).reverse
  if after.length = name.length then []
  else if name.length ≤ 2 ∧ name.head? = some 46 then []
  else if after.length + 1 = name.length then []
  else name.drop (name.length - (after.length + 1))

/-- The library function `std::filesystem::path::extension`. -/
def pathExtension (path : List Byte) : List Byte :=
  extensionOfName (pathFilename path)

/-- The vector `skip_extensions` of `FileManager::isValidFile`: `.tmp`, `.log`,
`.lock`, `.pid`. -/
def skip_extensions : List (List Byte) :=
  [[46, 116, 109, 112], [46, 108, 111, 103], [46, 108, 111, 99, 107], [46, 112, 105, 100]]

/-- Embedding of `FileManager::isValidFile`; `front()` is the first character of the
file name. -/
def isValidFile (filepath : List Byte) : Bool :=
  if (pathFilename filepath).head? = some 46 then false
  else
    let extension := pathExtension filepath
    !(skip_extensions.contains extension)

/-- One entry produced by `recursive_directory_iterator`, with what the file system
and the hash function answer for it (`none` when the call throws). -/
structure DirEntry where
  path : List Byte
  is_regular_file : Bool
  file_size : Option Nat
  last_write_time : Option Int
  hash : Option (List Byte)
deriving DecidableEq, Repr

/-- The `for` loop of `FileManager::scanDirectory` over the entries of the directory
tree; the second argument is `local_files`. A `filesystem_error` is caught and ends
the loop, an exception of `calculateFileHash` leaves the function; in both cases
`local_files` keeps the records pushed so far. -/
def scanLoop : List DirEntry → List FileInfo → List FileInfo
  | [], local_files => local_files
  | entry :: rest, local_files =>
    if entry.is_regular_file && isValidFile entry.path then
      match entry.file_size with
      | none => local_files
      | some size =>
        match entry.last_write_time with
        | none => local_files
        | some mod_time =>
          match entry.hash with
          | none => local_files
          | some hash =>
            scanLoop rest
              (local_files ++
                [{ filename := pathFilename entry.path, filepath := entry.path, size := size,
                   hash := hash, last_modified := mod_time }])
    else scanLoop rest local_files

/-- Embedding of `FileManager::scanDirectory`: the list `local_files` it leaves, which
starts from `local_files.clear()`. -/
def scanDirectory (entries : List DirEntry) : List FileInfo :=
  scanLoop entries []

/-! ### The download loop of the client (`Client::downloadFile`)

The socket is the list of outcomes of the successive `receiveMessage` calls; the loop
is followed as far as that list goes. The fields `speed_mbps` and `start_time` of
`DownloadProgress` (floating point and clock) are left out. Sizes are natural numbers:
the bytes received do not add up to `2^64`. -/

/-- The outcome of one call of `Client::receiveMessage`: the message it returns, or
the `what()` text of the exception it throws (receive failure, message too large). -/
inductive Receive where
  | message (response : List Byte)
  | error (what : List Byte)
deriving DecidableEq, Repr

/-- Embedding of `struct DownloadProgress` of `Client.h`. -/
structure DownloadProgress where
  filename : List Byte
  total_size : Nat
  downloaded_size : Nat
  completed : Bool
  failed : Bool
  error_message : List Byte
deriving DecidableEq, Repr

/-- The progress record of a call of `Client::downloadFile` together with its locals
`total_downloaded` and `output_file` (the bytes written to the destination). -/
structure DownloadState where
  progress : DownloadProgress
  total_downloaded : Nat
  output_file : List Byte
deriving DecidableEq, Repr

/-- The conversion of `e.what()`, a C string, to `std::string`: it ends at the first
zero byte. -/
def cString (text : List Byte) : List Byte :=
  text.takeWhile (fun c => !decide (c.val = 0))

/-- The `catch` block of `Client::downloadFile`: `failed` is set and `error_message`
is `e.what()`; the function then returns false. -/
def DownloadState.fail (st : DownloadState) (what : List Byte) : DownloadState :=
  { st with progress := { st.progress with failed := true, error_message := cString what } }

/-- The text "Server error: ". -/
def serverErrorText : List Byte :=
  [83, 101, 114, 118, 101, 114, 32, 101, 114, 114, 111, 114, 58, 32]

/-- The text "Not connected to any peer". -/
def notConnectedText : List Byte :=
  [78, 111, 116, 32, 99, 111, 110, 110, 101, 99, 116, 101, 100, 32, 116, 111, 32, 97, 110,
   121, 32, 112, 101, 101, 114]

/-- The text "Cannot create destination file: ". -/
def cannotCreateText : List Byte :=
  [67, 97, 110, 110, 111, 116, 32, 99, 114, 101, 97, 116, 101, 32, 100, 101, 115, 116, 105,
   110, 97, 116, 105, 111, 110, 32, 102, 105, 108, 101, 58, 32]

/-- One iteration of the `while (true)` loop of `Client::downloadFile` on the outcome
of its `receiveMessage` call. The second component is `some b` when the function
returns `b` in this iteration and `none` when the loop goes on. An empty response
breaks out of the loop to `return false`; the `default` case of the `switch` only
logs and the loop goes on. -/
def Client.downloadStep (st : DownloadState) : Receive → DownloadState × Option Bool
  | Receive.error what => (st.fail what, some false)
  | Receive.message [] => (st, some false)
  | Receive.message (msg_type :: data) =>
    if msg_type = MessageType.FILE_CHUNK then
      let total_downloaded := st.total_downloaded + data.length
      ({ progress := { st.progress with downloaded_size := total_downloaded }
         total_downloaded := total_downloaded
         output_file := st.output_file ++ data }, none)
    else if msg_type = MessageType.FILE_COMPLETE then
      ({ st with progress :=
          { st.progress with completed := true, total_size := st.total_downloaded } },
        some true)
    else if msg_type = MessageType.ERROR_MESSAGE then
      (DownloadState.fail
        { st with progress := { st.progress with failed := true, error_message := data } }
        (serverErrorText ++ data), some false)
    else (st, none)

/-- The `while (true)` loop of `Client::downloadFile` over the outcomes of its
`receiveMessage` calls; `none` in the second component means that the function has
not returned after the last outcome of the list. -/
def Client.downloadLoop : List Receive → DownloadState → DownloadState × Option Bool
  | [], st => (st, none)
  | event :: rest, st =>
    match Client.downloadStep st event with
    | (next, some result) => (next, some result)
    | (next, none) => Client.downloadLoop rest next

/-- The states at the end of each iteration of the loop, the last one being the state
at return when the function returns. -/
def Client.downloadTrace : List Receive → DownloadState → List DownloadState
  | [], _ => []
  | event :: rest, st =>
    match Client.downloadStep st event with
    | (next, some _) => [next]
    | (next, none) => next :: Client.downloadTrace rest next

/-- The progress record and the locals at the start of `Client::downloadFile`;
`make_shared<DownloadProgress>()` value-initialises `total_size` to 0. -/
def Client.downloadStart (filename : List Byte) : DownloadState :=
  { progress :=
      { filename := filename, total_size := 0, downloaded_size := 0, completed := false,
        failed := false, error_message := [] }
    total_downloaded := 0
    output_file := [] }

/-- Embedding of `Client::downloadFile`: the final state and the value returned
(`none` while the loop still waits for a message). `destination_opens` tells whether
`output_file.is_open()` holds after the destination is opened. -/
def Client.downloadFile (connected destination_opens : Bool)
    (filename destination_path : List Byte) (events : List Receive) :
    DownloadState × Option Bool :=
  match Client.downloadFileRequest connected filename with
  | none => ((Client.downloadStart filename).fail notConnectedText, some false)
  | some _ =>
    if !destination_opens then
      ((Client.downloadStart filename).fail (cannotCreateText ++ destination_path),
        some false)
    else Client.downloadLoop events (Client.downloadStart filename)

/-- The successive states of a call of `Client::downloadFile`: the state at its start,
then the state at the end of each loop iteration (or after the `catch` block when the
request or the opening of the destination throws). -/
def Client.downloadFileStates (connected destination_opens : Bool)
    (filename destination_path : List Byte) (events : List Receive) :
    List DownloadState :=
  match Client.downloadFileRequest connected filename with
  | none => [Client.downloadStart filename,
      (Client.downloadStart filename).fail notConnectedText]
  | some _ =>
    if !destination_opens then
      [Client.downloadStart filename,
        (Client.downloadStart filename).fail (cannotCreateText ++ destination_path)]
    else Client.downloadStart filename ::
      Client.downloadTrace events (Client.downloadStart filename)

/-! ### The indices the payload parsers read

Each function below follows the control flow of the parser it is named after and
lists the indices of the buffer the parser reads: the four bytes `memcpy` copies in
`deserializeUint32`, and the range `assign` copies in `deserializeString` and
`parseFileChunk`. A call whose bounds check fails reads nothing. -/

/-- The indices `Protocol::deserializeUint32` reads. -/
def deserializeUint32Reads (buffer : List Byte) (offset : Nat) : List Nat :=
  if offset + 4 > buffer.length then []
  else [offset, offset + 1, offset + 2, offset + 3]

/-- The indices `Protocol::deserializeString` reads. -/
def deserializeStringReads (buffer : List Byte) (offset : Nat) : List Nat :=
  deserializeUint32Reads buffer offset ++
    (match deserializeUint32 buffer offset with
     | none => []
     | some (length, offset) =>
       if offset + length > buffer.length then []
       else (List.range length).map (fun i => offset + i))

/-- The indices the loop of `Protocol::parsePeerListResponse` reads. -/
def parsePeerListLoopReads (payload : List Byte) : Nat → Nat → List Nat
  | 0, _ => []
  | remaining + 1, offset =>
    deserializeStringReads payload offset ++
      (match deserializeString payload offset with
       | none => []
       | some (_, offset) => parsePeerListLoopReads payload remaining offset)

/-- The indices `Protocol::parsePeerListResponse` reads. -/
def parsePeerListResponseReads (payload : List Byte) : List Nat :=
  deserializeUint32Reads payload 0 ++
    (match deserializeUint32 payload 0 with
     | none => []
     | some (peer_count, offset) => parsePeerListLoopReads payload peer_count offset)

/-- The indices the loop of `Protocol::parseFileListResponse` reads. -/
def parseFileListLoopReads (payload : List Byte) : Nat → Nat → List Nat
  | 0, _ => []
  | remaining + 1, offset =>
    deserializeStringReads payload offset ++
      (match deserializeString payload offset with
       | none => []
       | some (_, offset) =>
         deserializeUint32Reads payload offset ++
           (match deserializeUint32 payload offset with
            | none => []
            | some (_, offset) =>
              deserializeStringReads payload offset ++
                (match deserializeString payload offset with
                 | none => []
                 | some (_, offset) =>
                   deserializeUint32Reads payload offset ++
                     (match deserializeUint32 payload offset with
                      | none => []
                      | some (_, offset) =>
                        parseFileListLoopReads payload remaining offset))))

/-- The indices `Protocol::parseFileListResponse` reads. -/
def parseFileListResponseReads (payload : List Byte) : List Nat :=
  deserializeUint32Reads payload 0 ++
    (match deserializeUint32 payload 0 with
     | none => []
     | some (file_count, offset) => parseFileListLoopReads payload file_count offset)

/-- The indices `Protocol::parseFileRequest` reads. -/
def parseFileRequestReads (payload : List Byte) : List Nat :=
  deserializeStringReads payload 0 ++
    (match deserializeString payload 0 with
     | none => []
     | some (_, pos) =>
       deserializeUint32Reads payload pos ++
         (match deserializeUint32 payload pos with
          | none => []
          | some (_, pos) => deserializeUint32Reads payload pos))

/-- The indices `Protocol::parseFileChunk` reads. -/
def parseFileChunkReads (payload : List Byte) : List Nat :=
  deserializeUint32Reads payload 0 ++
    (match deserializeUint32 payload 0 with
     | none => []
     | some (_, pos) =>
       deserializeUint32Reads payload pos ++
         (match deserializeUint32 payload pos with
          | none => []
          | some (chunk_size, pos) =>
            if pos + chunk_size > payload.length then []
            else (List.range chunk_size).map (fun i => pos + i)))

/-! ## CRC-32: the table against the bit-by-bit definition -/

theorem shiftRight_one_xor (a b : Nat) : (a ^^^ b) >>> 1 = (a >>> 1) ^^^ (b >>> 1) := by
  apply Nat.eq_of_testBit_eq
  intro i
  simp only [Nat.testBit_shiftRight, Nat.testBit_xor]

theorem crc32BitStep_xor (a b : Nat) :
    crc32BitStep (a ^^^ b) = crc32BitStep a ^^^ crc32BitStep b := by
  unfold crc32BitStep
  rw [shiftRight_one_xor]
  by_cases ha : a % 2 = 1 <;> by_cases hb : b % 2 = 1
  · have hab : ¬ ((a ^^^ b) % 2 = 1) := by
      rw [Nat.xor_mod_two_eq_one]; simp [ha, hb]
    rw [if_neg hab, if_pos ha, if_pos hb]
    rw [Nat.xor_assoc, Nat.xor_comm 3988292384, Nat.xor_assoc, Nat.xor_self, Nat.xor_zero]
  · have hab : (a ^^^ b) % 2 = 1 := by
      rw [Nat.xor_mod_two_eq_one]; simp [ha, hb]
    rw [if_pos hab, if_pos ha, if_neg hb]
    rw [Nat.xor_assoc, Nat.xor_assoc, Nat.xor_comm (b >>> 1)]
  · have hab : (a ^^^ b) % 2 = 1 := by
      rw [Nat.xor_mod_two_eq_one]; simp [ha, hb]
    rw [if_pos hab, if_neg ha, if_pos hb, Nat.xor_assoc]
  · have hab : ¬ ((a ^^^ b) % 2 = 1) := by
      rw [Nat.xor_mod_two_eq_one]; simp [ha, hb]
    rw [if_neg hab, if_neg ha, if_neg hb]

theorem crc32BitStep_iterate_xor (k : Nat) (a b : Nat) :
    crc32BitStep^[k] (a ^^^ b) = crc32BitStep^[k] a ^^^ crc32BitStep^[k] b := by
  induction k generalizing a b with
  | zero => rfl
  | succ k ih =>
    simp only [Function.iterate_succ, Function.comp_apply]
    rw [crc32BitStep_xor, ih]

theorem crc32BitStep_double (m : Nat) : crc32BitStep (2 * m) = m := by
  unfold crc32BitStep
  have h : ¬ ((2 * m) % 2 = 1) := by omega
  rw [if_neg h, Nat.shiftRight_eq_div_pow]
  omega

theorem crc32BitStep_iterate_shift (k m : Nat) : crc32BitStep^[k] (2 ^ k * m) = m := by
  induction k generalizing m with
  | zero => simp
  | succ k ih =>
    simp only [Function.iterate_succ, Function.comp_apply]
    have h : 2 ^ (k + 1) * m = 2 * (2 ^ k * m) := by ring
    rw [h, crc32BitStep_double, ih]

theorem split_low_byte (x : Nat) : x = (2 ^ 8 * (x >>> 8)) ^^^ (x % 2 ^ 8) := by
  apply Nat.eq_of_testBit_eq
  intro i
  rw [Nat.testBit_xor, Nat.testBit_mul_pow_two, Nat.testBit_mod_two_pow,
    Nat.testBit_shiftRight]
  by_cases h : i < 8
  · have h2 : ¬ (i ≥ 8) := by omega
    simp [h, h2]
  · have h2 : i ≥ 8 := by omega
    have h3 : 8 + (i - 8) = i := by omega
    simp [h, h2, h3]

set_option maxRecDepth 100000 in
theorem crc32_table_entry :
    ∀ i : Fin 256, crc32_table.getD i.val 0 = crc32BitStep^[8] i.val := by
  decide

theorem crc32BitStep_iterate_eq_table (x : Nat) :
    crc32BitStep^[8] x = crc32_table.getD (x &&& 0xFF) 0 ^^^ (x >>> 8) := by
  have hand : x &&& 0xFF = x % 2 ^ 8 := Nat.and_pow_two_sub_one_eq_mod x 8
  have hlt : x % 2 ^ 8 < 256 := Nat.mod_lt _ (by decide)
  rw [hand, crc32_table_entry ⟨x % 2 ^ 8, hlt⟩]
  conv => lhs; rw [split_low_byte x]
  rw [crc32BitStep_iterate_xor, crc32BitStep_iterate_shift, Nat.xor_comm]

theorem xor_byte_shiftRight (crc : Nat) (byte : Byte) :
    (crc ^^^ byte.val) >>> 8 = crc >>> 8 := by
  apply Nat.eq_of_testBit_eq
  intro i
  rw [Nat.testBit_shiftRight, Nat.testBit_shiftRight, Nat.testBit_xor]
  have hb : byte.val < 2 ^ (8 + i) :=
    lt_of_lt_of_le byte.isLt (by
      calc 256 = 2 ^ 8 := by norm_num
        _ ≤ 2 ^ (8 + i) := Nat.pow_le_pow_right (by decide) (by omega))
  rw [Nat.testBit_lt_two_pow hb]
  simp

theorem crc32Update_eq_bitwise (crc : Nat) (byte : Byte) :
    crc32Update crc byte = crc32ByteBitwise crc byte := by
  unfold crc32Update crc32ByteBitwise
  rw [crc32BitStep_iterate_eq_table, xor_byte_shiftRight]

theorem foldl_crc32Update_eq (data : List Byte) (crc : Nat) :
    data.foldl crc32Update crc = data.foldl crc32ByteBitwise crc := by
  induction data generalizing crc with
  | nil => rfl
  | cons b rest ih => simp only [List.foldl_cons, crc32Update_eq_bitwise, ih]

/-- C6: for every byte sequence the table-driven `Protocol::calculateCRC32` equals the
standard bit-by-bit CRC-32 (reflected polynomial 0xEDB88320, initial value 0xFFFFFFFF,
final XOR 0xFFFFFFFF); it is 0 on the empty sequence and 0xCBF43926 on the ASCII bytes
of "123456789". -/
theorem calculateCRC32_eq_crc32Bitwise :
    (∀ data : List Byte, calculateCRC32 data = crc32Bitwise data) ∧
    calculateCRC32 [] = 0 ∧
    calculateCRC32 [0x31, 0x32, 0x33, 0x34, 0x35, 0x36, 0x37, 0x38, 0x39] = 0xCBF43926 := by
  refine ⟨?_, by decide, by decide⟩
  intro data
  unfold calculateCRC32 crc32Bitwise
  rw [foldl_crc32Update_eq]

/-! ## The CRC register stays a 32-bit value and every update is injective -/

theorem crc32BitStep_lt (x : Nat) (h : x < 2 ^ 32) : crc32BitStep x < 2 ^ 32 := by
  unfold crc32BitStep
  have h1 : x >>> 1 < 2 ^ 32 := by
    rw [Nat.shiftRight_eq_div_pow]; omega
  split
  · exact Nat.xor_lt_two_pow h1 (by norm_num)
  · exact h1

theorem crc32BitStep_iterate_lt (k x : Nat) (h : x < 2 ^ 32) :
    crc32BitStep^[k] x < 2 ^ 32 := by
  induction k generalizing x with
  | zero => exact h
  | succ k ih =>
    simp only [Function.iterate_succ, Function.comp_apply]
    exact ih _ (crc32BitStep_lt x h)

theorem crc32BitStep_odd_ne_even (x y : Nat) (hx : x < 2 ^ 32) (hy : y < 2 ^ 32) :
    (x >>> 1) ^^^ 0xEDB88320 ≠ y >>> 1 := by
  intro heq
  have hx1 : x >>> 1 < 2 ^ 31 := by
    rw [Nat.shiftRight_eq_div_pow]; omega
  have hy1 : y >>> 1 < 2 ^ 31 := by
    rw [Nat.shiftRight_eq_div_pow]; omega
  have hl : ((x >>> 1) ^^^ 0xEDB88320).testBit 31 = true := by
    rw [Nat.testBit_xor, Nat.testBit_lt_two_pow hx1]
    decide
  rw [heq, Nat.testBit_lt_two_pow hy1] at hl
  exact Bool.false_ne_true hl

theorem shiftRight_one_inj (x y : Nat) (hs : x >>> 1 = y >>> 1) (hp : x % 2 = y % 2) :
    x = y := by
  rw [Nat.shiftRight_eq_div_pow, Nat.shiftRight_eq_div_pow] at hs
  omega

theorem crc32BitStep_inj (x y : Nat) (hx : x < 2 ^ 32) (hy : y < 2 ^ 32)
    (heq : crc32BitStep x = crc32BitStep y) : x = y := by
  unfold crc32BitStep at heq
  by_cases ha : x % 2 = 1 <;> by_cases hb : y % 2 = 1
  · rw [if_pos ha, if_pos hb] at heq
    exact shiftRight_one_inj x y (Nat.xor_left_injective heq) (by omega)
  · rw [if_pos ha, if_neg hb] at heq
    exact absurd heq (crc32BitStep_odd_ne_even x y hx hy)
  · rw [if_neg ha, if_pos hb] at heq
    exact absurd heq.symm (crc32BitStep_odd_ne_even y x hy hx)
  · rw [if_neg ha, if_neg hb] at heq
    exact shiftRight_one_inj x y heq (by omega)

theorem crc32BitStep_iterate_inj (k x y : Nat) (hx : x < 2 ^ 32) (hy : y < 2 ^ 32)
    (heq : crc32BitStep^[k] x = crc32BitStep^[k] y) : x = y := by
  induction k generalizing x y with
  | zero => exact heq
  | succ k ih =>
    simp only [Function.iterate_succ, Function.comp_apply] at heq
    exact crc32BitStep_inj x y hx hy
      (ih _ _ (crc32BitStep_lt x hx) (crc32BitStep_lt y hy) heq)

theorem byte_lt_two_pow_32 (b : Byte) : b.val < 2 ^ 32 :=
  lt_trans b.isLt (by norm_num)

theorem crc32Update_lt (crc : Nat) (byte : Byte) (h : crc < 2 ^ 32) :
    crc32Update crc byte < 2 ^ 32 := by
  rw [crc32Update_eq_bitwise]
  exact crc32BitStep_iterate_lt 8 _ (Nat.xor_lt_two_pow h (byte_lt_two_pow_32 byte))

theorem foldl_crc32Update_lt (data : List Byte) (crc : Nat) (h : crc < 2 ^ 32) :
    data.foldl crc32Update crc < 2 ^ 32 := by
  induction data generalizing crc with
  | nil => exact h
  | cons b rest ih => exact ih _ (crc32Update_lt crc b h)

theorem calculateCRC32_lt (data : List Byte) : calculateCRC32 data < 2 ^ 32 :=
  Nat.xor_lt_two_pow (foldl_crc32Update_lt data _ (by norm_num)) (by norm_num)

theorem crc32Update_inj_state (s t : Nat) (byte : Byte) (hs : s < 2 ^ 32) (ht : t < 2 ^ 32)
    (heq : crc32Update s byte = crc32Update t byte) : s = t := by
  rw [crc32Update_eq_bitwise, crc32Update_eq_bitwise] at heq
  exact Nat.xor_left_injective
    (crc32BitStep_iterate_inj 8 _ _ (Nat.xor_lt_two_pow hs (byte_lt_two_pow_32 byte))
      (Nat.xor_lt_two_pow ht (byte_lt_two_pow_32 byte)) heq)

theorem crc32Update_inj_byte (s : Nat) (a b : Byte) (hs : s < 2 ^ 32)
    (heq : crc32Update s a = crc32Update s b) : a = b := by
  rw [crc32Update_eq_bitwise, crc32Update_eq_bitwise] at heq
  exact Fin.ext (Nat.xor_right_injective
    (crc32BitStep_iterate_inj 8 _ _ (Nat.xor_lt_two_pow hs (byte_lt_two_pow_32 a))
      (Nat.xor_lt_two_pow hs (byte_lt_two_pow_32 b)) heq))

theorem foldl_crc32Update_inj (data : List Byte) (s t : Nat) (hs : s < 2 ^ 32)
    (ht : t < 2 ^ 32) (heq : data.foldl crc32Update s = data.foldl crc32Update t) :
    s = t := by
  induction data generalizing s t with
  | nil => exact heq
  | cons b rest ih =>
    exact crc32Update_inj_state s t b hs ht
      (ih _ _ (crc32Update_lt s b hs) (crc32Update_lt t b ht) heq)

/-- Two byte sequences that differ in exactly one position have different CRC-32. -/
theorem calculateCRC32_single_byte (pre post : List Byte) (a b : Byte) (hab : a ≠ b) :
    calculateCRC32 (pre ++ a :: post) ≠ calculateCRC32 (pre ++ b :: post) := by
  intro heq
  unfold calculateCRC32 at heq
  have h1 := Nat.xor_left_injective heq
  rw [List.foldl_append, List.foldl_append, List.foldl_cons, List.foldl_cons] at h1
  have hpre : pre.foldl crc32Update 0xFFFFFFFF < 2 ^ 32 :=
    foldl_crc32Update_lt pre _ (by norm_num)
  have h2 := foldl_crc32Update_inj post _ _ (crc32Update_lt _ a hpre)
    (crc32Update_lt _ b hpre) h1
  exact hab (crc32Update_inj_byte _ a b hpre h2)

/-! ## Framing: `createMessage` and `parseMessage` -/

theorem byteOf_val (n : Nat) : (byteOf n).val = n % 256 := rfl

theorem loadU32_storeU32 (v : Nat) :
    loadU32 (byteOf v) (byteOf (v / 256)) (byteOf (v / 65536)) (byteOf (v / 16777216)) =
      v % 4294967296 := by
  simp only [loadU32, byteOf_val]
  omega

theorem MessageHeader.bytes_length (h : MessageHeader) :
    h.bytes.length = sizeofMessageHeader := rfl

theorem readHeader_bytes_append (h : MessageHeader) (rest : List Byte) :
    readHeader (h.bytes ++ rest) =
      { magic := h.magic % 4294967296
        version := h.version % 4294967296
        type := h.type
        payload_size := h.payload_size % 4294967296
        checksum := h.checksum % 4294967296 } := by
  have h1 : readHeader (h.bytes ++ rest) =
      { magic := loadU32 (byteOf h.magic) (byteOf (h.magic / 256))
          (byteOf (h.magic / 65536)) (byteOf (h.magic / 16777216))
        version := loadU32 (byteOf h.version) (byteOf (h.version / 256))
          (byteOf (h.version / 65536)) (byteOf (h.version / 16777216))
        type := h.type
        payload_size := loadU32 (byteOf h.payload_size) (byteOf (h.payload_size / 256))
          (byteOf (h.payload_size / 65536)) (byteOf (h.payload_size / 16777216))
        checksum := loadU32 (byteOf h.checksum) (byteOf (h.checksum / 256))
          (byteOf (h.checksum / 65536)) (byteOf (h.checksum / 16777216)) } := rfl
  rw [h1, loadU32_storeU32, loadU32_storeU32, loadU32_storeU32, loadU32_storeU32]

/-- What `parseMessage` does on a well-formed header followed by any bytes `q`. -/
theorem parseMessage_frame (t : MessageType) (n c : Nat) (q : List Byte)
    (hn : n < 4294967296) (hc : c < 4294967296) :
    parseMessage ((MessageHeader.mk MessageHeader.MAGIC_NUMBER
        MessageHeader.PROTOCOL_VERSION t n c).bytes ++ q) =
      if q.length ≠ n then none
      else if n > 0 then (if calculateCRC32 q ≠ c then none else some (t, q))
      else some (t, []) := by
  unfold parseMessage
  have hlen : ¬ ((MessageHeader.mk MessageHeader.MAGIC_NUMBER
        MessageHeader.PROTOCOL_VERSION t n c).bytes ++ q).length < sizeofMessageHeader := by
    rw [List.length_append, MessageHeader.bytes_length]; omega
  rw [if_neg hlen]
  simp only [readHeader_bytes_append]
  rw [Nat.mod_eq_of_lt hn, Nat.mod_eq_of_lt hc]
  have hvalid : MessageHeader.isValid
      { magic := MessageHeader.MAGIC_NUMBER % 4294967296
        version := MessageHeader.PROTOCOL_VERSION % 4294967296
        type := t, payload_size := n, checksum := c } = true := by
    simp [MessageHeader.isValid, MessageHeader.MAGIC_NUMBER, MessageHeader.PROTOCOL_VERSION]
  simp only [hvalid, Bool.not_true, Bool.false_eq_true, if_false, List.length_append,
    MessageHeader.bytes_length]
  by_cases hq : q.length = n
  · have h1 : ¬ (sizeofMessageHeader + q.length ≠ sizeofMessageHeader + n) := by omega
    have h2 : ¬ (q.length ≠ n) := by omega
    rw [if_neg h1, if_neg h2]
    have hdrop : List.drop sizeofMessageHeader
        ((MessageHeader.mk MessageHeader.MAGIC_NUMBER
          MessageHeader.PROTOCOL_VERSION t n c).bytes ++ q) = q := by
      rw [← MessageHeader.bytes_length (MessageHeader.mk MessageHeader.MAGIC_NUMBER
          MessageHeader.PROTOCOL_VERSION t n c)]
      exact List.drop_left _ _
    rw [hdrop, ← hq, List.take_length]
  · have h1 : sizeofMessageHeader + q.length ≠ sizeofMessageHeader + n := by omega
    rw [if_pos h1, if_pos hq]

theorem createMessage_eq (type : MessageType) (payload : List Byte) :
    createMessage type payload =
      (MessageHeader.mk MessageHeader.MAGIC_NUMBER MessageHeader.PROTOCOL_VERSION type
        (payload.length % 4294967296) (calculateCRC32 payload)).bytes ++ payload := rfl

theorem createMessage_length (type : MessageType) (payload : List Byte) :
    (createMessage type payload).length = sizeofMessageHeader + payload.length := by
  rw [createMessage_eq, List.length_append, MessageHeader.bytes_length]

/-- Decoding a frame built by `createMessage` from a payload shorter than `2^32`
bytes gives the type and payload back. -/
theorem parseMessage_createMessage (type : MessageType) (payload : List Byte)
    (h : payload.length < 4294967296) :
    parseMessage (createMessage type payload) = some (type, payload) := by
  rw [createMessage_eq, parseMessage_frame _ _ _ _ (Nat.mod_lt _ (by norm_num))
    (calculateCRC32_lt payload), Nat.mod_eq_of_lt h]
  simp only [ne_eq, not_true_eq_false, if_false]
  cases payload with
  | nil => rfl
  | cons b rest => simp

/-- C1: framing round trip. For every message type and every payload of at most
10 MiB, `parseMessage` applied to `createMessage type payload` returns true and yields
exactly the same type and the same payload bytes. -/
theorem framing_round_trip (type : MessageType) (payload : List Byte)
    (h : payload.length ≤ 10 * 1024 * 1024) :
    parseMessage (createMessage type payload) = some (type, payload) :=
  parseMessage_createMessage type payload (by omega)

/-- Witness for C1: the PING frame carrying the four bytes 1, 2, 3, 4. -/
theorem framing_round_trip_witness :
    ([1, 2, 3, 4] : List Byte).length ≤ 10 * 1024 * 1024 ∧
    parseMessage (createMessage MessageType.PING [1, 2, 3, 4]) =
      some (MessageType.PING, [1, 2, 3, 4]) :=
  ⟨by decide, framing_round_trip MessageType.PING [1, 2, 3, 4] (by decide)⟩

/-- C2: `parseMessage` returns false for every input that is shorter than one header,
or whose magic field is not 0x50325032, or whose version field is not 1, or whose
total length differs from the header length plus the `payload_size` declared in its
header. -/
theorem parseMessage_rejects_malformed (data : List Byte)
    (h : data.length < sizeofMessageHeader ∨
      (readHeader data).magic ≠ 0x50325032 ∨
      (readHeader data).version ≠ 1 ∨
      data.length ≠ sizeofMessageHeader + (readHeader data).payload_size) :
    parseMessage data = none := by
  unfold parseMessage
  by_cases hlen : data.length < sizeofMessageHeader
  · rw [if_pos hlen]
  · rw [if_neg hlen]
    rcases h with h | h | h | h
    · exact absurd h hlen
    · simp [MessageHeader.isValid, MessageHeader.MAGIC_NUMBER, h]
    · simp [MessageHeader.isValid, MessageHeader.PROTOCOL_VERSION, h]
    · simp only [h, ne_eq, not_false_eq_true, if_true, ite_self]

/-- Witness for C2: the two inputs of the test `InvalidMessageHandling`, the 4-byte
input 0, 1, 2, 3 and a valid PING frame with payload 1, 2, 3, 4 whose byte 10 is
overwritten with 0xFF. -/
theorem parseMessage_rejects_malformed_witness :
    parseMessage [0, 1, 2, 3] = none ∧
    parseMessage ((createMessage MessageType.PING [1, 2, 3, 4]).set 10 0xFF) = none :=
  ⟨parseMessage_rejects_malformed [0, 1, 2, 3] (Or.inl (by decide)),
   parseMessage_rejects_malformed ((createMessage MessageType.PING [1, 2, 3, 4]).set 10 0xFF)
     (Or.inr (Or.inr (Or.inr (by decide))))⟩

/-- Counterexample to C3 as stated: a 17-byte frame (valid magic and version, type
PING, `payload_size` 0) whose checksum field is 1, not the CRC-32 of its empty payload
(which is 0), is accepted by `parseMessage`. -/
theorem parseMessage_empty_payload_ignores_checksum :
    (readHeader [0x32, 0x50, 0x32, 0x50, 1, 0, 0, 0, 9, 0, 0, 0, 0, 1, 0, 0, 0]).checksum ≠
      calculateCRC32
        (List.drop sizeofMessageHeader
          [0x32, 0x50, 0x32, 0x50, 1, 0, 0, 0, 9, 0, 0, 0, 0, 1, 0, 0, 0]) ∧
    parseMessage [0x32, 0x50, 0x32, 0x50, 1, 0, 0, 0, 9, 0, 0, 0, 0, 1, 0, 0, 0] =
      some (MessageType.PING, []) := by
  decide

/-- C3 (amended): `parseMessage` returns false for every frame with a non-empty payload
whose header checksum field differs from the CRC-32 of the payload of the frame; the
checksum is compared only inside the `payload_size > 0` branch, so a frame with an
empty payload and a valid header is accepted whatever its checksum field holds. -/
theorem parseMessage_rejects_bad_checksum :
    (∀ data : List Byte, sizeofMessageHeader < data.length →
      (readHeader data).checksum ≠ calculateCRC32 (data.drop sizeofMessageHeader) →
      parseMessage data = none) ∧
    (∀ data : List Byte, data.length = sizeofMessageHeader →
      (readHeader data).isValid = true → (readHeader data).payload_size = 0 →
      parseMessage data = some ((readHeader data).type, [])) := by
  constructor
  · intro data hlen hcrc
    unfold parseMessage
    have h1 : ¬ data.length < sizeofMessageHeader := by omega
    rw [if_neg h1]
    by_cases hv : (readHeader data).isValid = true
    · by_cases hsz : data.length = sizeofMessageHeader + (readHeader data).payload_size
      · have hpos : (readHeader data).payload_size > 0 := by omega
        have htake : List.take (readHeader data).payload_size
            (List.drop sizeofMessageHeader data) = List.drop sizeofMessageHeader data :=
          List.take_of_length_le (by rw [List.length_drop]; omega)
        simp only [hv, Bool.not_true, Bool.false_eq_true, if_false, ne_eq, hsz,
          not_true_eq_false, hpos, if_true, htake]
        rw [if_pos (fun h => hcrc h.symm)]
      · simp [hsz]
    · simp [hv]
  · intro data hlen hv hsz
    unfold parseMessage
    simp [hlen, hv, hsz]

/-- Witness for C3 (amended): the PING frame with payload 1, 2, 3, 4 whose first
checksum byte (offset 13) is overwritten with 0 is rejected. -/
theorem parseMessage_rejects_bad_checksum_witness :
    parseMessage ((createMessage MessageType.PING [1, 2, 3, 4]).set 13 0) = none :=
  parseMessage_rejects_bad_checksum.1 ((createMessage MessageType.PING [1, 2, 3, 4]).set 13 0)
    (by decide) (by decide)

/-- Counterexample to C5 as stated: the PING frame with payload 1, 2, 3, 4 is 21 bytes
long, not 20 + 4, and its bytes from offset 20 on are not the payload. -/
theorem createMessage_header_not_20_bytes :
    (createMessage MessageType.PING [1, 2, 3, 4]).length ≠ 20 + 4 ∧
    (createMessage MessageType.PING [1, 2, 3, 4]).drop 20 ≠ [1, 2, 3, 4] := by
  decide

/-- C5 (amended): the encoded header is exactly 17 bytes. For every type and payload,
`createMessage type payload` has length 17 + |payload|, the payload bytes start at
offset 17, the type byte is at offset 8 and the `payload_size` field follows it
immediately at offset 9 (the struct is packed: no padding byte follows the type). -/
theorem createMessage_layout (type : MessageType) (payload : List Byte) :
    (createMessage type payload).length = 17 + payload.length ∧
    (createMessage type payload).drop 17 = payload ∧
    (createMessage type payload).getD 8 0 = type ∧
    loadU32At (createMessage type payload) 9 = payload.length % 4294967296 := by
  refine ⟨createMessage_length type payload, ?_, rfl, ?_⟩
  · exact List.drop_left (MessageHeader.mk MessageHeader.MAGIC_NUMBER
      MessageHeader.PROTOCOL_VERSION type (payload.length % 4294967296)
      (calculateCRC32 payload)).bytes payload
  · have h := readHeader_bytes_append
      (MessageHeader.mk MessageHeader.MAGIC_NUMBER MessageHeader.PROTOCOL_VERSION type
        (payload.length % 4294967296) (calculateCRC32 payload)) payload
    rw [← createMessage_eq] at h
    have h2 := congrArg MessageHeader.payload_size h
    simp only [Nat.mod_mod] at h2
    exact h2

/-- A single changed byte at or after the end of the 17-byte header of a frame built
by `createMessage` makes `parseMessage` fail. -/
theorem parseMessage_set_payload_byte (type : MessageType) (payload : List Byte)
    (i : Nat) (b : Byte) (hi : sizeofMessageHeader ≤ i)
    (hlt : i < (createMessage type payload).length)
    (hb : b ≠ (createMessage type payload).getD i 0) :
    parseMessage ((createMessage type payload).set i b) = none := by
  rw [createMessage_length] at hlt
  have hj : i - sizeofMessageHeader < payload.length := by omega
  have hget : (createMessage type payload).getD i 0 =
      payload[i - sizeofMessageHeader] := by
    rw [createMessage_eq, List.getD_append_right _ _ _ _
      (by rw [MessageHeader.bytes_length]; exact hi), MessageHeader.bytes_length]
    exact List.getD_eq_getElem _ _ hj
  rw [hget] at hb
  rw [createMessage_eq, List.set_append_right _ _
    (by rw [MessageHeader.bytes_length]; exact hi), MessageHeader.bytes_length,
    parseMessage_frame _ _ _ _ (Nat.mod_lt _ (by norm_num)) (calculateCRC32_lt payload)]
  by_cases hn : (payload.set (i - sizeofMessageHeader) b).length = payload.length % 4294967296
  · rw [List.length_set] at hn
    have hpos : payload.length % 4294967296 > 0 := by omega
    have hcrc : calculateCRC32 (payload.set (i - sizeofMessageHeader) b) ≠
        calculateCRC32 payload := by
      have hsplit : payload = List.take (i - sizeofMessageHeader) payload ++
          payload[i - sizeofMessageHeader] ::
            List.drop (i - sizeofMessageHeader + 1) payload := by
        rw [List.getElem_cons_drop, List.take_append_drop]
      rw [List.set_eq_take_append_cons_drop, if_pos hj]
      conv => rhs; rhs; rw [hsplit]
      exact calculateCRC32_single_byte _ _ _ _ hb
    rw [List.length_set, if_neg (by omega), if_pos hpos, if_pos hcrc]
  · rw [if_pos hn]

/-- C4: CRC detection. For every type, every payload and every index `i` with
20 ≤ i < length of `createMessage type payload`, replacing the byte at index `i` by any
different byte value yields a frame on which `parseMessage` returns false. -/
theorem crc_detection (type : MessageType) (payload : List Byte) (i : Nat) (b : Byte)
    (hi : 20 ≤ i) (hlt : i < (createMessage type payload).length)
    (hb : b ≠ (createMessage type payload).getD i 0) :
    parseMessage ((createMessage type payload).set i b) = none :=
  parseMessage_set_payload_byte type payload i b
    (le_trans (by decide : sizeofMessageHeader ≤ 20) hi) hlt hb

/-- Witness for C4: in the PING frame with payload 1, 2, 3, 4 the byte at offset 20
(the last payload byte, 4) is replaced by 5. -/
theorem crc_detection_witness :
    20 ≤ 20 ∧ 20 < (createMessage MessageType.PING [1, 2, 3, 4]).length ∧
    (5 : Byte) ≠ (createMessage MessageType.PING [1, 2, 3, 4]).getD 20 0 ∧
    parseMessage ((createMessage MessageType.PING [1, 2, 3, 4]).set 20 5) = none :=
  ⟨by decide, by decide, by decide,
   crc_detection MessageType.PING [1, 2, 3, 4] 20 5 (by decide) (by decide) (by decide)⟩

/-! ## Payload encodings: integers and strings -/

theorem base256_digits (a b c d : Nat) (ha : a < 256) (hb : b < 256) (hc : c < 256)
    (hd : d < 256) :
    (a * 16777216 + b * 65536 + c * 256 + d) % 256 = d ∧
    (a * 16777216 + b * 65536 + c * 256 + d) / 256 % 256 = c ∧
    (a * 16777216 + b * 65536 + c * 256 + d) / 65536 % 256 = b ∧
    (a * 16777216 + b * 65536 + c * 256 + d) / 16777216 % 256 = a := by
  refine ⟨?_, ?_, ?_, ?_⟩ <;> omega

theorem base256_sum (v : Nat) (hv : v < 4294967296) :
    v / 16777216 % 256 * 16777216 + v / 65536 % 256 * 65536 + v / 256 % 256 * 256 +
      v % 256 = v := by
  omega

theorem htonl_digits (v : Nat) :
    htonl v % 256 = v / 16777216 % 256 ∧ htonl v / 256 % 256 = v / 65536 % 256 ∧
    htonl v / 65536 % 256 = v / 256 % 256 ∧ htonl v / 16777216 % 256 = v % 256 :=
  base256_digits (v % 256) (v / 256 % 256) (v / 65536 % 256) (v / 16777216 % 256)
    (Nat.mod_lt _ (by decide)) (Nat.mod_lt _ (by decide)) (Nat.mod_lt _ (by decide))
    (Nat.mod_lt _ (by decide))

theorem htonl_lt (v : Nat) : htonl v < 4294967296 := by
  unfold htonl
  omega

theorem htonl_htonl (v : Nat) (hv : v < 4294967296) : htonl (htonl v) = v := by
  obtain ⟨h0, h1, h2, h3⟩ := htonl_digits v
  have h : htonl (htonl v) = htonl v % 256 * 16777216 + htonl v / 256 % 256 * 65536 +
      htonl v / 65536 % 256 * 256 + htonl v / 16777216 % 256 := rfl
  rw [h, h0, h1, h2, h3]
  exact base256_sum v hv

theorem storeU32_htonl (v : Nat) : storeU32 (htonl v) = bigEndian32 v := by
  obtain ⟨h0, h1, h2, h3⟩ := htonl_digits v
  simp only [storeU32, bigEndian32, byteOf, List.cons.injEq, Fin.mk.injEq, and_true]
  exact ⟨h0, h1, h2, h3⟩

theorem serializeUint32_eq (buffer : List Byte) (v : Nat) :
    serializeUint32 buffer v = buffer ++ bigEndian32 (v % 4294967296) := by
  unfold serializeUint32
  rw [storeU32_htonl]

theorem bigEndian32_length (v : Nat) : (bigEndian32 v).length = 4 := rfl

theorem serializeString_eq (buffer str : List Byte) :
    serializeString buffer str =
      buffer ++ (bigEndian32 (str.length % 4294967296) ++ str) := by
  unfold serializeString
  rw [serializeUint32_eq, List.append_assoc]

theorem loadU32At_append (pre rest : List Byte) :
    loadU32At (pre ++ rest) pre.length = loadU32At rest 0 := by
  unfold loadU32At
  rw [List.getD_append_right _ _ _ _ (le_refl _),
    List.getD_append_right _ _ _ _ (Nat.le_add_right _ 1),
    List.getD_append_right _ _ _ _ (Nat.le_add_right _ 2),
    List.getD_append_right _ _ _ _ (Nat.le_add_right _ 3)]
  simp only [Nat.sub_self, Nat.add_sub_cancel_left, Nat.zero_add]

theorem ntohl_loadU32At_bigEndian32 (v : Nat) (post : List Byte) (hv : v < 4294967296) :
    ntohl (loadU32At (bigEndian32 v ++ post) 0) = v := by
  have h : loadU32At (storeU32 (htonl v) ++ post) 0 =
      loadU32 (byteOf (htonl v)) (byteOf (htonl v / 256)) (byteOf (htonl v / 65536))
        (byteOf (htonl v / 16777216)) := rfl
  rw [← storeU32_htonl, h, loadU32_storeU32, Nat.mod_eq_of_lt (htonl_lt v)]
  exact htonl_htonl v hv

theorem deserializeUint32_at (pre post : List Byte) (v : Nat) (hv : v < 4294967296) :
    deserializeUint32 (pre ++ (bigEndian32 v ++ post)) pre.length =
      some (v, pre.length + 4) := by
  unfold deserializeUint32
  have hlen : ¬ (pre.length + 4 > (pre ++ (bigEndian32 v ++ post)).length) := by
    simp only [List.length_append, bigEndian32_length]
    omega
  rw [if_neg hlen, loadU32At_append, ntohl_loadU32At_bigEndian32 v post hv]

theorem deserializeString_at (pre post str : List Byte) (hs : str.length < 4294967296) :
    deserializeString (pre ++ (bigEndian32 str.length ++ (str ++ post))) pre.length =
      some (str, pre.length + 4 + str.length) := by
  unfold deserializeString
  rw [deserializeUint32_at pre (str ++ post) str.length hs]
  have hlen : ¬ (pre.length + 4 + str.length >
      (pre ++ (bigEndian32 str.length ++ (str ++ post))).length) := by
    simp only [List.length_append, bigEndian32_length]
    omega
  simp only [hlen, if_false]
  have hdrop : List.drop (pre.length + 4)
      (pre ++ (bigEndian32 str.length ++ (str ++ post))) = str ++ post := by
    rw [List.drop_append]
    rfl
  rw [hdrop, List.take_left]

/-- C7: wire string round trip. For every buffer `b` and every string `s` shorter than
2^32 bytes, `serializeString` appends to `b` the 4-byte big-endian (network order)
length of `s` followed by the bytes of `s` with no terminator, and `deserializeString`
on the result at offset |b| succeeds, returns `s` and advances the offset by 4 + |s|. -/
theorem wire_string_round_trip (b s : List Byte) (hs : s.length < 2 ^ 32) :
    serializeString b s =
      b ++ [byteOf (s.length / 16777216), byteOf (s.length / 65536),
        byteOf (s.length / 256), byteOf s.length] ++ s ∧
    deserializeString (serializeString b s) b.length = some (s, b.length + (4 + s.length)) := by
  have hs2 : s.length < 4294967296 := by
    have h : (2 : Nat) ^ 32 = 4294967296 := by norm_num
    omega
  have henc : serializeString b s = b ++ (bigEndian32 s.length ++ (s ++ [])) := by
    rw [serializeString_eq, Nat.mod_eq_of_lt hs2, List.append_nil]
  constructor
  · rw [serializeString_eq, Nat.mod_eq_of_lt hs2, List.append_assoc]
    rfl
  · rw [henc, deserializeString_at b [] s hs2, Nat.add_assoc]

/-- Witness for C7: the string "abc" appended to the one-byte buffer 7. -/
theorem wire_string_round_trip_witness :
    serializeString [7] [97, 98, 99] = [7, 0, 0, 0, 3, 97, 98, 99] ∧
    deserializeString (serializeString [7] [97, 98, 99]) 1 = some ([97, 98, 99], 8) :=
  wire_string_round_trip [7] [97, 98, 99] (by decide)

/-! ## Typed payloads: file request and file chunk -/

theorem deserializeUint32_of_eq (buffer pre post : List Byte) (v offset : Nat)
    (hb : buffer = pre ++ (bigEndian32 v ++ post)) (ho : offset = pre.length)
    (hv : v < 4294967296) :
    deserializeUint32 buffer offset = some (v, offset + 4) := by
  subst hb ho
  exact deserializeUint32_at pre post v hv

theorem deserializeString_of_eq (buffer pre post str : List Byte) (offset : Nat)
    (hb : buffer = pre ++ (bigEndian32 str.length ++ (str ++ post)))
    (ho : offset = pre.length) (hs : str.length < 4294967296) :
    deserializeString buffer offset = some (str, offset + 4 + str.length) := by
  subst hb ho
  exact deserializeString_at pre post str hs

/-- A frame whose payload has `2^32` bytes or more is rejected by `parseMessage`: the
`payload_size` field holds the length modulo `2^32`. -/
theorem parseMessage_createMessage_none (type : MessageType) (payload : List Byte)
    (h : 4294967296 ≤ payload.length) :
    parseMessage (createMessage type payload) = none := by
  have hmod : payload.length % 4294967296 < 4294967296 := Nat.mod_lt _ (by norm_num)
  rw [createMessage_eq, parseMessage_frame _ _ _ _ hmod (calculateCRC32_lt payload)]
  have hne : payload.length ≠ payload.length % 4294967296 := by omega
  rw [if_pos hne]

theorem fileRequestPayload_eq (filename : List Byte) (offset length : Nat) :
    fileRequestPayload filename offset length =
      bigEndian32 (filename.length % 4294967296) ++ (filename ++
        (bigEndian32 (offset % 4294967296) ++ bigEndian32 (length % 4294967296))) := by
  unfold fileRequestPayload
  rw [serializeUint32_eq, serializeUint32_eq, serializeString_eq]
  simp only [List.nil_append, List.append_assoc]

theorem fileRequestPayload_length (filename : List Byte) (offset length : Nat) :
    (fileRequestPayload filename offset length).length = filename.length + 12 := by
  rw [fileRequestPayload_eq]
  simp only [List.length_append, bigEndian32_length]
  omega

theorem parseFileRequest_fileRequestPayload (filename : List Byte) (offset length : Nat)
    (hf : filename.length < 4294967296) (ho : offset < 4294967296)
    (hl : length < 4294967296) :
    parseFileRequest (fileRequestPayload filename offset length) =
      some (filename, offset, length) := by
  rw [fileRequestPayload_eq, Nat.mod_eq_of_lt hf, Nat.mod_eq_of_lt ho, Nat.mod_eq_of_lt hl]
  unfold parseFileRequest
  rw [deserializeString_of_eq
    (bigEndian32 filename.length ++ (filename ++ (bigEndian32 offset ++ bigEndian32 length)))
    [] (bigEndian32 offset ++ bigEndian32 length) filename 0 rfl rfl hf]
  simp only
  rw [deserializeUint32_of_eq _ (bigEndian32 filename.length ++ filename)
    (bigEndian32 length) offset (0 + 4 + filename.length)
    (by simp only [List.append_assoc])
    (by simp only [List.length_append, bigEndian32_length]) ho]
  simp only
  rw [deserializeUint32_of_eq _
    (bigEndian32 filename.length ++ (filename ++ bigEndian32 offset)) [] length
    (0 + 4 + filename.length + 4)
    (by simp only [List.append_assoc, List.append_nil])
    (by simp only [List.length_append, bigEndian32_length]; omega) hl]

/-- Counterexample to C9 as stated: for a filename of 2^32 - 12 bytes (below 2^32) with
offset 0 and length 0, the payload has exactly 2^32 bytes, the 32-bit
`payload_size` field holds 0, and `parseMessage` rejects the frame. -/
theorem file_request_frame_rejected_when_payload_overflows :
    parseMessage (createFileRequest (List.replicate 4294967284 97) 0 0) = none :=
  parseMessage_createMessage_none MessageType.FILE_REQUEST
    (fileRequestPayload (List.replicate 4294967284 97) 0 0)
    (by rw [fileRequestPayload_length, List.length_replicate])

/-- C9 (amended): file-request round trip. For every filename of fewer than 2^32 - 12
bytes (so that the payload is shorter than 2^32 bytes) and every offset and length
below 2^32, decoding the frame from `createFileRequest filename offset length` gives
type FILE_REQUEST, and `parseFileRequest` on its payload succeeds and returns the same
filename, offset and length. -/
theorem file_request_round_trip (filename : List Byte) (offset length : Nat)
    (hf : filename.length + 12 < 2 ^ 32) (ho : offset < 2 ^ 32) (hl : length < 2 ^ 32) :
    ∃ payload : List Byte,
      parseMessage (createFileRequest filename offset length) =
        some (MessageType.FILE_REQUEST, payload) ∧
      parseFileRequest payload = some (filename, offset, length) := by
  have h32 : (2 : Nat) ^ 32 = 4294967296 := by norm_num
  rw [h32] at hf ho hl
  refine ⟨fileRequestPayload filename offset length, ?_, ?_⟩
  · exact parseMessage_createMessage _ _ (by rw [fileRequestPayload_length]; exact hf)
  · exact parseFileRequest_fileRequestPayload filename offset length (by omega) ho hl

/-- Witness for C9 (amended): the request of the test `FileRequestMessages` with the
filename "test.txt", offset 1024 and length 2048. -/
theorem file_request_round_trip_witness :
    ∃ payload : List Byte,
      parseMessage (createFileRequest [116, 101, 115, 116, 46, 116, 120, 116] 1024 2048) =
        some (MessageType.FILE_REQUEST, payload) ∧
      parseFileRequest payload = some ([116, 101, 115, 116, 46, 116, 120, 116], 1024, 2048) :=
  file_request_round_trip [116, 101, 115, 116, 46, 116, 120, 116] 1024 2048
    (by decide) (by decide) (by decide)

theorem fileChunkPayload_eq (chunk_data : List Byte) (offset : Nat) :
    fileChunkPayload chunk_data offset =
      bigEndian32 (offset % 4294967296) ++
        (bigEndian32 (chunk_data.length % 4294967296) ++ chunk_data) := by
  unfold fileChunkPayload
  rw [serializeUint32_eq, serializeUint32_eq]
  simp only [List.nil_append, List.append_assoc]

theorem parseFileChunk_fileChunkPayload (chunk_data : List Byte) (offset : Nat)
    (hd : chunk_data.length < 4294967296) (ho : offset < 4294967296) :
    parseFileChunk (fileChunkPayload chunk_data offset) = some (chunk_data, offset) := by
  rw [fileChunkPayload_eq, Nat.mod_eq_of_lt hd, Nat.mod_eq_of_lt ho]
  unfold parseFileChunk
  rw [deserializeUint32_of_eq
    (bigEndian32 offset ++ (bigEndian32 chunk_data.length ++ chunk_data))
    [] (bigEndian32 chunk_data.length ++ chunk_data) offset 0 rfl rfl ho]
  simp only
  rw [deserializeUint32_of_eq _ (bigEndian32 offset) chunk_data chunk_data.length (0 + 4)
    rfl rfl hd]
  simp only
  have hlen : ¬ (0 + 4 + 4 + chunk_data.length >
      (bigEndian32 offset ++ (bigEndian32 chunk_data.length ++ chunk_data)).length) := by
    simp only [List.length_append, bigEndian32_length]
    omega
  rw [if_neg hlen]
  have hdrop : List.drop (0 + 4 + 4)
      (bigEndian32 offset ++ (bigEndian32 chunk_data.length ++ chunk_data)) = chunk_data :=
    rfl
  rw [hdrop, List.take_length]

/-- C10: file-chunk round trip. For every chunk of bytes shorter than 2^32 and every
offset below 2^32, the payload of `createFileChunk data offset` is the big-endian u32
offset, the big-endian u32 length of data, then data; and `parseFileChunk` on that
payload succeeds and returns exactly data and offset. -/
theorem file_chunk_round_trip (data : List Byte) (offset : Nat)
    (hd : data.length < 2 ^ 32) (ho : offset < 2 ^ 32) :
    createFileChunk data offset =
      createMessage MessageType.FILE_CHUNK (fileChunkPayload data offset) ∧
    (createFileChunk data offset).drop sizeofMessageHeader = fileChunkPayload data offset ∧
    fileChunkPayload data offset =
      [byteOf (offset / 16777216), byteOf (offset / 65536), byteOf (offset / 256),
        byteOf offset] ++
      [byteOf (data.length / 16777216), byteOf (data.length / 65536),
        byteOf (data.length / 256), byteOf data.length] ++ data ∧
    parseFileChunk (fileChunkPayload data offset) = some (data, offset) := by
  have h32 : (2 : Nat) ^ 32 = 4294967296 := by norm_num
  rw [h32] at hd ho
  refine ⟨rfl, (createMessage_layout _ _).2.1, ?_, parseFileChunk_fileChunkPayload data offset hd ho⟩
  rw [fileChunkPayload_eq, Nat.mod_eq_of_lt hd, Nat.mod_eq_of_lt ho, List.append_assoc]
  rfl

/-- Witness for C10: the chunk 1, 2, 3 at offset 77. -/
theorem file_chunk_round_trip_witness :
    fileChunkPayload [1, 2, 3] 77 = [0, 0, 0, 77, 0, 0, 0, 3, 1, 2, 3] ∧
    parseFileChunk (fileChunkPayload [1, 2, 3] 77) = some ([1, 2, 3], 77) :=
  ⟨(file_chunk_round_trip [1, 2, 3] 77 (by decide) (by decide)).2.2.1,
   (file_chunk_round_trip [1, 2, 3] 77 (by decide) (by decide)).2.2.2⟩

/-! ## Typed payloads: the file list -/

theorem timeToUint32_of_range (t : Int) (h0 : 0 ≤ t) (h1 : t < 4294967296) :
    Int.ofNat (timeToUint32 t % 4294967296) = t := by
  unfold timeToUint32
  rw [Int.emod_eq_of_lt h0 h1]
  have h2 : t.toNat < 4294967296 := by omega
  rw [Nat.mod_eq_of_lt h2]
  exact Int.toNat_of_nonneg h0

theorem serializeFileInfo_eq (payload : List Byte) (file : FileInfo) :
    serializeFileInfo payload file =
      payload ++ (bigEndian32 (file.filename.length % 4294967296) ++ (file.filename ++
        (bigEndian32 (file.size % 4294967296) ++
          (bigEndian32 (file.hash.length % 4294967296) ++ (file.hash ++
            bigEndian32 (timeToUint32 file.last_modified % 4294967296)))))) := by
  unfold serializeFileInfo
  rw [serializeUint32_eq, serializeString_eq, serializeUint32_eq, serializeString_eq]
  simp only [List.append_assoc]

theorem serializeFileInfo_append (payload : List Byte) (file : FileInfo) :
    serializeFileInfo payload file = payload ++ serializeFileInfo [] file := by
  rw [serializeFileInfo_eq payload, serializeFileInfo_eq [], List.nil_append]

theorem foldl_serializeFileInfo (files : List FileInfo) (init : List Byte) :
    files.foldl serializeFileInfo init = init ++ files.foldl serializeFileInfo [] := by
  induction files generalizing init with
  | nil => simp
  | cons f rest ih =>
    rw [List.foldl_cons, List.foldl_cons, ih (serializeFileInfo init f),
      ih (serializeFileInfo [] f), serializeFileInfo_append init f, List.append_assoc]

theorem serializeFileInfo_length (payload : List Byte) (file : FileInfo) :
    (serializeFileInfo payload file).length =
      payload.length + (16 + file.filename.length + file.hash.length) := by
  rw [serializeFileInfo_eq]
  simp only [List.length_append, bigEndian32_length]
  omega

theorem foldl_serializeFileInfo_length (files : List FileInfo) (init : List Byte) :
    (files.foldl serializeFileInfo init).length =
      init.length +
        (files.map (fun f => 16 + f.filename.length + f.hash.length)).sum := by
  induction files generalizing init with
  | nil => simp
  | cons f rest ih =>
    rw [List.foldl_cons, ih, serializeFileInfo_length, List.map_cons, List.sum_cons]
    omega

theorem fileListPayload_eq (files : List FileInfo) :
    fileListPayload files =
      bigEndian32 (files.length % 4294967296) ++ files.foldl serializeFileInfo [] := by
  unfold fileListPayload
  rw [foldl_serializeFileInfo, serializeUint32_eq, List.nil_append]

theorem fileListPayload_length (files : List FileInfo) :
    (fileListPayload files).length =
      4 + (files.map (fun f => 16 + f.filename.length + f.hash.length)).sum := by
  unfold fileListPayload
  rw [foldl_serializeFileInfo_length, serializeUint32_eq]
  rfl

theorem length_le_encoded_sum (files : List FileInfo) :
    files.length ≤ (files.map (fun f => 16 + f.filename.length + f.hash.length)).sum := by
  induction files with
  | nil => simp
  | cons f rest ih =>
    rw [List.length_cons, List.map_cons, List.sum_cons]
    omega

theorem mem_le_encoded_sum (files : List FileInfo) (f : FileInfo) (hf : f ∈ files) :
    16 + f.filename.length + f.hash.length ≤
      (files.map (fun f => 16 + f.filename.length + f.hash.length)).sum := by
  induction files with
  | nil => cases hf
  | cons g rest ih =>
    rw [List.map_cons, List.sum_cons]
    rcases List.mem_cons.mp hf with h | h
    · subst h
      omega
    · have := ih h
      omega

/-- The decoding loop reads back a run of encoded records placed anywhere in a buffer;
each record comes back with the same fields and an empty filepath. -/
theorem parseFileListLoop_encoded (files : List FileInfo)
    (hfields : ∀ f ∈ files, f.filename.length < 4294967296 ∧ f.size < 4294967296 ∧
      f.hash.length < 4294967296 ∧ 0 ≤ f.last_modified ∧ f.last_modified < 4294967296) :
    ∀ (pre post : List Byte) (acc : List FileInfo),
      parseFileListLoop (pre ++ (files.foldl serializeFileInfo [] ++ post))
        files.length pre.length acc =
      some (acc ++ files.map (fun f => { f with filepath := [] })) := by
  induction files with
  | nil =>
    intro pre post acc
    simp [parseFileListLoop]
  | cons f rest ih =>
    intro pre post acc
    obtain ⟨hn, hsz, hh, ht0, ht1⟩ := hfields f (List.mem_cons_self f rest)
    have hrest := ih (fun g hg => hfields g (List.mem_cons_of_mem f hg))
    have hbuf : pre ++ ((f :: rest).foldl serializeFileInfo [] ++ post) =
        pre ++ (bigEndian32 f.filename.length ++ (f.filename ++
          (bigEndian32 f.size ++ (bigEndian32 f.hash.length ++ (f.hash ++
            (bigEndian32 (timeToUint32 f.last_modified % 4294967296) ++
              (rest.foldl serializeFileInfo [] ++ post))))))) := by
      rw [List.foldl_cons, foldl_serializeFileInfo rest, serializeFileInfo_eq,
        Nat.mod_eq_of_lt hn, Nat.mod_eq_of_lt hsz, Nat.mod_eq_of_lt hh]
      simp only [List.nil_append, List.append_assoc]
    rw [hbuf, List.length_cons, parseFileListLoop]
    rw [deserializeString_of_eq _ pre _ f.filename pre.length rfl rfl hn]
    simp only
    rw [deserializeUint32_of_eq _ (pre ++ (bigEndian32 f.filename.length ++ f.filename))
      (bigEndian32 f.hash.length ++ (f.hash ++
        (bigEndian32 (timeToUint32 f.last_modified % 4294967296) ++
          (rest.foldl serializeFileInfo [] ++ post))))
      f.size (pre.length + 4 + f.filename.length)
      (by simp only [List.append_assoc])
      (by simp only [List.length_append, bigEndian32_length]; omega) hsz]
    simp only
    rw [deserializeString_of_eq _
      (pre ++ (bigEndian32 f.filename.length ++ (f.filename ++ bigEndian32 f.size)))
      (bigEndian32 (timeToUint32 f.last_modified % 4294967296) ++
        (rest.foldl serializeFileInfo [] ++ post))
      f.hash (pre.length + 4 + f.filename.length + 4)
      (by simp only [List.append_assoc])
      (by simp only [List.length_append, bigEndian32_length]; omega) hh]
    simp only
    rw [deserializeUint32_of_eq _
      (pre ++ (bigEndian32 f.filename.length ++ (f.filename ++ (bigEndian32 f.size ++
        (bigEndian32 f.hash.length ++ f.hash)))))
      (rest.foldl serializeFileInfo [] ++ post)
      (timeToUint32 f.last_modified % 4294967296)
      (pre.length + 4 + f.filename.length + 4 + 4 + f.hash.length)
      (by simp only [List.append_assoc])
      (by simp only [List.length_append, bigEndian32_length]; omega)
      (Nat.mod_lt _ (by norm_num))]
    simp only
    rw [timeToUint32_of_range _ ht0 ht1]
    have hnext := hrest
      (pre ++ (bigEndian32 f.filename.length ++ (f.filename ++ (bigEndian32 f.size ++
        (bigEndian32 f.hash.length ++ (f.hash ++
          bigEndian32 (timeToUint32 f.last_modified % 4294967296)))))))
      post (acc ++ [{ f with filepath := [] }])
    simp only [List.append_assoc, List.length_append, bigEndian32_length] at hnext
    have hoff : pre.length + 4 + f.filename.length + 4 + 4 + f.hash.length + 4 =
        pre.length + (4 + (f.filename.length + (4 + (4 + (f.hash.length + 4))))) := by
      omega
    rw [hoff, hnext]
    simp

theorem parseFileListResponse_fileListPayload (files : List FileInfo)
    (hlen : (fileListPayload files).length < 4294967296)
    (hfields : ∀ f ∈ files,
      f.size < 4294967296 ∧ 0 ≤ f.last_modified ∧ f.last_modified < 4294967296) :
    parseFileListResponse (fileListPayload files) =
      some (files.map (fun f => { f with filepath := [] })) := by
  rw [fileListPayload_length] at hlen
  have hcount : files.length < 4294967296 :=
    lt_of_le_of_lt (length_le_encoded_sum files) (by omega)
  have hall : ∀ f ∈ files, f.filename.length < 4294967296 ∧ f.size < 4294967296 ∧
      f.hash.length < 4294967296 ∧ 0 ≤ f.last_modified ∧ f.last_modified < 4294967296 := by
    intro f hf
    have h1 := mem_le_encoded_sum files f hf
    obtain ⟨h2, h3, h4⟩ := hfields f hf
    exact ⟨by omega, h2, by omega, h3, h4⟩
  rw [fileListPayload_eq, Nat.mod_eq_of_lt hcount]
  unfold parseFileListResponse
  rw [deserializeUint32_of_eq
    (bigEndian32 files.length ++ files.foldl serializeFileInfo [])
    [] (files.foldl serializeFileInfo []) files.length 0 rfl rfl hcount]
  simp only
  have h := parseFileListLoop_encoded files hall (bigEndian32 files.length) [] []
  simp only [List.append_nil, List.nil_append, bigEndian32_length] at h
  exact h

theorem fileListPayload_single_length (name : List Byte) (h : name.length = 4294967276) :
    4294967296 ≤ (fileListPayload
      [{ filename := name, filepath := [], size := 0, hash := [],
         last_modified := 0 }]).length := by
  rw [fileListPayload_length]
  simp only [List.map_cons, List.map_nil, List.sum_cons, List.sum_nil, List.length_nil, h]
  norm_num

/-- Counterexample to C8 as stated: one record with size 0, last_modified 0, an empty
hash and a filename of 2^32 - 20 bytes. Its payload has exactly 2^32 bytes, the 32-bit
`payload_size` field of the header holds 0, and `parseMessage` rejects the frame. -/
theorem file_list_frame_rejected_when_payload_overflows :
    parseMessage (createFileListResponse
      [{ filename := List.replicate 4294967276 97, filepath := [], size := 0, hash := [],
         last_modified := 0 }]) = none :=
  parseMessage_createMessage_none MessageType.FILE_LIST_RESPONSE _
    (fileListPayload_single_length _ (List.length_replicate _ _))

/-- C8 (amended): file-list round trip. For every list of FileInfo records whose
encoded payload, 4 + Σ (16 + |filename| + |hash|) bytes, is shorter than 2^32 bytes and
whose size and last_modified lie in [0, 2^32), decoding the frame from
`createFileListResponse files` with `parseMessage` gives type FILE_LIST_RESPONSE, and
`parseFileListResponse` on its payload succeeds and returns, in the same order, records
with the same filename, size, hash and last_modified and an empty filepath. -/
theorem file_list_round_trip (files : List FileInfo)
    (hlen : 4 + (files.map (fun f => 16 + f.filename.length + f.hash.length)).sum < 2 ^ 32)
    (hfields : ∀ f ∈ files, f.size < 2 ^ 32 ∧ 0 ≤ f.last_modified ∧ f.last_modified < 2 ^ 32) :
    ∃ payload : List Byte,
      parseMessage (createFileListResponse files) =
        some (MessageType.FILE_LIST_RESPONSE, payload) ∧
      parseFileListResponse payload =
        some (files.map (fun f => { f with filepath := [] })) := by
  have h32 : (2 : Nat) ^ 32 = 4294967296 := by norm_num
  have hz32 : (2 : Int) ^ 32 = 4294967296 := by norm_num
  rw [h32] at hlen
  have hpl : (fileListPayload files).length < 4294967296 := by
    rw [fileListPayload_length]; exact hlen
  have hf : ∀ f ∈ files,
      f.size < 4294967296 ∧ 0 ≤ f.last_modified ∧ f.last_modified < 4294967296 := by
    intro f hmem
    obtain ⟨h1, h2, h3⟩ := hfields f hmem
    rw [h32] at h1
    rw [hz32] at h3
    exact ⟨h1, h2, h3⟩
  exact ⟨fileListPayload files, parseMessage_createMessage _ _ hpl,
    parseFileListResponse_fileListPayload files hpl hf⟩

/-- Witness for C8 (amended): the two records of the test `FileListMessages`,
file1.txt (1024 bytes, hash1, 1234567890) and file2.jpg (2048 bytes, hash2,
1234567891), both with a non-empty filepath. -/
theorem file_list_round_trip_witness :
    ∃ payload : List Byte,
      parseMessage (createFileListResponse
        [{ filename := [102, 105, 108, 101, 49, 46, 116, 120, 116],
           filepath := [47, 112], size := 1024,
           hash := [104, 97, 115, 104, 49], last_modified := 1234567890 },
         { filename := [102, 105, 108, 101, 50, 46, 106, 112, 103],
           filepath := [47, 113], size := 2048,
           hash := [104, 97, 115, 104, 50], last_modified := 1234567891 }]) =
        some (MessageType.FILE_LIST_RESPONSE, payload) ∧
      parseFileListResponse payload =
        some
          [{ filename := [102, 105, 108, 101, 49, 46, 116, 120, 116],
             filepath := [], size := 1024,
             hash := [104, 97, 115, 104, 49], last_modified := 1234567890 },
           { filename := [102, 105, 108, 101, 50, 46, 106, 112, 103],
             filepath := [], size := 2048,
             hash := [104, 97, 115, 104, 50], last_modified := 1234567891 }] :=
  file_list_round_trip
    [{ filename := [102, 105, 108, 101, 49, 46, 116, 120, 116],
       filepath := [47, 112], size := 1024,
       hash := [104, 97, 115, 104, 49], last_modified := 1234567890 },
     { filename := [102, 105, 108, 101, 50, 46, 106, 112, 103],
       filepath := [47, 113], size := 2048,
       hash := [104, 97, 115, 104, 50], last_modified := 1234567891 }]
    (by decide) (by decide)

/-! ## Typed payloads: the peer list -/

theorem serializeString_append (buffer str : List Byte) :
    serializeString buffer str = buffer ++ serializeString [] str := by
  rw [serializeString_eq buffer, serializeString_eq [], List.nil_append]

theorem foldl_serializeString (strs : List (List Byte)) (init : List Byte) :
    strs.foldl serializeString init = init ++ strs.foldl serializeString [] := by
  induction strs generalizing init with
  | nil => simp
  | cons str rest ih =>
    rw [List.foldl_cons, List.foldl_cons, ih (serializeString init str),
      ih (serializeString [] str), serializeString_append init str, List.append_assoc]

theorem serializeString_length (buffer str : List Byte) :
    (serializeString buffer str).length = buffer.length + (4 + str.length) := by
  rw [serializeString_eq]
  simp only [List.length_append, bigEndian32_length]

theorem foldl_serializeString_length (strs : List (List Byte)) (init : List Byte) :
    (strs.foldl serializeString init).length =
      init.length + (strs.map (fun str => 4 + str.length)).sum := by
  induction strs generalizing init with
  | nil => simp
  | cons str rest ih =>
    rw [List.foldl_cons, ih, serializeString_length, List.map_cons, List.sum_cons]
    omega

theorem peerListPayload_eq (peer_data : List (List Byte)) :
    peerListPayload peer_data =
      bigEndian32 (peer_data.length % 4294967296) ++ peer_data.foldl serializeString [] := by
  unfold peerListPayload
  rw [foldl_serializeString, serializeUint32_eq, List.nil_append]

theorem peerListPayload_length (peer_data : List (List Byte)) :
    (peerListPayload peer_data).length =
      4 + (peer_data.map (fun str => 4 + str.length)).sum := by
  unfold peerListPayload
  rw [foldl_serializeString_length, serializeUint32_eq]
  rfl

theorem length_le_string_sum (strs : List (List Byte)) :
    strs.length ≤ (strs.map (fun str => 4 + str.length)).sum := by
  induction strs with
  | nil => simp
  | cons str rest ih =>
    rw [List.length_cons, List.map_cons, List.sum_cons]
    omega

theorem mem_le_string_sum (strs : List (List Byte)) (str : List Byte) (h : str ∈ strs) :
    4 + str.length ≤ (strs.map (fun str => 4 + str.length)).sum := by
  induction strs with
  | nil => cases h
  | cons other rest ih =>
    rw [List.map_cons, List.sum_cons]
    rcases List.mem_cons.mp h with h1 | h1
    · subst h1
      omega
    · have := ih h1
      omega

/-- The decoding loop reads back a run of encoded strings placed anywhere in a buffer. -/
theorem parsePeerListLoop_encoded (strs : List (List Byte))
    (hlen : ∀ str ∈ strs, str.length < 4294967296) :
    ∀ (pre post : List Byte) (acc : List (List Byte)),
      parsePeerListLoop (pre ++ (strs.foldl serializeString [] ++ post))
        strs.length pre.length acc = some (acc ++ strs) := by
  induction strs with
  | nil =>
    intro pre post acc
    simp [parsePeerListLoop]
  | cons str rest ih =>
    intro pre post acc
    have hs := hlen str (List.mem_cons_self str rest)
    have hrest := ih (fun other h => hlen other (List.mem_cons_of_mem str h))
    have hbuf : pre ++ ((str :: rest).foldl serializeString [] ++ post) =
        pre ++ (bigEndian32 str.length ++ (str ++
          (rest.foldl serializeString [] ++ post))) := by
      rw [List.foldl_cons, foldl_serializeString rest, serializeString_eq,
        Nat.mod_eq_of_lt hs]
      simp only [List.nil_append, List.append_assoc]
    rw [hbuf, List.length_cons, parsePeerListLoop]
    rw [deserializeString_of_eq _ pre _ str pre.length rfl rfl hs]
    simp only
    have hnext := hrest (pre ++ (bigEndian32 str.length ++ str)) post (acc ++ [str])
    simp only [List.append_assoc, List.length_append, bigEndian32_length] at hnext
    have hoff : pre.length + 4 + str.length = pre.length + (4 + str.length) := by omega
    rw [hoff, hnext]
    simp

theorem parsePeerListResponse_peerListPayload (peer_data : List (List Byte))
    (hlen : (peerListPayload peer_data).length < 4294967296) :
    parsePeerListResponse (peerListPayload peer_data) = some peer_data := by
  rw [peerListPayload_length] at hlen
  have hcount : peer_data.length < 4294967296 :=
    lt_of_le_of_lt (length_le_string_sum peer_data) (by omega)
  have hall : ∀ str ∈ peer_data, str.length < 4294967296 := by
    intro str h
    have h1 := mem_le_string_sum peer_data str h
    omega
  rw [peerListPayload_eq, Nat.mod_eq_of_lt hcount]
  unfold parsePeerListResponse
  rw [deserializeUint32_of_eq
    (bigEndian32 peer_data.length ++ peer_data.foldl serializeString [])
    [] (peer_data.foldl serializeString []) peer_data.length 0 rfl rfl hcount]
  simp only
  have h := parsePeerListLoop_encoded peer_data hall (bigEndian32 peer_data.length) [] []
  simp only [List.append_nil, List.nil_append, bigEndian32_length] at h
  exact h

theorem peerListPayload_single_length (str : List Byte) (h : str.length = 4294967288) :
    4294967296 ≤ (peerListPayload [str]).length := by
  rw [peerListPayload_length]
  simp only [List.map_cons, List.map_nil, List.sum_cons, List.sum_nil, h]
  norm_num

/-- Counterexample to C11 as stated: the one-element list holding a string of
2^32 - 8 bytes. Its payload has exactly 2^32 bytes, the 32-bit `payload_size` field of
the header holds 0, and `parseMessage` rejects the frame. -/
theorem peer_list_frame_rejected_when_payload_overflows :
    parseMessage (createPeerListResponse [List.replicate 4294967288 97]) = none :=
  parseMessage_createMessage_none MessageType.PEER_LIST_RESPONSE _
    (peerListPayload_single_length _ (List.length_replicate _ _))

/-- C11 (amended): peer-list round trip. For every list of strings whose encoded
payload, 4 + Σ (4 + |string|) bytes, is shorter than 2^32 bytes, decoding the frame from
`createPeerListResponse peers` gives type PEER_LIST_RESPONSE, and
`parsePeerListResponse` on its payload succeeds and returns the same strings in the
same order. -/
theorem peer_list_round_trip (peers : List (List Byte))
    (hlen : 4 + (peers.map (fun str => 4 + str.length)).sum < 2 ^ 32) :
    ∃ payload : List Byte,
      parseMessage (createPeerListResponse peers) =
        some (MessageType.PEER_LIST_RESPONSE, payload) ∧
      parsePeerListResponse payload = some peers := by
  have h32 : (2 : Nat) ^ 32 = 4294967296 := by norm_num
  rw [h32] at hlen
  have hpl : (peerListPayload peers).length < 4294967296 := by
    rw [peerListPayload_length]; exact hlen
  exact ⟨peerListPayload peers, parseMessage_createMessage _ _ hpl,
    parsePeerListResponse_peerListPayload peers hpl⟩

/-- Witness for C11 (amended): the two strings "p1|a|1|1" and "p2". -/
theorem peer_list_round_trip_witness :
    ∃ payload : List Byte,
      parseMessage (createPeerListResponse
        [[112, 49, 124, 97, 124, 49, 124, 49], [112, 50]]) =
        some (MessageType.PEER_LIST_RESPONSE, payload) ∧
      parsePeerListResponse payload =
        some [[112, 49, 124, 97, 124, 49, 124, 49], [112, 50]] :=
  peer_list_round_trip [[112, 49, 124, 97, 124, 49, 124, 49], [112, 50]] (by decide)

/-! ## Typed payloads: the error message -/

theorem errorMessagePayload_eq (code : ErrorCode) (message : List Byte) :
    errorMessagePayload code message =
      [code] ++ (bigEndian32 (message.length % 4294967296) ++ message) := by
  unfold errorMessagePayload
  rw [serializeString_eq]

theorem errorMessagePayload_length (code : ErrorCode) (message : List Byte) :
    (errorMessagePayload code message).length = message.length + 5 := by
  rw [errorMessagePayload_eq]
  simp only [List.length_append, bigEndian32_length, List.length_singleton]
  omega

/-- Counterexample to C12 as stated: with a message of 2^32 - 5 bytes the payload has
exactly 2^32 bytes, the 32-bit `payload_size` field of the header holds 0, and
`parseMessage` rejects the frame. -/
theorem error_message_frame_rejected_when_payload_overflows :
    parseMessage (createErrorMessage ErrorCode.FILE_NOT_FOUND
      (List.replicate 4294967291 97)) = none :=
  parseMessage_createMessage_none MessageType.ERROR_MESSAGE
    (errorMessagePayload ErrorCode.FILE_NOT_FOUND (List.replicate 4294967291 97))
    (by rw [errorMessagePayload_length, List.length_replicate])

/-- C12 (amended): error-message encoding. For every error code and every message
string of fewer than 2^32 - 5 bytes (so that the payload is shorter than 2^32 bytes),
decoding the frame from `createErrorMessage code message` gives type ERROR_MESSAGE and
a payload that is the one-byte code followed by the wire-string encoding of message,
so that reading one byte and then one string from the payload recovers exactly
(code, message). -/
theorem error_message_encoding (code : ErrorCode) (message : List Byte)
    (hlen : message.length + 5 < 2 ^ 32) :
    ∃ payload : List Byte,
      parseMessage (createErrorMessage code message) =
        some (MessageType.ERROR_MESSAGE, payload) ∧
      payload = code :: serializeString [] message ∧
      payload.head? = some code ∧
      deserializeString payload 1 = some (message, 1 + 4 + message.length) := by
  have h32 : (2 : Nat) ^ 32 = 4294967296 := by norm_num
  rw [h32] at hlen
  have hm : message.length < 4294967296 := by omega
  refine ⟨errorMessagePayload code message, ?_, ?_, ?_, ?_⟩
  · exact parseMessage_createMessage _ _ (by rw [errorMessagePayload_length]; exact hlen)
  · rw [errorMessagePayload_eq, serializeString_eq]
    rfl
  · rw [errorMessagePayload_eq]
    rfl
  · rw [errorMessagePayload_eq, Nat.mod_eq_of_lt hm]
    exact deserializeString_of_eq _ [code] [] message 1
      (by simp only [List.append_nil]) rfl hm

/-- Witness for C12 (amended): the code FILE_NOT_FOUND with the message "gone". -/
theorem error_message_encoding_witness :
    ∃ payload : List Byte,
      parseMessage (createErrorMessage ErrorCode.FILE_NOT_FOUND [103, 111, 110, 101]) =
        some (MessageType.ERROR_MESSAGE, payload) ∧
      payload = ErrorCode.FILE_NOT_FOUND :: serializeString [] [103, 111, 110, 101] ∧
      payload.head? = some ErrorCode.FILE_NOT_FOUND ∧
      deserializeString payload 1 = some ([103, 111, 110, 101], 1 + 4 + 4) :=
  error_message_encoding ErrorCode.FILE_NOT_FOUND [103, 111, 110, 101] (by decide)

/-! ## The client request against the codec frame -/

/-- Counterexample to C13 as stated: for the filename "a" a connected client writes the
six bytes 0, 0, 0, 2, 5, 97, which are not the 30-byte frame
`createFileRequest "a" 0 0`. -/
theorem download_request_is_not_codec_frame :
    Client.downloadFileRequest true [97] = some [0, 0, 0, 2, 5, 97] ∧
    Client.downloadFileRequest true [97] ≠ some (createFileRequest [97] 0 0) := by
  decide

/-- C13 (amended): for every filename, the bytes `Client::downloadFile` writes to the
socket of a connected client to request the file (via `Client::sendMessage`) are the
4-byte big-endian value of (1 + |filename|) modulo 2^32, then the type byte
FILE_REQUEST (5), then the raw bytes of the filename; there is no 17-byte header, no
checksum, no string length prefix and no offset or length field, so they never equal
the frame `createFileRequest filename 0 0`. -/
theorem download_request_bytes (filename : List Byte) :
    Client.downloadFileRequest true filename =
      some ([byteOf ((filename.length + 1) % 4294967296 / 16777216),
             byteOf ((filename.length + 1) % 4294967296 / 65536),
             byteOf ((filename.length + 1) % 4294967296 / 256),
             byteOf ((filename.length + 1) % 4294967296)] ++
            [MessageType.FILE_REQUEST] ++ filename) ∧
    Client.downloadFileRequest true filename ≠ some (createFileRequest filename 0 0) := by
  have hbytes : Client.downloadFileRequest true filename =
      some (bigEndian32 ((filename.length + 1) % 4294967296) ++
        (MessageType.FILE_REQUEST :: filename)) := by
    unfold Client.downloadFileRequest Client.sendMessage
    simp only [Bool.not_true, Bool.false_eq_true, if_false, List.length_cons,
      storeU32_htonl]
  constructor
  · rw [hbytes]
    rfl
  · rw [hbytes]
    intro heq
    have hl := congrArg List.length (Option.some.inj heq)
    unfold createFileRequest at hl
    rw [createMessage_length, fileRequestPayload_length] at hl
    simp only [List.length_append, bigEndian32_length, List.length_cons,
      sizeofMessageHeader] at hl
    omega

/-! ## Peer records: `serialize` and `deserialize` -/

/-- The record of the test `Serialization` (two files with non-empty hashes) comes back
from `deserialize` with its id, address, port, flag and both files. -/
theorem peer_round_trip_of_test_record :
    (Peer.deserialize 9
      (Peer.serialize
        { peer_id := [112, 49], ip_address := [49, 46, 50], port := 8888,
          shared_files :=
            [{ filename := [116, 46, 116], filepath := [47, 116], size := 1024,
               hash := [104, 49], last_modified := 5 },
             { filename := [105, 46, 106], filepath := [47, 105], size := 2048,
               hash := [104, 50], last_modified := 6 }],
          is_active := true, last_seen := 7 })) =
      some
        { peer_id := [112, 49], ip_address := [49, 46, 50], port := 8888,
          shared_files :=
            [{ filename := [116, 46, 116], filepath := [], size := 1024,
               hash := [104, 49], last_modified := 0 },
             { filename := [105, 46, 106], filepath := [], size := 2048,
               hash := [104, 50], last_modified := 0 }],
          is_active := true, last_seen := 9 } := by
  decide

/-- C14 (the code at the failing input): the peer "a" at "b", port 1, active, with the
single file "f" of size 0 and an empty hash, contains no `|` in any string. It
serializes to `a|b|1|1|1|f|0|`; `getline` yields no token after the final delimiter,
so the token list has 7 entries, the loop guard `idx + 2 < tokens.size()` fails for
the only file, and `deserialize` returns a peer without files. -/
theorem peer_round_trip_loses_file_with_empty_hash :
    Peer.serialize
      { peer_id := [97], ip_address := [98], port := 1,
        shared_files :=
          [{ filename := [102], filepath := [], size := 0, hash := [], last_modified := 0 }],
        is_active := true, last_seen := 0 } =
      [97, 124, 98, 124, 49, 124, 49, 124, 49, 124, 102, 124, 48, 124] ∧
    getlineTokens 124 [97, 124, 98, 124, 49, 124, 49, 124, 49, 124, 102, 124, 48, 124] [] =
      [[97], [98], [49], [49], [49], [102], [48]] ∧
    (Peer.deserialize 0
      (Peer.serialize
        { peer_id := [97], ip_address := [98], port := 1,
          shared_files :=
            [{ filename := [102], filepath := [], size := 0, hash := [],
               last_modified := 0 }],
          is_active := true, last_seen := 0 })).map Peer.getFiles = some [] := by
  decide

/-- C15: for every string that splits on `|` into fewer than five tokens,
`Peer::deserialize` fails (raises an error) and produces no Peer. -/
theorem deserialize_rejects_short_records (now : Int) (data : List Byte)
    (h : (getlineTokens 124 data []).length < 5) :
    Peer.deserialize now data = none := by
  unfold Peer.deserialize
  simp only [h, if_true]

/-- Witness for C15: the strings "a|b|c|d" and "a|b|1|1|", which both split into four
tokens. -/
theorem deserialize_rejects_short_records_witness :
    Peer.deserialize 0 [97, 124, 98, 124, 99, 124, 100] = none ∧
    Peer.deserialize 0 [97, 124, 98, 124, 49, 124, 49, 124] = none :=
  ⟨deserialize_rejects_short_records 0 [97, 124, 98, 124, 99, 124, 100] (by decide),
   deserialize_rejects_short_records 0 [97, 124, 98, 124, 49, 124, 49, 124] (by decide)⟩

/-! ## Peer registry -/

theorem removePeer_assign_of_absent (peers : PeerMap) (key : List Byte) (peer : Peer)
    (h : PeerManager.getPeer peers key = none) :
    PeerManager.removePeer (PeerManager.assign key peer peers) key = peers := by
  induction peers with
  | nil => simp [PeerManager.assign, PeerManager.removePeer]
  | cons e rest ih =>
    unfold PeerManager.getPeer at h
    by_cases he : e.1 = key
    · rw [if_pos he] at h
      cases h
    · rw [if_neg he] at h
      unfold PeerManager.assign
      rw [if_neg he]
      unfold PeerManager.removePeer
      rw [if_neg he, ih h]

/-- Counterexample to C16 as stated: the registry holds a peer under the id "a";
adding another peer with the id "a" overwrites it, and removing "a" leaves the
registry empty, so the peer stored before the add is lost. -/
theorem add_then_remove_loses_overwritten_peer :
    PeerManager.getPeer
      [([97], { peer_id := [97], ip_address := [98], port := 1, shared_files := [],
                is_active := true, last_seen := 0 })] [97] =
      some { peer_id := [97], ip_address := [98], port := 1, shared_files := [],
             is_active := true, last_seen := 0 } ∧
    PeerManager.removePeer
      (PeerManager.addPeer
        [([97], { peer_id := [97], ip_address := [98], port := 1, shared_files := [],
                  is_active := true, last_seen := 0 })]
        (some { peer_id := [97], ip_address := [99], port := 2, shared_files := [],
                is_active := true, last_seen := 5 }))
      [97] = [] := by
  decide

/-- C16 (amended): for every registry state and every peer p whose id is not
registered in it, `addPeer p` followed by `removePeer p.getId()` leaves the registry
mapping (the set of peer ids and the peer stored under each id) equal to what it was
before the add. -/
theorem add_then_remove_restores (peers : PeerMap) (p : Peer)
    (h : PeerManager.getPeer peers p.peer_id = none) :
    PeerManager.removePeer (PeerManager.addPeer peers (some p)) p.peer_id = peers ∧
    ∀ id : List Byte,
      PeerManager.getPeer
        (PeerManager.removePeer (PeerManager.addPeer peers (some p)) p.peer_id) id =
      PeerManager.getPeer peers id := by
  have heq : PeerManager.removePeer (PeerManager.addPeer peers (some p)) p.peer_id = peers :=
    removePeer_assign_of_absent peers p.peer_id p h
  exact ⟨heq, fun id => by rw [heq]⟩

/-- Witness for C16 (amended): the peer "c" is added to and removed from a registry
that holds only the peer "a". -/
theorem add_then_remove_restores_witness :
    PeerManager.removePeer
      (PeerManager.addPeer
        [([97], { peer_id := [97], ip_address := [98], port := 1, shared_files := [],
                  is_active := true, last_seen := 0 })]
        (some { peer_id := [99], ip_address := [100], port := 2, shared_files := [],
                is_active := false, last_seen := 5 }))
      [99] =
      [([97], { peer_id := [97], ip_address := [98], port := 1, shared_files := [],
                is_active := true, last_seen := 0 })] :=
  (add_then_remove_restores
    [([97], { peer_id := [97], ip_address := [98], port := 1, shared_files := [],
              is_active := true, last_seen := 0 })]
    { peer_id := [99], ip_address := [100], port := 2, shared_files := [],
      is_active := false, last_seen := 5 }
    (by decide)).1

/-- C17: for every registry state and every filename n, every peer returned by
`findPeersWithFile n` is also returned by `getActivePeers`, and the result is exactly
the active peers p with `p.hasFile n`. -/
theorem findPeersWithFile_active (peers : PeerMap) (n : List Byte) :
    (∀ p ∈ PeerManager.findPeersWithFile peers n, p ∈ PeerManager.getActivePeers peers) ∧
    PeerManager.findPeersWithFile peers n =
      (PeerManager.getActivePeers peers).filter (fun p => p.hasFile n) := by
  have heq : PeerManager.findPeersWithFile peers n =
      (PeerManager.getActivePeers peers).filter (fun p => p.hasFile n) := by
    unfold PeerManager.findPeersWithFile PeerManager.getActivePeers
    induction peers with
    | nil => rfl
    | cons e rest ih =>
      by_cases ha : e.2.is_active = true <;> by_cases hf : e.2.hasFile n = true <;>
        simp [List.filter_cons, ha, hf, ih]
  refine ⟨?_, heq⟩
  intro p hp
  rw [heq] at hp
  exact (List.mem_filter.mp hp).1

/-- C18: in every registry state reachable through `addPeer`, `removePeer`,
`updatePeerFileList`, `removeStalePeers` and the liveness probe,
`getActivePeerCount() <= getTotalPeerCount()`, and `getActivePeerCount()` equals the
length of `getActivePeers()`. -/
theorem active_count_le_total (peers : PeerMap) (_h : PeerManager.Reachable peers) :
    PeerManager.getActivePeerCount peers ≤ PeerManager.getTotalPeerCount peers ∧
    PeerManager.getActivePeerCount peers = (PeerManager.getActivePeers peers).length := by
  unfold PeerManager.getActivePeerCount PeerManager.getTotalPeerCount
    PeerManager.getActivePeers
  exact ⟨List.countP_le_length _, by rw [List.length_map, List.countP_eq_length_filter]⟩

/-- Witness for C18: the state reached from the empty registry by adding an active
peer "a" and an inactive peer "c" and running one liveness probe in which every
connection fails. -/
theorem active_count_le_total_witness :
    PeerManager.getActivePeerCount
      (PeerManager.broadcastPeerDiscovery (fun _ => none)
        (PeerManager.addPeer
          (PeerManager.addPeer []
            (some { peer_id := [97], ip_address := [98], port := 1, shared_files := [],
                    is_active := true, last_seen := 0 }))
          (some { peer_id := [99], ip_address := [100], port := 2, shared_files := [],
                  is_active := false, last_seen := 5 }))) ≤
    PeerManager.getTotalPeerCount
      (PeerManager.broadcastPeerDiscovery (fun _ => none)
        (PeerManager.addPeer
          (PeerManager.addPeer []
            (some { peer_id := [97], ip_address := [98], port := 1, shared_files := [],
                    is_active := true, last_seen := 0 }))
          (some { peer_id := [99], ip_address := [100], port := 2, shared_files := [],
                  is_active := false, last_seen := 5 }))) :=
  (active_count_le_total _
    (PeerManager.Reachable.broadcastPeerDiscovery _ _
      (PeerManager.Reachable.addPeer _ _
        (PeerManager.Reachable.addPeer _ _ PeerManager.Reachable.init)))).1

/-- C19: stale sweep. After `removeStalePeers` runs at time now, the registry contains
exactly those previously registered peers with now - last_seen <= 5 minutes, each
unchanged and in the same order; every peer whose last_seen is older than 5 minutes is
absent. -/
theorem removeStalePeers_keeps_fresh (now : Int) (peers : PeerMap) :
    PeerManager.removeStalePeers now peers =
      peers.filter (fun e => decide (now - e.2.last_seen ≤ 300000000000)) ∧
    (∀ e : List Byte × Peer, e ∈ PeerManager.removeStalePeers now peers ↔
      e ∈ peers ∧ now - e.2.last_seen ≤ 300000000000) ∧
    (∀ e ∈ peers, now - e.2.last_seen > 300000000000 →
      e ∉ PeerManager.removeStalePeers now peers) := by
  have heq : PeerManager.removeStalePeers now peers =
      peers.filter (fun e => decide (now - e.2.last_seen ≤ 300000000000)) := by
    induction peers with
    | nil => rfl
    | cons e rest ih =>
      unfold PeerManager.removeStalePeers
      by_cases hs : now - e.2.last_seen > staleThreshold
      · have hn : ¬ (now - e.2.last_seen ≤ 300000000000) := by
          unfold staleThreshold at hs
          omega
        rw [if_pos hs, ih, List.filter_cons_of_neg (by simpa using hn)]
      · have hn : now - e.2.last_seen ≤ 300000000000 := by
          unfold staleThreshold at hs
          omega
        rw [if_neg hs, ih, List.filter_cons_of_pos (by simpa using hn)]
  have hmem : ∀ e : List Byte × Peer, e ∈ PeerManager.removeStalePeers now peers ↔
      e ∈ peers ∧ now - e.2.last_seen ≤ 300000000000 := by
    intro e
    rw [heq, List.mem_filter, decide_eq_true_eq]
  refine ⟨heq, hmem, ?_⟩
  intro e _ hold hin
  have := ((hmem e).mp hin).2
  omega

/-! ## Replacing the file list of a registered peer -/

theorem foldl_removeFile_all (names : List FileInfo) (p : Peer)
    (h : ∀ g ∈ p.shared_files, g.filename ∈ names.map (fun f => f.filename)) :
    names.foldl (fun q file => q.removeFile file.filename) p =
      { p with shared_files := [] } := by
  induction names generalizing p with
  | nil =>
    have hnil : p.shared_files = [] := by
      cases hfs : p.shared_files with
      | nil => rfl
      | cons g rest =>
        have := h g (by rw [hfs]; exact List.mem_cons_self g rest)
        simp at this
    cases p
    simp only [List.foldl_nil] at *
    simp [hnil]
  | cons n rest ih =>
    rw [List.foldl_cons]
    have hstep : ∀ g ∈ (p.removeFile n.filename).shared_files,
        g.filename ∈ rest.map (fun f => f.filename) := by
      intro g hg
      unfold Peer.removeFile at hg
      simp only [List.mem_filter, Bool.not_eq_true', decide_eq_false_iff_not] at hg
      have hmem := h g hg.1
      rw [List.map_cons, List.mem_cons] at hmem
      rcases hmem with h1 | h1
      · exact absurd h1 hg.2
      · exact h1
    rw [ih (p.removeFile n.filename) hstep]
    rfl

theorem foldl_addFile (files : List FileInfo) (p : Peer) :
    files.foldl Peer.addFile p =
      { p with shared_files := files.foldl (fun l f => addFileTo f l) p.shared_files } := by
  induction files generalizing p with
  | nil => rfl
  | cons f rest ih =>
    rw [List.foldl_cons, List.foldl_cons, ih]
    rfl

theorem addFileTo_of_absent (file : FileInfo) (l : List FileInfo)
    (h : file.filename ∉ l.map (fun f => f.filename)) :
    addFileTo file l = l ++ [file] := by
  induction l with
  | nil => rfl
  | cons f rest ih =>
    rw [List.map_cons, List.mem_cons, not_or] at h
    unfold addFileTo
    rw [if_neg (fun heq => h.1 heq.symm), ih h.2]
    rfl

theorem foldl_addFileTo_of_nodup (files acc : List FileInfo)
    (h : (acc.map (fun f => f.filename) ++ files.map (fun f => f.filename)).Nodup) :
    files.foldl (fun l f => addFileTo f l) acc = acc ++ files := by
  induction files generalizing acc with
  | nil => simp
  | cons f rest ih =>
    rw [List.foldl_cons]
    have hf : f.filename ∉ acc.map (fun f => f.filename) := by
      intro hin
      rw [List.nodup_append] at h
      exact h.2.2 hin (by rw [List.map_cons]; exact List.mem_cons_self _ _)
    rw [addFileTo_of_absent f acc hf]
    have hnext : ((acc ++ [f]).map (fun f => f.filename) ++
        rest.map (fun f => f.filename)).Nodup := by
      simpa [List.map_append, List.append_assoc] using h
    rw [ih (acc ++ [f]) hnext, List.append_assoc]
    rfl

theorem replaceFiles_of_nodup (now : Int) (p : Peer) (files : List FileInfo)
    (h : (files.map (fun f => f.filename)).Nodup) :
    PeerManager.replaceFiles now p files =
      { p with shared_files := files, last_seen := now } := by
  unfold PeerManager.replaceFiles Peer.getFiles
  simp only
  rw [foldl_removeFile_all p.shared_files p
    (fun g hg => List.mem_map_of_mem (fun f => f.filename) hg), foldl_addFile]
  simp only
  rw [foldl_addFileTo_of_nodup files [] (by simpa using h)]
  rfl

theorem getPeer_updatePeerFileList_same (now : Int) (peers : PeerMap) (id : List Byte)
    (files : List FileInfo) (p : Peer) (h : PeerManager.getPeer peers id = some p) :
    PeerManager.getPeer (PeerManager.updatePeerFileList now peers id files) id =
      some (PeerManager.replaceFiles now p files) := by
  induction peers with
  | nil => cases h
  | cons e rest ih =>
    unfold PeerManager.getPeer at h
    unfold PeerManager.updatePeerFileList
    by_cases he : e.1 = id
    · rw [if_pos he] at h
      rw [if_pos he]
      unfold PeerManager.getPeer
      rw [if_pos he, ← Option.some.inj h]
    · rw [if_neg he] at h
      rw [if_neg he]
      unfold PeerManager.getPeer
      rw [if_neg he, ih h]

theorem getPeer_updatePeerFileList_other (now : Int) (peers : PeerMap)
    (id other : List Byte) (files : List FileInfo) (hne : other ≠ id) :
    PeerManager.getPeer (PeerManager.updatePeerFileList now peers id files) other =
      PeerManager.getPeer peers other := by
  induction peers with
  | nil => rfl
  | cons e rest ih =>
    unfold PeerManager.updatePeerFileList
    by_cases he : e.1 = id
    · rw [if_pos he]
      unfold PeerManager.getPeer
      have ho : ¬ e.1 = other := fun h => hne (h.symm.trans he)
      rw [if_neg ho, if_neg ho]
    · rw [if_neg he]
      unfold PeerManager.getPeer
      by_cases ho : e.1 = other
      · rw [if_pos ho, if_pos ho]
      · rw [if_neg ho, if_neg ho, ih]

/-- Counterexample to C20 as stated: the registered peer "a" is given the list of two
records that share the filename "f" (sizes 1 and 2). `addFile` overwrites the first
record with the second, so `getFiles()` returns one record, not the list passed in. -/
theorem updatePeerFileList_merges_duplicate_names :
    (PeerManager.getPeer
      (PeerManager.updatePeerFileList 5
        [([97], { peer_id := [97], ip_address := [98], port := 1, shared_files := [],
                  is_active := true, last_seen := 0 })]
        [97]
        [{ filename := [102], filepath := [], size := 1, hash := [104], last_modified := 0 },
         { filename := [102], filepath := [], size := 2, hash := [105], last_modified := 0 }])
      [97]).map Peer.getFiles =
      some [{ filename := [102], filepath := [], size := 2, hash := [105],
              last_modified := 0 }] := by
  decide

/-- C20 (amended): for every registered peer_id and every list files whose filenames
are pairwise distinct, after `updatePeerFileList peer_id files` that peer has the same
id, address, port and active flag, its `getFiles()` is exactly files (same records,
same order) and its last_seen is the time of the call; no other peer changes. -/
theorem updatePeerFileList_replaces_files (now : Int) (peers : PeerMap) (peer_id : List Byte)
    (files : List FileInfo) (p : Peer)
    (hreg : PeerManager.getPeer peers peer_id = some p)
    (hnames : (files.map (fun f => f.filename)).Nodup) :
    PeerManager.getPeer (PeerManager.updatePeerFileList now peers peer_id files) peer_id =
      some { p with shared_files := files, last_seen := now } ∧
    ∀ other : List Byte, other ≠ peer_id →
      PeerManager.getPeer (PeerManager.updatePeerFileList now peers peer_id files) other =
        PeerManager.getPeer peers other := by
  constructor
  · rw [getPeer_updatePeerFileList_same now peers peer_id files p hreg,
      replaceFiles_of_nodup now p files hnames]
  · intro other hne
    exact getPeer_updatePeerFileList_other now peers peer_id other files hne

/-- Witness for C20 (amended): the peer "a", registered with one file "old", is given
the two files "f" and "g" at time 5. -/
theorem updatePeerFileList_replaces_files_witness :
    PeerManager.getPeer
      (PeerManager.updatePeerFileList 5
        [([97], { peer_id := [97], ip_address := [98], port := 1,
                  shared_files := [{ filename := [111, 108, 100], filepath := [], size := 9,
                                     hash := [], last_modified := 0 }],
                  is_active := true, last_seen := 0 })]
        [97]
        [{ filename := [102], filepath := [], size := 1, hash := [104], last_modified := 0 },
         { filename := [103], filepath := [], size := 2, hash := [105], last_modified := 0 }])
      [97] =
      some { peer_id := [97], ip_address := [98], port := 1,
             shared_files :=
               [{ filename := [102], filepath := [], size := 1, hash := [104],
                  last_modified := 0 },
                { filename := [103], filepath := [], size := 2, hash := [105],
                  last_modified := 0 }],
             is_active := true, last_seen := 5 } :=
  (updatePeerFileList_replaces_files 5
    [([97], { peer_id := [97], ip_address := [98], port := 1,
              shared_files := [{ filename := [111, 108, 100], filepath := [], size := 9,
                                 hash := [], last_modified := 0 }],
              is_active := true, last_seen := 0 })]
    [97]
    [{ filename := [102], filepath := [], size := 1, hash := [104], last_modified := 0 },
     { filename := [103], filepath := [], size := 2, hash := [105], last_modified := 0 }]
    { peer_id := [97], ip_address := [98], port := 1,
      shared_files := [{ filename := [111, 108, 100], filepath := [], size := 9,
                         hash := [], last_modified := 0 }],
      is_active := true, last_seen := 0 }
    (by decide) (by decide)).1

/-! ## The liveness probe -/

/-- What one heartbeat cycle does to a single peer. -/
theorem getPeer_broadcastPeerDiscovery (probe : Peer → Option Int) (peers : PeerMap)
    (id : List Byte) :
    PeerManager.getPeer (PeerManager.broadcastPeerDiscovery probe peers) id =
      (PeerManager.getPeer peers id).map (fun p =>
        if p.is_active then
          match probe p with
          | some t => p.updateLastSeen t
          | none => p.setActive false 0
        else p) := by
  induction peers with
  | nil => rfl
  | cons e rest ih =>
    unfold PeerManager.broadcastPeerDiscovery at ih ⊢
    rw [List.map_cons]
    by_cases ha : e.2.is_active = true
    · cases hp : probe e.2 with
      | some t =>
        by_cases he : e.1 = id
        · simp [PeerManager.getPeer, ha, hp, he]
        · simp [PeerManager.getPeer, ha, hp, he, ih]
      | none =>
        by_cases he : e.1 = id
        · simp [PeerManager.getPeer, ha, hp, he]
        · simp [PeerManager.getPeer, ha, hp, he, ih]
    · by_cases he : e.1 = id
      · simp [PeerManager.getPeer, ha, he]
      · simp [PeerManager.getPeer, ha, he, ih]

/-- Counterexample to C21 as stated: the registry holds the inactive peer "a" with
last_seen 0 and every probe connection would be accepted (clock reading 9); after
`broadcastPeerDiscovery` the peer is still inactive with last_seen 0, because only the
peers returned by `getActivePeers` are visited. -/
theorem inactive_peer_is_not_restored :
    PeerManager.getPeer
      (PeerManager.broadcastPeerDiscovery (fun _ => some 9)
        [([97], { peer_id := [97], ip_address := [98], port := 1, shared_files := [],
                  is_active := false, last_seen := 0 })])
      [97] =
      some { peer_id := [97], ip_address := [98], port := 1, shared_files := [],
             is_active := false, last_seen := 0 } := by
  decide

/-- C21 (amended): in a heartbeat cycle (`broadcastPeerDiscovery`) only the peers that
are currently active are probed. A registered peer with active=false ends the cycle
unchanged (still inactive, last_seen not bumped) whatever its endpoint does; a
registered active peer whose endpoint accepts the probe stays active with last_seen
bumped to the time of the probe; a registered active peer whose probe fails ends the
cycle with active=false and last_seen unchanged. -/
theorem liveness_probe_effect (probe : Peer → Option Int) (peers : PeerMap)
    (id : List Byte) (p : Peer) (hreg : PeerManager.getPeer peers id = some p) :
    (p.is_active = false →
      PeerManager.getPeer (PeerManager.broadcastPeerDiscovery probe peers) id = some p) ∧
    (∀ t : Int, p.is_active = true → probe p = some t →
      PeerManager.getPeer (PeerManager.broadcastPeerDiscovery probe peers) id =
        some { p with is_active := true, last_seen := t }) ∧
    (p.is_active = true → probe p = none →
      PeerManager.getPeer (PeerManager.broadcastPeerDiscovery probe peers) id =
        some { p with is_active := false }) := by
  rw [getPeer_broadcastPeerDiscovery, hreg]
  refine ⟨?_, ?_, ?_⟩
  · intro ha
    simp [ha]
  · intro t ha hp
    cases p
    simp_all [Peer.updateLastSeen]
  · intro ha hp
    simp [ha, hp, Peer.setActive]

/-- Witness for C21 (amended): a registry with the inactive peer "a" and the active
peer "c", probed with every connection accepted at clock reading 9. -/
theorem liveness_probe_effect_witness :
    PeerManager.getPeer
      (PeerManager.broadcastPeerDiscovery (fun _ => some 9)
        [([97], { peer_id := [97], ip_address := [98], port := 1, shared_files := [],
                  is_active := false, last_seen := 0 }),
         ([99], { peer_id := [99], ip_address := [100], port := 2, shared_files := [],
                  is_active := true, last_seen := 0 })])
      [99] =
      some { peer_id := [99], ip_address := [100], port := 2, shared_files := [],
             is_active := true, last_seen := 9 } :=
  (liveness_probe_effect (fun _ => some 9)
    [([97], { peer_id := [97], ip_address := [98], port := 1, shared_files := [],
              is_active := false, last_seen := 0 }),
     ([99], { peer_id := [99], ip_address := [100], port := 2, shared_files := [],
              is_active := true, last_seen := 0 })]
    [99]
    { peer_id := [99], ip_address := [100], port := 2, shared_files := [],
      is_active := true, last_seen := 0 }
    (by decide)).2.1 9 (by decide) (by decide)

/-! ## The file list of a peer as a map keyed by filename -/

theorem any_addFileTo_same (file : FileInfo) (l : List FileInfo) :
    (addFileTo file l).any (fun f => decide (f.filename = file.filename)) = true := by
  induction l with
  | nil => simp [addFileTo]
  | cons g rest ih =>
    unfold addFileTo
    by_cases hg : g.filename = file.filename
    · simp [hg]
    · rw [if_neg hg, List.any_cons, ih]
      simp

theorem find_addFileTo_same (file : FileInfo) (l : List FileInfo) :
    (addFileTo file l).find? (fun f => decide (f.filename = file.filename)) = some file := by
  induction l with
  | nil => simp [addFileTo]
  | cons g rest ih =>
    unfold addFileTo
    by_cases hg : g.filename = file.filename
    · simp [hg]
    · rw [if_neg hg, List.find?_cons_of_neg _ (by simpa using hg), ih]

theorem any_addFileTo_other (file : FileInfo) (l : List FileInfo) (m : List Byte)
    (hm : m ≠ file.filename) :
    (addFileTo file l).any (fun f => decide (f.filename = m)) =
      l.any (fun f => decide (f.filename = m)) := by
  have hfm : ¬ file.filename = m := fun h => hm h.symm
  induction l with
  | nil => simp [addFileTo, hfm]
  | cons g rest ih =>
    unfold addFileTo
    by_cases hg : g.filename = file.filename
    · have hgm : ¬ g.filename = m := fun h => hm (h.symm.trans hg)
      simp [hg, hgm, hfm]
    · rw [if_neg hg, List.any_cons, List.any_cons, ih]

theorem find_addFileTo_other (file : FileInfo) (l : List FileInfo) (m : List Byte)
    (hm : m ≠ file.filename) :
    (addFileTo file l).find? (fun f => decide (f.filename = m)) =
      l.find? (fun f => decide (f.filename = m)) := by
  have hfm : ¬ file.filename = m := fun h => hm h.symm
  induction l with
  | nil => simp [addFileTo, hfm]
  | cons g rest ih =>
    unfold addFileTo
    by_cases hg : g.filename = file.filename
    · have hgm : ¬ g.filename = m := fun h => hm (h.symm.trans hg)
      rw [if_pos hg, List.find?_cons_of_neg _ (by simpa using hfm),
        List.find?_cons_of_neg _ (by simpa using hgm)]
    · rw [if_neg hg]
      by_cases hgm : g.filename = m
      · simp [hgm]
      · rw [List.find?_cons_of_neg _ (by simpa using hgm),
          List.find?_cons_of_neg _ (by simpa using hgm), ih]

theorem any_filter_same (l : List FileInfo) (n : List Byte) :
    (l.filter (fun f => !decide (f.filename = n))).any (fun f => decide (f.filename = n)) =
      false := by
  induction l with
  | nil => rfl
  | cons g rest ih =>
    by_cases hg : g.filename = n
    · rw [List.filter_cons_of_neg (by simpa using hg), ih]
    · rw [List.filter_cons_of_pos (by simpa using hg), List.any_cons, ih]
      simp [hg]

theorem any_filter_other (l : List FileInfo) (n m : List Byte) (hm : m ≠ n) :
    (l.filter (fun f => !decide (f.filename = n))).any (fun f => decide (f.filename = m)) =
      l.any (fun f => decide (f.filename = m)) := by
  induction l with
  | nil => rfl
  | cons g rest ih =>
    by_cases hg : g.filename = n
    · have hgm : ¬ g.filename = m := fun h => hm (h.symm.trans hg)
      rw [List.filter_cons_of_neg (by simpa using hg), ih, List.any_cons]
      simp [hgm]
    · rw [List.filter_cons_of_pos (by simpa using hg), List.any_cons, List.any_cons, ih]

theorem find_filter_other (l : List FileInfo) (n m : List Byte) (hm : m ≠ n) :
    (l.filter (fun f => !decide (f.filename = n))).find? (fun f => decide (f.filename = m)) =
      l.find? (fun f => decide (f.filename = m)) := by
  induction l with
  | nil => rfl
  | cons g rest ih =>
    by_cases hg : g.filename = n
    · have hgm : ¬ g.filename = m := fun h => hm (h.symm.trans hg)
      rw [List.filter_cons_of_neg (by simpa using hg), ih,
        List.find?_cons_of_neg _ (by simpa using hgm)]
    · rw [List.filter_cons_of_pos (by simpa using hg)]
      by_cases hgm : g.filename = m
      · simp [hgm]
      · rw [List.find?_cons_of_neg _ (by simpa using hgm),
          List.find?_cons_of_neg _ (by simpa using hgm), ih]

/-- C23: the file list of a Peer behaves as a map keyed by filename. After `addFile f`,
`hasFile f.filename` is true and `getFileInfo f.filename` returns f; after
`removeFile n`, `hasFile n` is false; and in both cases `hasFile` and `getFileInfo`
for every other filename give the same result as before the call. -/
theorem peer_files_behave_as_map (p : Peer) (f : FileInfo) (n : List Byte) :
    (p.addFile f).hasFile f.filename = true ∧
    (p.addFile f).getFileInfo f.filename = some f ∧
    (∀ m : List Byte, m ≠ f.filename →
      (p.addFile f).hasFile m = p.hasFile m ∧
      (p.addFile f).getFileInfo m = p.getFileInfo m) ∧
    (p.removeFile n).hasFile n = false ∧
    (∀ m : List Byte, m ≠ n →
      (p.removeFile n).hasFile m = p.hasFile m ∧
      (p.removeFile n).getFileInfo m = p.getFileInfo m) := by
  unfold Peer.hasFile Peer.getFileInfo Peer.addFile Peer.removeFile
  exact ⟨any_addFileTo_same f _, find_addFileTo_same f _,
    fun m hm => ⟨any_addFileTo_other f _ m hm, find_addFileTo_other f _ m hm⟩,
    any_filter_same _ n,
    fun m hm => ⟨any_filter_other _ n m hm, find_filter_other _ n m hm⟩⟩

/-- Witness for C23: the steps of the test `FileManagement` on a peer that holds
"t" and "i": "t" is added again with another size, then removed, and the other
filename "i" is looked up each time. -/
theorem peer_files_behave_as_map_witness :
    (Peer.addFile
      { peer_id := [97], ip_address := [98], port := 1,
        shared_files :=
          [{ filename := [116], filepath := [], size := 1024, hash := [49],
             last_modified := 0 },
           { filename := [105], filepath := [], size := 2048, hash := [50],
             last_modified := 0 }],
        is_active := true, last_seen := 0 }
      { filename := [116], filepath := [], size := 7, hash := [51],
        last_modified := 0 }).getFileInfo [105] =
      some { filename := [105], filepath := [], size := 2048, hash := [50],
             last_modified := 0 } ∧
    (Peer.removeFile
      { peer_id := [97], ip_address := [98], port := 1,
        shared_files :=
          [{ filename := [116], filepath := [], size := 1024, hash := [49],
             last_modified := 0 },
           { filename := [105], filepath := [], size := 2048, hash := [50],
             last_modified := 0 }],
        is_active := true, last_seen := 0 }
      [116]).hasFile [105] = true :=
  ⟨((peer_files_behave_as_map
      { peer_id := [97], ip_address := [98], port := 1,
        shared_files :=
          [{ filename := [116], filepath := [], size := 1024, hash := [49],
             last_modified := 0 },
           { filename := [105], filepath := [], size := 2048, hash := [50],
             last_modified := 0 }],
        is_active := true, last_seen := 0 }
      { filename := [116], filepath := [], size := 7, hash := [51], last_modified := 0 }
      [116]).2.2.1 [105] (by decide)).2,
   ((peer_files_behave_as_map
      { peer_id := [97], ip_address := [98], port := 1,
        shared_files :=
          [{ filename := [116], filepath := [], size := 1024, hash := [49],
             last_modified := 0 },
           { filename := [105], filepath := [], size := 2048, hash := [50],
             last_modified := 0 }],
        is_active := true, last_seen := 0 }
      { filename := [116], filepath := [], size := 7, hash := [51], last_modified := 0 }
      [116]).2.2.2.2 [105] (by decide)).1⟩

/-- C24: for every N and every sequence of N `addFile` calls with pairwise distinct
filenames applied, in any order (any interleaving of the mutex-serialised calls), to a
Peer with no files, `getFiles()` afterwards has exactly N entries. -/
theorem add_distinct_files_count (p : Peer) (files order : List FileInfo)
    (hempty : p.shared_files = [])
    (hnames : (files.map (fun f => f.filename)).Nodup)
    (horder : order.Perm files) :
    (order.foldl Peer.addFile p).getFiles.length = files.length := by
  have hn : (order.map (fun f => f.filename)).Nodup :=
    (List.Perm.nodup_iff (List.Perm.map _ horder)).mpr hnames
  rw [foldl_addFile, hempty]
  unfold Peer.getFiles
  simp only
  rw [foldl_addFileTo_of_nodup order [] (by simpa using hn), List.nil_append]
  exact List.Perm.length_eq horder

/-- Witness for C24: three files "a", "b", "c" added in the order "c", "a", "b". -/
theorem add_distinct_files_count_witness :
    ([{ filename := [99], filepath := [], size := 3, hash := [], last_modified := 0 },
      { filename := [97], filepath := [], size := 1, hash := [], last_modified := 0 },
      { filename := [98], filepath := [], size := 2, hash := [], last_modified := 0 }].foldl
      Peer.addFile (Peer.new [112] [105] 8888 0)).getFiles.length = 3 :=
  add_distinct_files_count (Peer.new [112] [105] 8888 0)
    [{ filename := [97], filepath := [], size := 1, hash := [], last_modified := 0 },
     { filename := [98], filepath := [], size := 2, hash := [], last_modified := 0 },
     { filename := [99], filepath := [], size := 3, hash := [], last_modified := 0 }]
    [{ filename := [99], filepath := [], size := 3, hash := [], last_modified := 0 },
     { filename := [97], filepath := [], size := 1, hash := [], last_modified := 0 },
     { filename := [98], filepath := [], size := 2, hash := [], last_modified := 0 }]
    rfl (by decide) (by decide)

/-! ## Filename uniqueness in the file list of a peer -/

theorem addFileTo_names (file : FileInfo) (l : List FileInfo) :
    (addFileTo file l).map (fun f => f.filename) =
      if file.filename ∈ l.map (fun f => f.filename) then l.map (fun f => f.filename)
      else l.map (fun f => f.filename) ++ [file.filename] := by
  induction l with
  | nil => simp [addFileTo]
  | cons g rest ih =>
    unfold addFileTo
    by_cases hg : g.filename = file.filename
    · simp [hg]
    · have hne : ¬ file.filename = g.filename := fun h => hg h.symm
      rw [if_neg hg, List.map_cons, ih]
      by_cases hin : file.filename ∈ rest.map (fun f => f.filename)
      · simp [hin]
      · simp only [hin, if_false, List.map_cons, List.mem_cons, hne, or_self,
          List.cons_append]

theorem nodup_addFileTo (file : FileInfo) (l : List FileInfo)
    (h : (l.map (fun f => f.filename)).Nodup) :
    ((addFileTo file l).map (fun f => f.filename)).Nodup := by
  rw [addFileTo_names]
  by_cases hin : file.filename ∈ l.map (fun f => f.filename)
  · rw [if_pos hin]
    exact h
  · rw [if_neg hin]
    exact List.Nodup.append h (List.nodup_singleton _)
      (by
        intro a ha hb
        rw [List.mem_singleton] at hb
        exact hin (hb ▸ ha))

theorem nodup_removeFile (n : List Byte) (l : List FileInfo)
    (h : (l.map (fun f => f.filename)).Nodup) :
    ((l.filter (fun f => !decide (f.filename = n))).map (fun f => f.filename)).Nodup :=
  List.Nodup.sublist (List.Sublist.map _ (List.filter_sublist l)) h

theorem nodup_applyOp (p : Peer) (op : FileOp)
    (h : (p.shared_files.map (fun f => f.filename)).Nodup) :
    ((p.applyOp op).shared_files.map (fun f => f.filename)).Nodup := by
  cases op with
  | addFile file => exact nodup_addFileTo file _ h
  | removeFile n => exact nodup_removeFile n _ h

theorem nodup_foldl_applyOp (ops : List FileOp) (p : Peer)
    (h : (p.shared_files.map (fun f => f.filename)).Nodup) :
    ((ops.foldl Peer.applyOp p).shared_files.map (fun f => f.filename)).Nodup := by
  induction ops generalizing p with
  | nil => exact h
  | cons op rest ih => exact ih (p.applyOp op) (nodup_applyOp p op h)

theorem addFileTo_of_present (file : FileInfo) (l : List FileInfo)
    (h : l.any (fun f => decide (f.filename = file.filename)) = true) :
    ∃ (before : List FileInfo) (old : FileInfo) (after : List FileInfo),
      l = before ++ old :: after ∧ old.filename = file.filename ∧
      (∀ g ∈ before, g.filename ≠ file.filename) ∧
      addFileTo file l = before ++ file :: after := by
  induction l with
  | nil => simp at h
  | cons g rest ih =>
    by_cases hg : g.filename = file.filename
    · refine ⟨[], g, rest, rfl, hg, ?_, ?_⟩
      · intro x hx
        cases hx
      · unfold addFileTo
        rw [if_pos hg]
        rfl
    · rw [List.any_cons] at h
      have hrest : rest.any (fun f => decide (f.filename = file.filename)) = true := by
        simpa [hg] using h
      obtain ⟨before, old, after, hl, hold, hbefore, hadd⟩ := ih hrest
      refine ⟨g :: before, old, after, ?_, hold, ?_, ?_⟩
      · rw [hl]
        rfl
      · intro x hx
        rcases List.mem_cons.mp hx with hx1 | hx1
        · rw [hx1]
          exact hg
        · exact hbefore x hx1
      · unfold addFileTo
        rw [if_neg hg, hadd]
        rfl

/-- C28: filename uniqueness invariant. Starting from a new Peer, after any sequence
of `addFile` and `removeFile` calls the file list never contains two entries with the
same filename; `addFile` with an already present filename overwrites that entry in
place and leaves the number of entries and their order unchanged. -/
theorem filename_uniqueness :
    (∀ (id ip : List Byte) (port now : Int) (ops : List FileOp),
      ((ops.foldl Peer.applyOp (Peer.new id ip port now)).getFiles.map
        (fun f => f.filename)).Nodup) ∧
    (∀ (p : Peer) (file : FileInfo), p.hasFile file.filename = true →
      (∃ (before : List FileInfo) (old : FileInfo) (after : List FileInfo),
        p.getFiles = before ++ old :: after ∧ old.filename = file.filename ∧
        (∀ g ∈ before, g.filename ≠ file.filename) ∧
        (p.addFile file).getFiles = before ++ file :: after) ∧
      (p.addFile file).getFiles.length = p.getFiles.length ∧
      (p.addFile file).getFiles.map (fun f => f.filename) =
        p.getFiles.map (fun f => f.filename)) := by
  constructor
  · intro id ip port now ops
    exact nodup_foldl_applyOp ops (Peer.new id ip port now) List.nodup_nil
  · intro p file h
    unfold Peer.hasFile at h
    obtain ⟨before, old, after, hl, hold, hbefore, hadd⟩ :=
      addFileTo_of_present file p.shared_files h
    unfold Peer.getFiles Peer.addFile
    simp only
    refine ⟨⟨before, old, after, hl, hold, hbefore, hadd⟩, ?_, ?_⟩
    · rw [hadd, hl]
      simp only [List.length_append, List.length_cons]
    · rw [hadd, hl]
      simp only [List.map_append, List.map_cons, hold]

/-- Witness for C28: a new peer after adding "a", adding "b", adding "a" again with
another size and removing "c" holds "a" (the new record, still first) and "b". -/
theorem filename_uniqueness_witness :
    ([FileOp.addFile { filename := [97], filepath := [], size := 1, hash := [],
                        last_modified := 0 },
      FileOp.addFile { filename := [98], filepath := [], size := 2, hash := [],
                        last_modified := 0 },
      FileOp.addFile { filename := [97], filepath := [], size := 3, hash := [],
                        last_modified := 0 },
      FileOp.removeFile [99]].foldl Peer.applyOp (Peer.new [112] [105] 8888 0)).getFiles =
      [{ filename := [97], filepath := [], size := 3, hash := [], last_modified := 0 },
       { filename := [98], filepath := [], size := 2, hash := [], last_modified := 0 }] ∧
    (Peer.addFile
      { peer_id := [112], ip_address := [105], port := 8888,
        shared_files :=
          [{ filename := [97], filepath := [], size := 1, hash := [], last_modified := 0 },
           { filename := [98], filepath := [], size := 2, hash := [], last_modified := 0 }],
        is_active := true, last_seen := 0 }
      { filename := [98], filepath := [], size := 9, hash := [],
        last_modified := 0 }).getFiles.length = 2 :=
  ⟨by decide,
   (filename_uniqueness.2
      { peer_id := [112], ip_address := [105], port := 8888,
        shared_files :=
          [{ filename := [97], filepath := [], size := 1, hash := [], last_modified := 0 },
           { filename := [98], filepath := [], size := 2, hash := [], last_modified := 0 }],
        is_active := true, last_seen := 0 }
      { filename := [98], filepath := [], size := 9, hash := [], last_modified := 0 }
      (by decide)).2.1⟩

/-! ## The eligibility filter of the file index -/

theorem isValidFile_eq_false_iff (path : List Byte) :
    isValidFile path = false ↔
      ((pathFilename path).head? = some 46 ∨ pathExtension path ∈ skip_extensions) := by
  unfold isValidFile
  by_cases hdot : (pathFilename path).head? = some 46
  · simp [hdot]
  · simp [hdot]

theorem isValidFile_eq_true (path : List Byte) (h : isValidFile path = true) :
    (pathFilename path).head? ≠ some 46 ∧
      extensionOfName (pathFilename path) ∉ skip_extensions := by
  have hiff := isValidFile_eq_false_iff path
  rw [h] at hiff
  have hnot : ¬ ((pathFilename path).head? = some 46 ∨ pathExtension path ∈ skip_extensions) :=
    fun hor => Bool.noConfusion (hiff.mpr hor)
  exact ⟨fun hd => hnot (Or.inl hd), fun he => hnot (Or.inr he)⟩

theorem scanLoop_eligible (entries : List DirEntry) (local_files : List FileInfo)
    (h : ∀ f ∈ local_files,
      f.filename.head? ≠ some 46 ∧ extensionOfName f.filename ∉ skip_extensions) :
    ∀ f ∈ scanLoop entries local_files,
      f.filename.head? ≠ some 46 ∧ extensionOfName f.filename ∉ skip_extensions := by
  induction entries generalizing local_files with
  | nil => exact h
  | cons entry rest ih =>
    unfold scanLoop
    by_cases hv : (entry.is_regular_file && isValidFile entry.path) = true
    · rw [if_pos hv]
      have hvalid : isValidFile entry.path = true := by
        rw [Bool.and_eq_true] at hv
        exact hv.2
      cases entry.file_size with
      | none => exact h
      | some size =>
        cases entry.last_write_time with
        | none => exact h
        | some mod_time =>
          cases entry.hash with
          | none => exact h
          | some hash =>
            apply ih
            intro f hf
            rcases List.mem_append.mp hf with hf1 | hf1
            · exact h f hf1
            · rw [List.mem_singleton] at hf1
              rw [hf1]
              exact isValidFile_eq_true entry.path hvalid
    · rw [if_neg hv]
      exact ih local_files h

/-- C22: eligibility filter. For every path with a non-empty file name,
`isValidFile` returns false if and only if the file name starts with `.` or its
extension is one of .tmp, .log, .lock, .pid; hence no such file appears in the list
built by `scanDirectory`. -/
theorem eligibility_filter :
    (∀ path : List Byte, pathFilename path ≠ [] →
      (isValidFile path = false ↔
        ((pathFilename path).head? = some 46 ∨
          pathExtension path ∈
            [[46, 116, 109, 112], [46, 108, 111, 103], [46, 108, 111, 99, 107],
             [46, 112, 105, 100]]))) ∧
    (∀ (entries : List DirEntry), ∀ f ∈ scanDirectory entries,
      f.filename.head? ≠ some 46 ∧
      extensionOfName f.filename ∉
        [[46, 116, 109, 112], [46, 108, 111, 103], [46, 108, 111, 99, 107],
         [46, 112, 105, 100]]) := by
  constructor
  · intro path _
    exact isValidFile_eq_false_iff path
  · intro entries
    exact scanLoop_eligible entries [] (fun f hf => by cases hf)

/-- Witness for C22: the path `d/a.tmp` is rejected for its extension, `d/.x` is
rejected as hidden, and `d/a.txt` is accepted. -/
theorem eligibility_filter_witness :
    isValidFile [100, 47, 97, 46, 116, 109, 112] = false ∧
    isValidFile [100, 47, 46, 120] = false ∧
    ¬ (isValidFile [100, 47, 97, 46, 116, 120, 116] = false) :=
  ⟨(eligibility_filter.1 [100, 47, 97, 46, 116, 109, 112] (by decide)).mpr (by decide),
   (eligibility_filter.1 [100, 47, 46, 120] (by decide)).mpr (by decide),
   fun h => absurd ((eligibility_filter.1 [100, 47, 97, 46, 116, 120, 116]
     (by decide)).mp h) (by decide)⟩

/-! ## The download loop -/

/-- One loop iteration from a state that is neither completed nor failed and whose
`downloaded_size` equals `total_downloaded`. -/
theorem downloadStep_invariant (st : DownloadState) (event : Receive)
    (hc : st.progress.completed = false) (hf : st.progress.failed = false)
    (hd : st.progress.downloaded_size = st.total_downloaded) :
    st.progress.downloaded_size ≤
      (Client.downloadStep st event).1.progress.downloaded_size ∧
    ¬ ((Client.downloadStep st event).1.progress.completed = true ∧
        (Client.downloadStep st event).1.progress.failed = true) ∧
    ((Client.downloadStep st event).1.progress.completed = true →
      (Client.downloadStep st event).1.progress.downloaded_size =
        (Client.downloadStep st event).1.progress.total_size) ∧
    ((Client.downloadStep st event).2 = none →
      (Client.downloadStep st event).1.progress.completed = false ∧
      (Client.downloadStep st event).1.progress.failed = false ∧
      (Client.downloadStep st event).1.progress.downloaded_size =
        (Client.downloadStep st event).1.total_downloaded) := by
  cases event with
  | error what => simp [Client.downloadStep, DownloadState.fail, hc]
  | message response =>
    cases response with
    | nil => simp [Client.downloadStep, hc, hf, hd]
    | cons t data =>
      simp only [Client.downloadStep]
      split_ifs <;> simp [DownloadState.fail, hc, hf, hd]

theorem downloadTrace_invariant (events : List Receive) (st : DownloadState)
    (hc : st.progress.completed = false) (hf : st.progress.failed = false)
    (hd : st.progress.downloaded_size = st.total_downloaded) :
    List.Chain' (fun a b => a.progress.downloaded_size ≤ b.progress.downloaded_size)
      (st :: Client.downloadTrace events st) ∧
    ∀ s ∈ Client.downloadTrace events st,
      ¬ (s.progress.completed = true ∧ s.progress.failed = true) ∧
      (s.progress.completed = true → s.progress.downloaded_size = s.progress.total_size) := by
  induction events generalizing st with
  | nil =>
    simp [Client.downloadTrace]
  | cons event rest ih =>
    obtain ⟨hle, hboth, hdone, hrun⟩ := downloadStep_invariant st event hc hf hd
    unfold Client.downloadTrace
    cases hstep : Client.downloadStep st event with
    | mk next result =>
      rw [hstep] at hle hboth hdone hrun
      cases result with
      | some b =>
        simp only
        refine ⟨?_, ?_⟩
        · rw [List.chain'_cons]
          exact ⟨hle, List.chain'_singleton _⟩
        · intro s hs
          rw [List.mem_singleton] at hs
          rw [hs]
          exact ⟨hboth, hdone⟩
      | none =>
        simp only
        obtain ⟨hc2, hf2, hd2⟩ := hrun rfl
        obtain ⟨hchain, hall⟩ := ih next hc2 hf2 hd2
        refine ⟨?_, ?_⟩
        · rw [List.chain'_cons]
          exact ⟨hle, hchain⟩
        · intro s hs
          rcases List.mem_cons.mp hs with h1 | h1
          · rw [h1]
            exact ⟨hboth, hdone⟩
          · exact hall s h1

theorem downloadTrace_getLast (events : List Receive) (st : DownloadState) :
    (st :: Client.downloadTrace events st).getLast? =
      some (Client.downloadLoop events st).1 := by
  induction events generalizing st with
  | nil => rfl
  | cons event rest ih =>
    unfold Client.downloadTrace Client.downloadLoop
    cases hstep : Client.downloadStep st event with
    | mk next result =>
      cases result with
      | some b => rfl
      | none =>
        simp only
        rw [List.getLast?_cons_cons]
        exact ih next

/-- C25: download progress invariant. For every sequence of outcomes of
`receiveMessage` in `Client::downloadFile`, along the states at its start, at the end
of every loop iteration and at return, `downloaded_size` never decreases, completed
and failed are never both true, and whenever completed is true
`downloaded_size = total_size`; the last of these states is the state the call ends
in. -/
theorem download_progress_invariant (connected destination_opens : Bool)
    (filename destination_path : List Byte) (events : List Receive) :
    List.Chain' (fun a b => a.progress.downloaded_size ≤ b.progress.downloaded_size)
      (Client.downloadFileStates connected destination_opens filename destination_path
        events) ∧
    (∀ s ∈ Client.downloadFileStates connected destination_opens filename destination_path
        events,
      ¬ (s.progress.completed = true ∧ s.progress.failed = true) ∧
      (s.progress.completed = true →
        s.progress.downloaded_size = s.progress.total_size)) ∧
    (Client.downloadFileStates connected destination_opens filename destination_path
        events).getLast? =
      some (Client.downloadFile connected destination_opens filename destination_path
        events).1 := by
  unfold Client.downloadFileStates Client.downloadFile
  cases Client.downloadFileRequest connected filename with
  | none =>
    simp [Client.downloadStart, DownloadState.fail]
  | some sent =>
    cases destination_opens with
    | false =>
      simp [Client.downloadStart, DownloadState.fail]
    | true =>
      simp only [Bool.not_true, Bool.false_eq_true, if_false]
      obtain ⟨hchain, hall⟩ := downloadTrace_invariant events
        (Client.downloadStart filename) rfl rfl rfl
      refine ⟨hchain, ?_, downloadTrace_getLast events _⟩
      intro s hs
      rcases List.mem_cons.mp hs with h1 | h1
      · rw [h1]
        simp [Client.downloadStart]
      · exact hall s h1

theorem downloadLoop_chunks (chunks : List (List Byte)) (rest : List Receive)
    (st : DownloadState) (hd : st.progress.downloaded_size = st.total_downloaded) :
    Client.downloadLoop
      (chunks.map (fun data => Receive.message (MessageType.FILE_CHUNK :: data)) ++ rest) st =
    Client.downloadLoop rest
      { progress :=
          { st.progress with downloaded_size := st.total_downloaded + chunks.flatten.length }
        total_downloaded := st.total_downloaded + chunks.flatten.length
        output_file := st.output_file ++ chunks.flatten } := by
  induction chunks generalizing st with
  | nil =>
    cases st with
    | mk progress total_downloaded output_file =>
      cases progress
      simp only at hd
      simp [hd]
  | cons data more ih =>
    rw [List.map_cons, List.cons_append, Client.downloadLoop]
    simp only [Client.downloadStep, if_true]
    rw [ih _ rfl]
    simp only [List.flatten_cons, List.length_append, List.append_assoc, Nat.add_assoc]

/-- C26: for every sequence of FILE_CHUNK frames followed by a FILE_COMPLETE frame
(received by a connected client whose destination file opens), `Client::downloadFile`
returns success, the bytes written to the destination are the concatenation of the
chunk payloads in arrival order, and `downloaded_size` and `total_size` both equal the
total number of those bytes. -/
theorem download_chunks_then_complete (filename destination_path : List Byte)
    (chunks : List (List Byte)) (extra : List Byte) :
    Client.downloadFile true true filename destination_path
      (chunks.map (fun data => Receive.message (MessageType.FILE_CHUNK :: data)) ++
        [Receive.message (MessageType.FILE_COMPLETE :: extra)]) =
      ({ progress :=
           { filename := filename, total_size := chunks.flatten.length,
             downloaded_size := chunks.flatten.length, completed := true, failed := false,
             error_message := [] }
         total_downloaded := chunks.flatten.length
         output_file := chunks.flatten }, some true) := by
  unfold Client.downloadFile
  simp only [Client.downloadFileRequest, Client.sendMessage, Bool.not_true,
    Bool.false_eq_true, if_false]
  rw [downloadLoop_chunks chunks _ (Client.downloadStart filename) rfl]
  simp [Client.downloadLoop, Client.downloadStep, Client.downloadStart,
    MessageType.FILE_COMPLETE, MessageType.FILE_CHUNK]

/-- Counterexample to C27 as stated: a connected client receives a frame of type PING
(none of FILE_CHUNK, FILE_COMPLETE, ERROR_MESSAGE) and then FILE_COMPLETE; the PING
frame is skipped, and the call returns success with failed = false. -/
theorem unexpected_frame_does_not_fail_download :
    Client.downloadFile true true [97] [98]
      [Receive.message [MessageType.PING], Receive.message [MessageType.FILE_COMPLETE]] =
      ({ progress :=
           { filename := [97], total_size := 0, downloaded_size := 0, completed := true,
             failed := false, error_message := [] }
         total_downloaded := 0
         output_file := [] }, some true) := by
  decide

theorem downloadLoop_failure_sets_failed (events : List Receive) (st : DownloadState)
    (hne : ∀ e ∈ events, e ≠ Receive.message [])
    (hret : (Client.downloadLoop events st).2 = some false) :
    (Client.downloadLoop events st).1.progress.failed = true := by
  induction events generalizing st with
  | nil => simp [Client.downloadLoop] at hret
  | cons event rest ih =>
    have hrest : ∀ e ∈ rest, e ≠ Receive.message [] :=
      fun e he => hne e (List.mem_cons_of_mem event he)
    have hevent : event ≠ Receive.message [] := hne event (List.mem_cons_self event rest)
    cases event with
    | error what => simp [Client.downloadLoop, Client.downloadStep, DownloadState.fail]
    | message response =>
      cases response with
      | nil => exact absurd rfl hevent
      | cons t data =>
        by_cases h6 : t = MessageType.FILE_CHUNK
        · simp only [Client.downloadLoop, Client.downloadStep, h6, if_true] at hret ⊢
          exact ih _ hrest hret
        · by_cases h7 : t = MessageType.FILE_COMPLETE
          · simp only [Client.downloadLoop, Client.downloadStep, if_neg h6, if_pos h7] at hret
            simp at hret
          · by_cases h8 : t = MessageType.ERROR_MESSAGE
            · simp only [Client.downloadLoop, Client.downloadStep, if_neg h6, if_neg h7,
                if_pos h8, DownloadState.fail]
            · simp only [Client.downloadLoop, Client.downloadStep, h6, h7, h8,
                if_false] at hret ⊢
              exact ih _ hrest hret

/-- C27 (amended): during `Client::downloadFile`, a failure of `receiveMessage`
(framing failure) or an ERROR_MESSAGE frame sets failed := true and returns failure; a
frame of any type other than FILE_CHUNK, FILE_COMPLETE and ERROR_MESSAGE is skipped,
the loop going on with the next message from an unchanged state; and every call that
returns failure without having received an empty message leaves failed = true on its
progress record. -/
theorem download_failure_paths :
    (∀ (st : DownloadState) (what : List Byte) (rest : List Receive),
      (Client.downloadLoop (Receive.error what :: rest) st).2 = some false ∧
      (Client.downloadLoop (Receive.error what :: rest) st).1.progress.failed = true) ∧
    (∀ (st : DownloadState) (data : List Byte) (rest : List Receive),
      (Client.downloadLoop
        (Receive.message (MessageType.ERROR_MESSAGE :: data) :: rest) st).2 = some false ∧
      (Client.downloadLoop
        (Receive.message (MessageType.ERROR_MESSAGE :: data) :: rest) st).1.progress.failed =
        true) ∧
    (∀ (st : DownloadState) (t : MessageType) (data : List Byte) (rest : List Receive),
      t ≠ MessageType.FILE_CHUNK → t ≠ MessageType.FILE_COMPLETE →
      t ≠ MessageType.ERROR_MESSAGE →
      Client.downloadLoop (Receive.message (t :: data) :: rest) st =
        Client.downloadLoop rest st) ∧
    (∀ (connected destination_opens : Bool) (filename destination_path : List Byte)
      (events : List Receive),
      (∀ e ∈ events, e ≠ Receive.message []) →
      (Client.downloadFile connected destination_opens filename destination_path
        events).2 = some false →
      (Client.downloadFile connected destination_opens filename destination_path
        events).1.progress.failed = true) := by
  refine ⟨?_, ?_, ?_, ?_⟩
  · intro st what rest
    simp [Client.downloadLoop, Client.downloadStep, DownloadState.fail]
  · intro st data rest
    simp [Client.downloadLoop, Client.downloadStep, DownloadState.fail,
      MessageType.ERROR_MESSAGE, MessageType.FILE_CHUNK, MessageType.FILE_COMPLETE]
  · intro st t data rest h6 h7 h8
    simp [Client.downloadLoop, Client.downloadStep, h6, h7, h8]
  · intro connected destination_opens filename destination_path events hne hret
    unfold Client.downloadFile at hret ⊢
    cases hreq : Client.downloadFileRequest connected filename with
    | none => simp [DownloadState.fail]
    | some sent =>
      rw [hreq] at hret
      cases destination_opens with
      | false => simp [DownloadState.fail]
      | true =>
        simp only [Bool.not_true, Bool.false_eq_true, if_false] at hret ⊢
        exact downloadLoop_failure_sets_failed events _ hne hret

/-- Witness for C27 (amended): a connected client receives one chunk, a PONG frame and
then the failure of `receiveMessage`; the call returns failure with failed = true. -/
theorem download_failure_paths_witness :
    (Client.downloadFile true true [97] [98]
      [Receive.message [MessageType.FILE_CHUNK, 1, 2], Receive.message [MessageType.PONG],
       Receive.error [120]]).1.progress.failed = true :=
  download_failure_paths.2.2.2 true true [97] [98]
    [Receive.message [MessageType.FILE_CHUNK, 1, 2], Receive.message [MessageType.PONG],
     Receive.error [120]]
    (by decide) (by decide)

/-! ## The payload parsers stay inside the payload -/

theorem deserializeUint32Reads_lt (buffer : List Byte) (offset : Nat) :
    ∀ i ∈ deserializeUint32Reads buffer offset, i < buffer.length := by
  intro i hi
  unfold deserializeUint32Reads at hi
  by_cases h : offset + 4 > buffer.length
  · rw [if_pos h] at hi
    cases hi
  · rw [if_neg h] at hi
    simp only [List.mem_cons, List.mem_singleton, List.not_mem_nil, or_false] at hi
    omega

theorem deserializeStringReads_lt (buffer : List Byte) (offset : Nat) :
    ∀ i ∈ deserializeStringReads buffer offset, i < buffer.length := by
  intro i hi
  unfold deserializeStringReads at hi
  rcases List.mem_append.mp hi with h1 | h1
  · exact deserializeUint32Reads_lt buffer offset i h1
  · cases hread : deserializeUint32 buffer offset with
    | none =>
      rw [hread] at h1
      cases h1
    | some r =>
      obtain ⟨length, next⟩ := r
      rw [hread] at h1
      simp only at h1
      by_cases h : next + length > buffer.length
      · rw [if_pos h] at h1
        cases h1
      · rw [if_neg h] at h1
        obtain ⟨j, hj, hij⟩ := List.mem_map.mp h1
        rw [List.mem_range] at hj
        omega

theorem parsePeerListLoopReads_lt (payload : List Byte) (remaining offset : Nat) :
    ∀ i ∈ parsePeerListLoopReads payload remaining offset, i < payload.length := by
  induction remaining generalizing offset with
  | zero =>
    intro i hi
    cases hi
  | succ n ih =>
    intro i hi
    unfold parsePeerListLoopReads at hi
    rcases List.mem_append.mp hi with h1 | h1
    · exact deserializeStringReads_lt payload offset i h1
    · cases hs : deserializeString payload offset with
      | none =>
        rw [hs] at h1
        cases h1
      | some r =>
        rw [hs] at h1
        exact ih r.2 i h1

theorem parseFileListLoopReads_lt (payload : List Byte) (remaining offset : Nat) :
    ∀ i ∈ parseFileListLoopReads payload remaining offset, i < payload.length := by
  induction remaining generalizing offset with
  | zero =>
    intro i hi
    cases hi
  | succ n ih =>
    intro i hi
    unfold parseFileListLoopReads at hi
    rcases List.mem_append.mp hi with h1 | h1
    · exact deserializeStringReads_lt payload offset i h1
    · cases hs1 : deserializeString payload offset with
      | none =>
        rw [hs1] at h1
        cases h1
      | some r1 =>
        rw [hs1] at h1
        simp only at h1
        rcases List.mem_append.mp h1 with h2 | h2
        · exact deserializeUint32Reads_lt payload r1.2 i h2
        · cases hs2 : deserializeUint32 payload r1.2 with
          | none =>
            rw [hs2] at h2
            cases h2
          | some r2 =>
            rw [hs2] at h2
            simp only at h2
            rcases List.mem_append.mp h2 with h3 | h3
            · exact deserializeStringReads_lt payload r2.2 i h3
            · cases hs3 : deserializeString payload r2.2 with
              | none =>
                rw [hs3] at h3
                cases h3
              | some r3 =>
                rw [hs3] at h3
                simp only at h3
                rcases List.mem_append.mp h3 with h4 | h4
                · exact deserializeUint32Reads_lt payload r3.2 i h4
                · cases hs4 : deserializeUint32 payload r3.2 with
                  | none =>
                    rw [hs4] at h4
                    cases h4
                  | some r4 =>
                    rw [hs4] at h4
                    exact ih r4.2 i h4

/-- Every index read by one of the four payload parsers lies inside the payload. -/
theorem parsers_read_inside (payload : List Byte) :
    (∀ i ∈ parsePeerListResponseReads payload, i < payload.length) ∧
    (∀ i ∈ parseFileListResponseReads payload, i < payload.length) ∧
    (∀ i ∈ parseFileRequestReads payload, i < payload.length) ∧
    (∀ i ∈ parseFileChunkReads payload, i < payload.length) := by
  refine ⟨?_, ?_, ?_, ?_⟩
  · intro i hi
    unfold parsePeerListResponseReads at hi
    rcases List.mem_append.mp hi with h1 | h1
    · exact deserializeUint32Reads_lt payload 0 i h1
    · cases hs : deserializeUint32 payload 0 with
      | none =>
        rw [hs] at h1
        cases h1
      | some r =>
        rw [hs] at h1
        exact parsePeerListLoopReads_lt payload r.1 r.2 i h1
  · intro i hi
    unfold parseFileListResponseReads at hi
    rcases List.mem_append.mp hi with h1 | h1
    · exact deserializeUint32Reads_lt payload 0 i h1
    · cases hs : deserializeUint32 payload 0 with
      | none =>
        rw [hs] at h1
        cases h1
      | some r =>
        rw [hs] at h1
        exact parseFileListLoopReads_lt payload r.1 r.2 i h1
  · intro i hi
    unfold parseFileRequestReads at hi
    rcases List.mem_append.mp hi with h1 | h1
    · exact deserializeStringReads_lt payload 0 i h1
    · cases hs1 : deserializeString payload 0 with
      | none =>
        rw [hs1] at h1
        cases h1
      | some r1 =>
        rw [hs1] at h1
        simp only at h1
        rcases List.mem_append.mp h1 with h2 | h2
        · exact deserializeUint32Reads_lt payload r1.2 i h2
        · cases hs2 : deserializeUint32 payload r1.2 with
          | none =>
            rw [hs2] at h2
            cases h2
          | some r2 =>
            rw [hs2] at h2
            exact deserializeUint32Reads_lt payload r2.2 i h2
  · intro i hi
    unfold parseFileChunkReads at hi
    rcases List.mem_append.mp hi with h1 | h1
    · exact deserializeUint32Reads_lt payload 0 i h1
    · cases hs1 : deserializeUint32 payload 0 with
      | none =>
        rw [hs1] at h1
        cases h1
      | some r1 =>
        rw [hs1] at h1
        simp only at h1
        rcases List.mem_append.mp h1 with h2 | h2
        · exact deserializeUint32Reads_lt payload r1.2 i h2
        · cases hs2 : deserializeUint32 payload r1.2 with
          | none =>
            rw [hs2] at h2
            cases h2
          | some r2 =>
            obtain ⟨chunk_size, pos⟩ := r2
            rw [hs2] at h2
            simp only at h2
            by_cases h : pos + chunk_size > payload.length
            · rw [if_pos h] at h2
              cases h2
            · rw [if_neg h] at h2
              obtain ⟨j, hj, hij⟩ := List.mem_map.mp h2
              rw [List.mem_range] at hj
              omega

/-! ## Truncated payloads -/

theorem getD_take_of_lt (l : List Byte) (k i : Nat) (h : i < k) :
    (l.take k).getD i 0 = l.getD i 0 := by
  rw [List.getD_eq_getElem?_getD, List.getD_eq_getElem?_getD, List.getElem?_take_of_lt h]

theorem deserializeUint32_take (buffer : List Byte) (offset k : Nat)
    (hk : k ≤ buffer.length) :
    deserializeUint32 (buffer.take k) offset =
      if offset + 4 ≤ k then deserializeUint32 buffer offset else none := by
  unfold deserializeUint32
  rw [List.length_take, Nat.min_eq_left hk]
  by_cases h : offset + 4 ≤ k
  · have h1 : ¬ offset + 4 > k := by omega
    have h2 : ¬ offset + 4 > buffer.length := by omega
    rw [if_pos h, if_neg h1, if_neg h2]
    unfold loadU32At
    rw [getD_take_of_lt _ _ _ (by omega), getD_take_of_lt _ _ _ (by omega),
      getD_take_of_lt _ _ _ (by omega), getD_take_of_lt _ _ _ (by omega)]
  · have h1 : offset + 4 > k := by omega
    rw [if_neg h, if_pos h1]

theorem deserializeString_take (buffer : List Byte) (offset k : Nat) (str : List Byte)
    (next : Nat) (hk : k ≤ buffer.length)
    (h : deserializeString buffer offset = some (str, next)) :
    deserializeString (buffer.take k) offset =
      if next ≤ k then some (str, next) else none := by
  unfold deserializeString at h ⊢
  rw [deserializeUint32_take buffer offset k hk]
  cases hread : deserializeUint32 buffer offset with
  | none =>
    rw [hread] at h
    cases h
  | some r =>
    obtain ⟨length, pos⟩ := r
    rw [hread] at h
    simp only at h
    have hpos : pos = offset + 4 := by
      unfold deserializeUint32 at hread
      by_cases hg : offset + 4 > buffer.length
      · rw [if_pos hg] at hread
        cases hread
      · rw [if_neg hg] at hread
        have := Option.some.inj hread
        exact (congrArg Prod.snd this).symm
    by_cases hg : pos + length > buffer.length
    · rw [if_pos hg] at h
      cases h
    · rw [if_neg hg] at h
      have hpair := Option.some.inj h
      have hstr : List.take length (List.drop pos buffer) = str := congrArg Prod.fst hpair
      have hnext : pos + length = next := congrArg Prod.snd hpair
      by_cases h4 : offset + 4 ≤ k
      · rw [if_pos h4]
        simp only
        rw [List.length_take, Nat.min_eq_left hk]
        by_cases hfit : next ≤ k
        · have hg2 : ¬ pos + length > k := by omega
          rw [if_neg hg2, if_pos hfit, List.drop_take, List.take_take,
            Nat.min_eq_left (by omega), hstr, hnext]
        · have hg2 : pos + length > k := by omega
          rw [if_pos hg2, if_neg hfit]
      · have hfit : ¬ next ≤ k := by omega
        rw [if_neg h4, if_neg hfit]

theorem deserializeUint32_take_of_eq (buffer pre post : List Byte) (v offset k : Nat)
    (hb : buffer = pre ++ (bigEndian32 v ++ post)) (ho : offset = pre.length)
    (hv : v < 4294967296) (hk : k ≤ buffer.length) :
    deserializeUint32 (buffer.take k) offset =
      if offset + 4 ≤ k then some (v, offset + 4) else none := by
  rw [deserializeUint32_take buffer offset k hk,
    deserializeUint32_of_eq buffer pre post v offset hb ho hv]

theorem deserializeString_take_of_eq (buffer pre post str : List Byte) (offset k : Nat)
    (hb : buffer = pre ++ (bigEndian32 str.length ++ (str ++ post)))
    (ho : offset = pre.length) (hs : str.length < 4294967296) (hk : k ≤ buffer.length) :
    deserializeString (buffer.take k) offset =
      if offset + 4 + str.length ≤ k then some (str, offset + 4 + str.length) else none :=
  deserializeString_take buffer offset k str _ hk
    (deserializeString_of_eq buffer pre post str offset hb ho hs)

theorem parsePeerListLoop_truncated (strs : List (List Byte))
    (hlen : ∀ str ∈ strs, str.length < 4294967296) :
    ∀ (pre post : List Byte) (acc : List (List Byte)) (k : Nat),
      pre.length ≤ k → k < pre.length + (strs.foldl serializeString []).length →
      parsePeerListLoop ((pre ++ (strs.foldl serializeString [] ++ post)).take k)
        strs.length pre.length acc = none := by
  induction strs with
  | nil =>
    intro pre post acc k h1 h2
    simp only [List.foldl_nil, List.length_nil] at h2
    omega
  | cons str rest ih =>
    intro pre post acc k h1 h2
    have hs := hlen str (List.mem_cons_self str rest)
    have hrest := ih (fun other h => hlen other (List.mem_cons_of_mem str h))
    have henc : (str :: rest).foldl serializeString [] =
        bigEndian32 str.length ++ (str ++ rest.foldl serializeString []) := by
      rw [List.foldl_cons, foldl_serializeString rest, serializeString_eq,
        Nat.mod_eq_of_lt hs]
      simp only [List.nil_append, List.append_assoc]
    rw [henc] at h2 ⊢
    simp only [List.length_append, bigEndian32_length] at h2
    have hbuf : pre ++ ((bigEndian32 str.length ++
        (str ++ rest.foldl serializeString [])) ++ post) =
        pre ++ (bigEndian32 str.length ++ (str ++
          (rest.foldl serializeString [] ++ post))) := by
      simp only [List.append_assoc]
    rw [hbuf, List.length_cons, parsePeerListLoop]
    rw [deserializeString_take_of_eq _ pre _ str pre.length k rfl rfl hs
      (by simp only [List.length_append, bigEndian32_length]; omega)]
    by_cases hfit : pre.length + 4 + str.length ≤ k
    · rw [if_pos hfit]
      simp only
      have hnext := hrest (pre ++ (bigEndian32 str.length ++ str)) post (acc ++ [str]) k
        (by simp only [List.length_append, bigEndian32_length]; omega)
        (by simp only [List.length_append, bigEndian32_length]; omega)
      simp only [List.append_assoc, List.length_append, bigEndian32_length] at hnext
      have hoff : pre.length + 4 + str.length = pre.length + (4 + str.length) := by omega
      rw [hoff]
      exact hnext
    · rw [if_neg hfit]

theorem parsePeerListResponse_truncated (peer_data : List (List Byte)) (k : Nat)
    (hcount : peer_data.length < 4294967296)
    (hlen : ∀ str ∈ peer_data, str.length < 4294967296)
    (hk : k < (peerListPayload peer_data).length) :
    parsePeerListResponse ((peerListPayload peer_data).take k) = none := by
  rw [peerListPayload_eq, Nat.mod_eq_of_lt hcount] at hk ⊢
  simp only [List.length_append, bigEndian32_length] at hk
  unfold parsePeerListResponse
  rw [deserializeUint32_take_of_eq
    (bigEndian32 peer_data.length ++ peer_data.foldl serializeString [])
    [] (peer_data.foldl serializeString []) peer_data.length 0 k rfl rfl hcount
    (by simp only [List.length_append, bigEndian32_length]; omega)]
  by_cases h4 : 0 + 4 ≤ k
  · rw [if_pos h4]
    simp only
    have h := parsePeerListLoop_truncated peer_data hlen (bigEndian32 peer_data.length) [] []
      k (by simp only [bigEndian32_length]; omega)
      (by simp only [bigEndian32_length]; omega)
    simp only [List.append_nil, bigEndian32_length] at h
    exact h
  · rw [if_neg h4]

theorem parseFileRequest_truncated (filename : List Byte) (offset length k : Nat)
    (hf : filename.length < 4294967296)
    (hk : k < (fileRequestPayload filename offset length).length) :
    parseFileRequest ((fileRequestPayload filename offset length).take k) = none := by
  rw [fileRequestPayload_length] at hk
  rw [fileRequestPayload_eq, Nat.mod_eq_of_lt hf]
  have hlen : (bigEndian32 filename.length ++ (filename ++
      (bigEndian32 (offset % 4294967296) ++ bigEndian32 (length % 4294967296)))).length =
      filename.length + 12 := by
    simp only [List.length_append, bigEndian32_length]
    omega
  unfold parseFileRequest
  rw [deserializeString_take_of_eq
    (bigEndian32 filename.length ++ (filename ++
      (bigEndian32 (offset % 4294967296) ++ bigEndian32 (length % 4294967296))))
    [] (bigEndian32 (offset % 4294967296) ++ bigEndian32 (length % 4294967296))
    filename 0 k rfl rfl hf (by rw [hlen]; omega)]
  by_cases h1 : 0 + 4 + filename.length ≤ k
  · rw [if_pos h1]
    simp only
    rw [deserializeUint32_take_of_eq _ (bigEndian32 filename.length ++ filename)
      (bigEndian32 (length % 4294967296)) (offset % 4294967296) (0 + 4 + filename.length) k
      (by simp only [List.append_assoc])
      (by simp only [List.length_append, bigEndian32_length])
      (Nat.mod_lt _ (by norm_num)) (by rw [hlen]; omega)]
    by_cases h2 : 0 + 4 + filename.length + 4 ≤ k
    · rw [if_pos h2]
      simp only
      rw [deserializeUint32_take_of_eq _
        (bigEndian32 filename.length ++ (filename ++ bigEndian32 (offset % 4294967296)))
        [] (length % 4294967296) (0 + 4 + filename.length + 4) k
        (by simp only [List.append_assoc, List.append_nil])
        (by simp only [List.length_append, bigEndian32_length]; omega)
        (Nat.mod_lt _ (by norm_num)) (by rw [hlen]; omega)]
      have h3 : ¬ 0 + 4 + filename.length + 4 + 4 ≤ k := by omega
      rw [if_neg h3]
    · rw [if_neg h2]
  · rw [if_neg h1]

theorem fileChunkPayload_length (chunk_data : List Byte) (offset : Nat) :
    (fileChunkPayload chunk_data offset).length = chunk_data.length + 8 := by
  rw [fileChunkPayload_eq]
  simp only [List.length_append, bigEndian32_length]
  omega

theorem parseFileChunk_truncated (chunk_data : List Byte) (offset k : Nat)
    (hd : chunk_data.length < 4294967296)
    (hk : k < (fileChunkPayload chunk_data offset).length) :
    parseFileChunk ((fileChunkPayload chunk_data offset).take k) = none := by
  rw [fileChunkPayload_length] at hk
  rw [fileChunkPayload_eq, Nat.mod_eq_of_lt hd]
  have hlen : (bigEndian32 (offset % 4294967296) ++
      (bigEndian32 chunk_data.length ++ chunk_data)).length = chunk_data.length + 8 := by
    simp only [List.length_append, bigEndian32_length]
    omega
  unfold parseFileChunk
  rw [deserializeUint32_take_of_eq
    (bigEndian32 (offset % 4294967296) ++ (bigEndian32 chunk_data.length ++ chunk_data))
    [] (bigEndian32 chunk_data.length ++ chunk_data) (offset % 4294967296) 0 k rfl rfl
    (Nat.mod_lt _ (by norm_num)) (by rw [hlen]; omega)]
  by_cases h1 : 0 + 4 ≤ k
  · rw [if_pos h1]
    simp only
    rw [deserializeUint32_take_of_eq _ (bigEndian32 (offset % 4294967296)) chunk_data
      chunk_data.length (0 + 4) k rfl rfl hd (by rw [hlen]; omega)]
    by_cases h2 : 0 + 4 + 4 ≤ k
    · rw [if_pos h2]
      simp only
      rw [List.length_take, hlen, Nat.min_eq_left (by omega)]
      have h3 : 0 + 4 + 4 + chunk_data.length > k := by omega
      rw [if_pos h3]
    · rw [if_neg h2]
  · rw [if_neg h1]

theorem parseFileListLoop_truncated (files : List FileInfo)
    (hlen : ∀ f ∈ files, f.filename.length < 4294967296 ∧ f.hash.length < 4294967296) :
    ∀ (pre post : List Byte) (acc : List FileInfo) (k : Nat),
      pre.length ≤ k → k < pre.length + (files.foldl serializeFileInfo []).length →
      parseFileListLoop ((pre ++ (files.foldl serializeFileInfo [] ++ post)).take k)
        files.length pre.length acc = none := by
  induction files with
  | nil =>
    intro pre post acc k h1 h2
    simp only [List.foldl_nil, List.length_nil] at h2
    omega
  | cons f rest ih =>
    intro pre post acc k h1 h2
    obtain ⟨hn, hh⟩ := hlen f (List.mem_cons_self f rest)
    have hrest := ih (fun g hg => hlen g (List.mem_cons_of_mem f hg))
    have henc : (f :: rest).foldl serializeFileInfo [] =
        bigEndian32 f.filename.length ++ (f.filename ++
          (bigEndian32 (f.size % 4294967296) ++ (bigEndian32 f.hash.length ++ (f.hash ++
            (bigEndian32 (timeToUint32 f.last_modified % 4294967296) ++
              rest.foldl serializeFileInfo []))))) := by
      rw [List.foldl_cons, foldl_serializeFileInfo rest, serializeFileInfo_eq,
        Nat.mod_eq_of_lt hn, Nat.mod_eq_of_lt hh]
      simp only [List.nil_append, List.append_assoc]
    rw [henc] at h2 ⊢
    simp only [List.length_append, bigEndian32_length] at h2
    have hbuf : pre ++ ((bigEndian32 f.filename.length ++ (f.filename ++
          (bigEndian32 (f.size % 4294967296) ++ (bigEndian32 f.hash.length ++ (f.hash ++
            (bigEndian32 (timeToUint32 f.last_modified % 4294967296) ++
              rest.foldl serializeFileInfo [])))))) ++ post) =
        pre ++ (bigEndian32 f.filename.length ++ (f.filename ++
          (bigEndian32 (f.size % 4294967296) ++ (bigEndian32 f.hash.length ++ (f.hash ++
            (bigEndian32 (timeToUint32 f.last_modified % 4294967296) ++
              (rest.foldl serializeFileInfo [] ++ post))))))) := by
      simp only [List.append_assoc]
    have hblen : (pre ++ (bigEndian32 f.filename.length ++ (f.filename ++
          (bigEndian32 (f.size % 4294967296) ++ (bigEndian32 f.hash.length ++ (f.hash ++
            (bigEndian32 (timeToUint32 f.last_modified % 4294967296) ++
              (rest.foldl serializeFileInfo [] ++ post)))))))).length =
        pre.length + (4 + (f.filename.length + (4 + (4 + (f.hash.length + (4 +
          ((rest.foldl serializeFileInfo []).length + post.length))))))) := by
      simp only [List.length_append, bigEndian32_length]
    rw [hbuf, List.length_cons, parseFileListLoop]
    rw [deserializeString_take_of_eq _ pre _ f.filename pre.length k rfl rfl hn
      (by rw [hblen]; omega)]
    by_cases hfit1 : pre.length + 4 + f.filename.length ≤ k
    · rw [if_pos hfit1]
      simp only
      rw [deserializeUint32_take_of_eq _
        (pre ++ (bigEndian32 f.filename.length ++ f.filename))
        (bigEndian32 f.hash.length ++ (f.hash ++
          (bigEndian32 (timeToUint32 f.last_modified % 4294967296) ++
            (rest.foldl serializeFileInfo [] ++ post))))
        (f.size % 4294967296) (pre.length + 4 + f.filename.length) k
        (by simp only [List.append_assoc])
        (by simp only [List.length_append, bigEndian32_length]; omega)
        (Nat.mod_lt _ (by norm_num)) (by rw [hblen]; omega)]
      by_cases hfit2 : pre.length + 4 + f.filename.length + 4 ≤ k
      · rw [if_pos hfit2]
        simp only
        rw [deserializeString_take_of_eq _
          (pre ++ (bigEndian32 f.filename.length ++ (f.filename ++
            bigEndian32 (f.size % 4294967296))))
          (bigEndian32 (timeToUint32 f.last_modified % 4294967296) ++
            (rest.foldl serializeFileInfo [] ++ post))
          f.hash (pre.length + 4 + f.filename.length + 4) k
          (by simp only [List.append_assoc])
          (by simp only [List.length_append, bigEndian32_length]; omega) hh
          (by rw [hblen]; omega)]
        by_cases hfit3 : pre.length + 4 + f.filename.length + 4 + 4 + f.hash.length ≤ k
        · rw [if_pos hfit3]
          simp only
          rw [deserializeUint32_take_of_eq _
            (pre ++ (bigEndian32 f.filename.length ++ (f.filename ++
              (bigEndian32 (f.size % 4294967296) ++ (bigEndian32 f.hash.length ++ f.hash)))))
            (rest.foldl serializeFileInfo [] ++ post)
            (timeToUint32 f.last_modified % 4294967296)
            (pre.length + 4 + f.filename.length + 4 + 4 + f.hash.length) k
            (by simp only [List.append_assoc])
            (by simp only [List.length_append, bigEndian32_length]; omega)
            (Nat.mod_lt _ (by norm_num)) (by rw [hblen]; omega)]
          by_cases hfit4 :
              pre.length + 4 + f.filename.length + 4 + 4 + f.hash.length + 4 ≤ k
          · rw [if_pos hfit4]
            simp only
            have hnext := hrest
              (pre ++ (bigEndian32 f.filename.length ++ (f.filename ++
                (bigEndian32 (f.size % 4294967296) ++ (bigEndian32 f.hash.length ++ (f.hash ++
                  bigEndian32 (timeToUint32 f.last_modified % 4294967296)))))))
              post
              (acc ++ [FileInfo.mk f.filename [] (f.size % 4294967296) f.hash
                (Int.ofNat (timeToUint32 f.last_modified % 4294967296))]) k
              (by simp only [List.length_append, bigEndian32_length]; omega)
              (by simp only [List.length_append, bigEndian32_length]; omega)
            simp only [List.append_assoc, List.length_append, bigEndian32_length] at hnext
            have hoff : pre.length + 4 + f.filename.length + 4 + 4 + f.hash.length + 4 =
                pre.length + (4 + (f.filename.length + (4 + (4 + (f.hash.length + 4))))) := by
              omega
            rw [hoff]
            exact hnext
          · rw [if_neg hfit4]
        · rw [if_neg hfit3]
      · rw [if_neg hfit2]
    · rw [if_neg hfit1]

theorem parseFileListResponse_truncated (files : List FileInfo) (k : Nat)
    (hcount : files.length < 4294967296)
    (hlen : ∀ f ∈ files, f.filename.length < 4294967296 ∧ f.hash.length < 4294967296)
    (hk : k < (fileListPayload files).length) :
    parseFileListResponse ((fileListPayload files).take k) = none := by
  rw [fileListPayload_eq, Nat.mod_eq_of_lt hcount] at hk ⊢
  simp only [List.length_append, bigEndian32_length] at hk
  unfold parseFileListResponse
  rw [deserializeUint32_take_of_eq
    (bigEndian32 files.length ++ files.foldl serializeFileInfo [])
    [] (files.foldl serializeFileInfo []) files.length 0 k rfl rfl hcount
    (by simp only [List.length_append, bigEndian32_length]; omega)]
  by_cases h4 : 0 + 4 ≤ k
  · rw [if_pos h4]
    simp only
    have h := parseFileListLoop_truncated files hlen (bigEndian32 files.length) [] []
      k (by simp only [bigEndian32_length]; omega)
      (by simp only [bigEndian32_length]; omega)
    simp only [List.append_nil, bigEndian32_length] at h
    exact h
  · rw [if_neg h4]

theorem fileChunkPayload_take_header (chunk_data : List Byte)
    (h : chunk_data.length = 4294967296) :
    8 < (fileChunkPayload chunk_data 0).length ∧
    parseFileChunk ((fileChunkPayload chunk_data 0).take 8) = some ([], 0) := by
  constructor
  · rw [fileChunkPayload_length, h]
    norm_num
  · have hp : fileChunkPayload chunk_data 0 =
        (bigEndian32 0 ++ bigEndian32 0) ++ chunk_data := by
      rw [fileChunkPayload_eq, h, List.append_assoc]
    have ht : List.take 8 ((bigEndian32 0 ++ bigEndian32 0) ++ chunk_data) =
        bigEndian32 0 ++ bigEndian32 0 :=
      List.take_left (bigEndian32 0 ++ bigEndian32 0) chunk_data
    rw [hp, ht]
    decide

/-- Counterexample to C29 as stated: for a chunk of exactly 2^32 bytes at offset 0 the
length field of the payload of `createFileChunk` holds 0, and the strict prefix made of
the first 8 bytes of that payload is accepted by `parseFileChunk` as an empty chunk. -/
theorem truncated_chunk_payload_accepted :
    8 < (fileChunkPayload (List.replicate 4294967296 0) 0).length ∧
    parseFileChunk ((fileChunkPayload (List.replicate 4294967296 0) 0).take 8) =
      some ([], 0) :=
  fileChunkPayload_take_header _ (List.length_replicate _ _)

/-- C29 (amended): truncated payloads are rejected when no count or length field is
truncated. For every payload produced by `createPeerListResponse`,
`createFileListResponse`, `createFileRequest` or `createFileChunk` from fewer than
2^32 list elements, strings shorter than 2^32 bytes and a chunk shorter than 2^32
bytes, every strict prefix of that payload makes the corresponding parser return
false; and for every payload whatsoever no parser reads at an index outside the
payload. -/
theorem truncated_payloads_rejected :
    (∀ (peers : List (List Byte)) (k : Nat), peers.length < 2 ^ 32 →
      (∀ str ∈ peers, str.length < 2 ^ 32) → k < (peerListPayload peers).length →
      parsePeerListResponse ((peerListPayload peers).take k) = none) ∧
    (∀ (files : List FileInfo) (k : Nat), files.length < 2 ^ 32 →
      (∀ f ∈ files, f.filename.length < 2 ^ 32 ∧ f.hash.length < 2 ^ 32) →
      k < (fileListPayload files).length →
      parseFileListResponse ((fileListPayload files).take k) = none) ∧
    (∀ (filename : List Byte) (offset length k : Nat), filename.length < 2 ^ 32 →
      k < (fileRequestPayload filename offset length).length →
      parseFileRequest ((fileRequestPayload filename offset length).take k) = none) ∧
    (∀ (data : List Byte) (offset k : Nat), data.length < 2 ^ 32 →
      k < (fileChunkPayload data offset).length →
      parseFileChunk ((fileChunkPayload data offset).take k) = none) ∧
    (∀ payload : List Byte,
      (∀ i ∈ parsePeerListResponseReads payload, i < payload.length) ∧
      (∀ i ∈ parseFileListResponseReads payload, i < payload.length) ∧
      (∀ i ∈ parseFileRequestReads payload, i < payload.length) ∧
      (∀ i ∈ parseFileChunkReads payload, i < payload.length)) := by
  have h32 : (2 : Nat) ^ 32 = 4294967296 := by norm_num
  rw [h32]
  exact ⟨fun peers k hc hl hk => parsePeerListResponse_truncated peers k hc hl hk,
    fun files k hc hl hk => parseFileListResponse_truncated files k hc hl hk,
    fun filename offset length k hf hk =>
      parseFileRequest_truncated filename offset length k hf hk,
    fun data offset k hd hk => parseFileChunk_truncated data offset k hd hk,
    parsers_read_inside⟩

/-- Witness for C29 (amended): the file request payload for "ab", offset 1, length 2
has 14 bytes; its prefix of 13 bytes is rejected, and so is the prefix of 7 bytes of
the chunk payload for the chunk 1, 2, 3. -/
theorem truncated_payloads_rejected_witness :
    parseFileRequest ((fileRequestPayload [97, 98] 1 2).take 13) = none ∧
    parseFileChunk ((fileChunkPayload [1, 2, 3] 77).take 7) = none :=
  ⟨truncated_payloads_rejected.2.2.1 [97, 98] 1 2 13 (by decide) (by decide),
   truncated_payloads_rejected.2.2.2.1 [1, 2, 3] 77 7 (by decide) (by decide)⟩

/-! ## 32-bit truncation of sizes, timestamps, offsets and lengths -/

theorem timeToUint32_ofNat (t : Int) :
    Int.ofNat (timeToUint32 t % 4294967296) = t % 4294967296 := by
  unfold timeToUint32
  have h0 : 0 ≤ t % 4294967296 := Int.emod_nonneg t (by norm_num)
  have h1 : t % 4294967296 < 4294967296 := Int.emod_lt_of_pos t (by norm_num)
  have h2 : (t % 4294967296).toNat < 4294967296 := by omega
  rw [Nat.mod_eq_of_lt h2]
  exact Int.toNat_of_nonneg h0

theorem parseFileListLoop_encoded_mod (files : List FileInfo)
    (hlen : ∀ f ∈ files, f.filename.length < 4294967296 ∧ f.hash.length < 4294967296) :
    ∀ (pre post : List Byte) (acc : List FileInfo),
      parseFileListLoop (pre ++ (files.foldl serializeFileInfo [] ++ post))
        files.length pre.length acc =
      some (acc ++ files.map (fun f =>
        { filename := f.filename, filepath := [], size := f.size % 4294967296,
          hash := f.hash, last_modified := f.last_modified % 4294967296 })) := by
  induction files with
  | nil =>
    intro pre post acc
    simp [parseFileListLoop]
  | cons f rest ih =>
    intro pre post acc
    obtain ⟨hn, hh⟩ := hlen f (List.mem_cons_self f rest)
    have hrest := ih (fun g hg => hlen g (List.mem_cons_of_mem f hg))
    have hbuf : pre ++ ((f :: rest).foldl serializeFileInfo [] ++ post) =
        pre ++ (bigEndian32 f.filename.length ++ (f.filename ++
          (bigEndian32 (f.size % 4294967296) ++ (bigEndian32 f.hash.length ++ (f.hash ++
            (bigEndian32 (timeToUint32 f.last_modified % 4294967296) ++
              (rest.foldl serializeFileInfo [] ++ post))))))) := by
      rw [List.foldl_cons, foldl_serializeFileInfo rest, serializeFileInfo_eq,
        Nat.mod_eq_of_lt hn, Nat.mod_eq_of_lt hh]
      simp only [List.nil_append, List.append_assoc]
    rw [hbuf, List.length_cons, parseFileListLoop]
    rw [deserializeString_of_eq _ pre _ f.filename pre.length rfl rfl hn]
    simp only
    rw [deserializeUint32_of_eq _ (pre ++ (bigEndian32 f.filename.length ++ f.filename))
      (bigEndian32 f.hash.length ++ (f.hash ++
        (bigEndian32 (timeToUint32 f.last_modified % 4294967296) ++
          (rest.foldl serializeFileInfo [] ++ post))))
      (f.size % 4294967296) (pre.length + 4 + f.filename.length)
      (by simp only [List.append_assoc])
      (by simp only [List.length_append, bigEndian32_length]; omega)
      (Nat.mod_lt _ (by norm_num))]
    simp only
    rw [deserializeString_of_eq _
      (pre ++ (bigEndian32 f.filename.length ++ (f.filename ++
        bigEndian32 (f.size % 4294967296))))
      (bigEndian32 (timeToUint32 f.last_modified % 4294967296) ++
        (rest.foldl serializeFileInfo [] ++ post))
      f.hash (pre.length + 4 + f.filename.length + 4)
      (by simp only [List.append_assoc])
      (by simp only [List.length_append, bigEndian32_length]; omega) hh]
    simp only
    rw [deserializeUint32_of_eq _
      (pre ++ (bigEndian32 f.filename.length ++ (f.filename ++
        (bigEndian32 (f.size % 4294967296) ++ (bigEndian32 f.hash.length ++ f.hash)))))
      (rest.foldl serializeFileInfo [] ++ post)
      (timeToUint32 f.last_modified % 4294967296)
      (pre.length + 4 + f.filename.length + 4 + 4 + f.hash.length)
      (by simp only [List.append_assoc])
      (by simp only [List.length_append, bigEndian32_length]; omega)
      (Nat.mod_lt _ (by norm_num))]
    simp only
    rw [timeToUint32_ofNat]
    have hnext := hrest
      (pre ++ (bigEndian32 f.filename.length ++ (f.filename ++
        (bigEndian32 (f.size % 4294967296) ++ (bigEndian32 f.hash.length ++ (f.hash ++
          bigEndian32 (timeToUint32 f.last_modified % 4294967296)))))))
      post
      (acc ++ [{ filename := f.filename, filepath := [], size := f.size % 4294967296,
                 hash := f.hash, last_modified := f.last_modified % 4294967296 }])
    simp only [List.append_assoc, List.length_append, bigEndian32_length] at hnext
    have hoff : pre.length + 4 + f.filename.length + 4 + 4 + f.hash.length + 4 =
        pre.length + (4 + (f.filename.length + (4 + (4 + (f.hash.length + 4))))) := by
      omega
    rw [hoff, hnext]
    simp

theorem parseFileListResponse_fileListPayload_mod (files : List FileInfo)
    (hcount : files.length < 4294967296)
    (hlen : ∀ f ∈ files, f.filename.length < 4294967296 ∧ f.hash.length < 4294967296) :
    parseFileListResponse (fileListPayload files) =
      some (files.map (fun f =>
        { filename := f.filename, filepath := [], size := f.size % 4294967296,
          hash := f.hash, last_modified := f.last_modified % 4294967296 })) := by
  rw [fileListPayload_eq, Nat.mod_eq_of_lt hcount]
  unfold parseFileListResponse
  rw [deserializeUint32_of_eq
    (bigEndian32 files.length ++ files.foldl serializeFileInfo [])
    [] (files.foldl serializeFileInfo []) files.length 0 rfl rfl hcount]
  simp only
  have h := parseFileListLoop_encoded_mod files hlen (bigEndian32 files.length) [] []
  simp only [List.append_nil, List.nil_append, bigEndian32_length] at h
  exact h

theorem parseFileRequest_fileRequestPayload_append (filename post : List Byte)
    (offset length : Nat) (hf : filename.length < 4294967296) :
    parseFileRequest (fileRequestPayload filename offset length ++ post) =
      some (filename, offset % 4294967296, length % 4294967296) := by
  rw [fileRequestPayload_eq, Nat.mod_eq_of_lt hf]
  have hbuf : bigEndian32 filename.length ++ (filename ++
      (bigEndian32 (offset % 4294967296) ++ bigEndian32 (length % 4294967296))) ++ post =
      bigEndian32 filename.length ++ (filename ++
        (bigEndian32 (offset % 4294967296) ++
          (bigEndian32 (length % 4294967296) ++ post))) := by
    simp only [List.append_assoc]
  rw [hbuf]
  unfold parseFileRequest
  rw [deserializeString_of_eq
    (bigEndian32 filename.length ++ (filename ++
      (bigEndian32 (offset % 4294967296) ++ (bigEndian32 (length % 4294967296) ++ post))))
    [] (bigEndian32 (offset % 4294967296) ++ (bigEndian32 (length % 4294967296) ++ post))
    filename 0 rfl rfl hf]
  simp only
  rw [deserializeUint32_of_eq _ (bigEndian32 filename.length ++ filename)
    (bigEndian32 (length % 4294967296) ++ post) (offset % 4294967296)
    (0 + 4 + filename.length)
    (by simp only [List.append_assoc])
    (by simp only [List.length_append, bigEndian32_length])
    (Nat.mod_lt _ (by norm_num))]
  simp only
  rw [deserializeUint32_of_eq _
    (bigEndian32 filename.length ++ (filename ++ bigEndian32 (offset % 4294967296)))
    post (length % 4294967296) (0 + 4 + filename.length + 4)
    (by simp only [List.append_assoc])
    (by simp only [List.length_append, bigEndian32_length]; omega)
    (Nat.mod_lt _ (by norm_num))]

theorem parseFileRequest_of_long_zero_name (rest : List Byte)
    (h : rest.length + 8 = 4294967296) :
    parseFileRequest (fileRequestPayload ([0, 0, 0, 0, 0, 0, 0, 0] ++ rest) 7 0) =
      some ([], 0, 0) := by
  have hzero : ([0, 0, 0, 0, 0, 0, 0, 0] : List Byte) = bigEndian32 0 ++ bigEndian32 0 := by
    decide
  have hlen : ([0, 0, 0, 0, 0, 0, 0, 0] ++ rest).length % 4294967296 = 0 := by
    rw [List.length_append]
    have h8 : ([0, 0, 0, 0, 0, 0, 0, 0] : List Byte).length = 8 := rfl
    rw [h8, Nat.add_comm, h]
  have hp : fileRequestPayload ([0, 0, 0, 0, 0, 0, 0, 0] ++ rest) 7 0 =
      fileRequestPayload [] 0 0 ++
        (rest ++ (bigEndian32 (7 % 4294967296) ++ bigEndian32 (0 % 4294967296))) := by
    rw [fileRequestPayload_eq, fileRequestPayload_eq, hlen, hzero]
    simp only [List.length_nil, Nat.zero_mod, List.nil_append, List.append_assoc]
  rw [hp, parseFileRequest_fileRequestPayload_append [] _ 0 0 (by decide)]

/-- Counterexample to C30 as stated: for a name of 2^32 zero bytes, offset 7 and
length 0, the length prefix of the name is encoded as 0, the parser takes the empty
name and reads offset and length out of the bytes of the name, and `parseFileRequest`
returns offset 0, not 7 mod 2^32. -/
theorem file_request_offset_lost_with_long_name :
    parseFileRequest
      (fileRequestPayload ([0, 0, 0, 0, 0, 0, 0, 0] ++ List.replicate 4294967288 0) 7 0) =
      some ([], 0, 0) :=
  parseFileRequest_of_long_zero_name _ (by rw [List.length_replicate])

/-- C30 (amended): 32-bit truncation. Sizes, timestamps, offsets and lengths are
encoded modulo 2^32: for every list of fewer than 2^32 FileInfo records whose
filenames and hashes are shorter than 2^32 bytes, `parseFileListResponse` of the
payload of `createFileListResponse` returns for each record its size mod 2^32 and its
last_modified mod 2^32; for every name shorter than 2^32 bytes, `parseFileRequest` of
the payload of `createFileRequest name offset length` returns offset mod 2^32 and
length mod 2^32; the round trip of a value is exact only when it is below 2^32. -/
theorem truncation_to_32_bits :
    (∀ files : List FileInfo, files.length < 2 ^ 32 →
      (∀ f ∈ files, f.filename.length < 2 ^ 32 ∧ f.hash.length < 2 ^ 32) →
      parseFileListResponse (fileListPayload files) =
        some (files.map (fun f =>
          { filename := f.filename, filepath := [], size := f.size % 2 ^ 32,
            hash := f.hash, last_modified := f.last_modified % 2 ^ 32 }))) ∧
    (∀ (name : List Byte) (offset length : Nat), name.length < 2 ^ 32 →
      parseFileRequest (fileRequestPayload name offset length) =
        some (name, offset % 2 ^ 32, length % 2 ^ 32)) ∧
    (∀ value : Nat, value % 2 ^ 32 = value ↔ value < 2 ^ 32) := by
  have h32 : (2 : Nat) ^ 32 = 4294967296 := by norm_num
  have hz32 : (2 : Int) ^ 32 = 4294967296 := by norm_num
  rw [h32, hz32]
  refine ⟨?_, ?_, ?_⟩
  · intro files hc hl
    exact parseFileListResponse_fileListPayload_mod files hc hl
  · intro name offset length hn
    have h := parseFileRequest_fileRequestPayload_append name [] offset length hn
    rw [List.append_nil] at h
    exact h
  · intro value
    constructor
    · intro h
      have := Nat.mod_lt value (by norm_num : 4294967296 > 0)
      omega
    · intro h
      exact Nat.mod_eq_of_lt h

/-- Witness for C30 (amended): a record of size 5000000000 with last_modified -1 comes
back with size 705032704 and last_modified 4294967295, and a request with offset
2^32 + 5 and length 2^32 comes back with offset 5 and length 0. -/
theorem truncation_to_32_bits_witness :
    parseFileListResponse
      (fileListPayload
        [{ filename := [98], filepath := [47], size := 5000000000, hash := [104],
           last_modified := -1 }]) =
      some [{ filename := [98], filepath := [], size := 5000000000 % 2 ^ 32, hash := [104],
              last_modified := -1 % 2 ^ 32 }] ∧
    parseFileRequest (fileRequestPayload [97] 4294967301 4294967296) =
      some ([97], 4294967301 % 2 ^ 32, 4294967296 % 2 ^ 32) :=
  ⟨truncation_to_32_bits.1
      [{ filename := [98], filepath := [47], size := 5000000000, hash := [104],
         last_modified := -1 }] (by decide) (by decide),
   truncation_to_32_bits.2.1 [97] 4294967301 4294967296 (by decide)⟩

end FileShare
